import Mathlib

/-!
# TAFFO initializer: conversion queue, metadata propagation, specialization

A shallow embedding of `TaffoInitializerPass.cpp` and `Annotations.cpp`.

* An `llvm::Value*` is a natural number (its identity).
* The module under analysis is a record of the queries the pass makes on it
  (`users()`, `operands()`, `getType()`, the `isa<>` class of a value).
* The `info` table of the pass is a finite map from values to `ValueInfo`;
  `valueInfo(v)` creates the entry of `v` when it is missing, `hasInfo(v)` tests it.
* A descriptor (`mdutils::MDInfo`) is a value: every `ValueInfo` owns its own.
* `while` loops that can run forever take a fuel argument and answer `timeout`
  when it is used up; a failed `assert`, `cast<>` or a null dereference is `crash`.
-/

namespace Taffo

/-- Identity of an `llvm::Value`. -/
abbrev Value := Nat

/-- Result of running a piece of the pass. -/
inductive Res (α : Type) where
  | ok (a : α)
  | crash
  | timeout
  deriving Repr

/-- The `llvm::Type`s the pass looks at. A struct type is an object with an identity;
its body is looked up in the module. -/
inductive Ty where
  | void
  | fp (k : Nat)
  | int (bits : Nat)
  | ptr (elem : Ty)
  | array (elem : Ty) (n : Nat)
  | vector (elem : Ty) (n : Nat)
  | struct (id : Nat)
  | other
  deriving DecidableEq, Repr

namespace Ty

def isStructTy : Ty → Bool
  | .struct _ => true
  | _ => false

def isPointerTy : Ty → Bool
  | .ptr _ => true
  | _ => false

def isArrayTy : Ty → Bool
  | .array _ _ => true
  | _ => false

def isFloatingPointTy : Ty → Bool
  | .fp _ => true
  | _ => false

def isVoidTy : Ty → Bool
  | .void => true
  | _ => false

/-- Test `isa<SequentialType>`: arrays and vectors. -/
def isSequentialTy : Ty → Bool
  | .array _ _ => true
  | .vector _ _ => true
  | _ => false

end Ty

/-- Value range of a scalar descriptor (`mdutils::Range`); the pass only copies it. -/
structure Range where
  Min : Int
  Max : Int
  deriving DecidableEq, Repr

/-- Descriptor `mdutils::MDInfo`: `InputInfo` (scalar) or `StructInfo` (one
possibly null child per field). -/
inductive MDInfo where
  | inputInfo (IType : Option Nat) (IRange : Option Range) (IError : Option Nat)
      (IEnableConversion : Bool)
  | structInfo (fields : List (Option MDInfo))

namespace MDInfo

/-- Deep copy `MDInfo::clone()`: on values, the same descriptor. -/
def clone (m : MDInfo) : MDInfo := m

/-- Test `isa<InputInfo>`. -/
def isInputInfo : MDInfo → Bool
  | .inputInfo _ _ _ _ => true
  | .structInfo _ => false

/-- Test `isa<StructInfo>`. -/
def isStructInfo : MDInfo → Bool
  | .inputInfo _ _ _ _ => false
  | .structInfo _ => true

/-- Number of children of a `StructInfo` (0 for a scalar). -/
def numFields : MDInfo → Nat
  | .inputInfo _ _ _ _ => 0
  | .structInfo fs => fs.length

/-- Flag `IEnableConversion` of a scalar descriptor; `false` for a `StructInfo`. -/
def enabled : MDInfo → Bool
  | .inputInfo _ _ _ e => e
  | .structInfo _ => false

/-- Assignment `iiu->IEnableConversion = true` on a scalar descriptor. -/
def setEnabled : MDInfo → MDInfo
  | .inputInfo t r e _ => .inputInfo t r e true
  | .structInfo fs => .structInfo fs

end MDInfo

/-- Test on a `shared_ptr<MDInfo>` that may be null: scalar with the flag set. -/
def mdEnabled : Option MDInfo → Bool
  | some m => m.isInputInfo && m.enabled
  | none => false

/-- Per-value record `ValueInfo` of the pass. -/
structure ValueInfo where
  metadata : Option MDInfo
  target : Option String
  fixpTypeRootDistance : Nat
  isRoot : Bool
  isBacktrackingNode : Bool
  backtrackingDepthLeft : Nat
  roots : List Value

/-- The `info` map of the pass, as an association list. -/
abbrev Table := List (Value × ValueInfo)

/-- Class of a value, as far as the `isa<>` tests of the pass tell them apart. -/
inductive Kind where
  | argument
  | basicBlock
  | function
  | globalVariable
  | blockAddress
  | constant
  | phi
  | store
  | gep (sourceElementType : Ty) (indices : List (Option Int))
  | alloca (allocatedType : Ty)
  | call (calledFunction : Option Value)
  | invoke (calledFunction : Option Value)
  | instruction
  deriving DecidableEq, Repr

namespace Kind

/-- Test `isa<Instruction>`. -/
def isInstruction : Kind → Bool
  | .phi | .store | .gep _ _ | .alloca _ | .call _ | .invoke _ | .instruction => true
  | _ => false

/-- Test `isa<User>`: instructions and constants, global objects included. -/
def isUser : Kind → Bool
  | .argument | .basicBlock => false
  | _ => true

def isArgument : Kind → Bool
  | .argument => true
  | _ => false

def isFunction : Kind → Bool
  | .function => true
  | _ => false

def isBlockAddress : Kind → Bool
  | .blockAddress => true
  | _ => false

/-- Test `isa<GlobalObject>`. -/
def isGlobalObject : Kind → Bool
  | .function | .globalVariable => true
  | _ => false

def isPHINode : Kind → Bool
  | .phi => true
  | _ => false

def isStoreInst : Kind → Bool
  | .store => true
  | _ => false

def isCallOrInvoke : Kind → Bool
  | .call _ | .invoke _ => true
  | _ => false

end Kind

/-- The module under analysis, through the queries the pass makes. -/
structure Module where
  /-- Use list `v->users()`, in use-list order. -/
  users : Value → List Value
  /-- Operand list `inst->operands()`. -/
  operands : Value → List Value
  type : Value → Ty
  kind : Value → Kind
  /-- Global object test `hasSection() && getSection() == "llvm.metadata"`. -/
  inMetadataSection : Value → Bool
  /-- Body of a struct type: `getTypeAtIndex`. -/
  structBody : Nat → List Ty

/-- Declarations the two source files use from headers that are not part of the
sources: the integer type and the default-constructed `ValueInfo` of
`TaffoInitializerPass.h`, and the helpers of `TypeUtils.h` and `Metadata.h`. -/
structure Ext where
  /-- Bit width of the unsigned `fixpTypeRootDistance`. -/
  distBits : Nat
  /-- A default-constructed `ValueInfo`, as `valueInfo(v)` inserts it. -/
  fresh : ValueInfo
  fullyUnwrapPointerOrArrayType : Ty → Ty
  isFloatType : Ty → Bool
  /-- Helper `StructInfo::constructFromLLVMType`, null when nothing is derivable. -/
  constructFromLLVMType : Ty → Option MDInfo
  isSpecialFunction : Value → Bool

/-! ## The info table -/

/-- Entry of `v` in the map, if any. -/
def findInfo : Table → Value → Option ValueInfo
  | [], _ => none
  | (k, vi) :: rest, v => if v = k then some vi else findInfo rest v

/-- Test `hasInfo(v)`. -/
def hasInfo (info : Table) (v : Value) : Bool := (findInfo info v).isSome

/-- Entry of `v` as `*valueInfo(v)` reads it. -/
def getInfo (E : Ext) (info : Table) (v : Value) : ValueInfo :=
  match findInfo info v with
  | some vi => vi
  | none => E.fresh

/-- Store an entry: the entry of `v` is replaced, or added when there is none. -/
def setInfo : Table → Value → ValueInfo → Table
  | [], v, vi => [(v, vi)]
  | (k, x) :: rest, v, vi =>
    if k = v then (v, vi) :: rest else (k, x) :: setInfo rest v vi

/-- Call `valueInfo(v)` for its effect: the entry exists afterwards. -/
def touch (E : Ext) (info : Table) (v : Value) : Table :=
  setInfo info v (getInfo E info v)

/-! ## The metadata propagation rule -/

/-- Expression `std::max(d, d+1)` on the unsigned distance type. -/
def candidateDistance (E : Ext) (d : Nat) : Nat :=
  max d ((d + 1) % 2 ^ E.distBits)

/-- Index loop of `extractGEPIMetadata` (lines 381-394), after the first index. -/
def gepiWalk (M : Module) : List (Option Int) → Ty → Option MDInfo → Res (Option MDInfo)
  | [], _, mdi => .ok mdi
  | idx :: rest, ty, mdi =>
    if ty.isSequentialTy then gepiWalk M rest ty mdi
    else
      match idx with
      | none => .ok none
      | some n =>
        match mdi with
        | some (.structInfo fields) =>
          if 0 ≤ n ∧ n.toNat < fields.length then
            match ty with
            | .struct id =>
              if n.toNat < (M.structBody id).length then
                gepiWalk M rest ((M.structBody id).getD n.toNat .other) (fields.getD n.toNat none)
              else .crash
            | _ => .crash
          else .crash
        | _ => .crash

/-- Function `TaffoInitializer::extractGEPIMetadata`. The answer `ok none` is the null
pointer; `crash` is a failed `assert` or `cast<>`. -/
def extractGEPIMetadata (M : Module) (v_gepi pop : Value) (mdi : Option MDInfo) :
    Res (Option MDInfo) :=
  match mdi with
  | none => .crash
  | some md =>
    match M.kind v_gepi with
    | .gep srcTy indices =>
      if (M.operands v_gepi).head? ≠ some pop then .ok none
      else
        match indices with
        | [] => .crash
        | _ :: rest =>
          match gepiWalk M rest srcTy (some md) with
          | .ok (some r) => .ok (some r.clone)
          | .ok none => .ok none
          | .crash => .crash
          | .timeout => .timeout
    | _ => .ok none

/-- Lines 362-366: the enable flag of `u` is forced on when both descriptors are
scalar and the producer's flag is set. -/
def orEnable (umd vmd : Option MDInfo) : Option MDInfo :=
  match umd, vmd with
  | some u, some v =>
    if u.isInputInfo && v.isInputInfo && v.enabled then some u.setEnabled else some u
  | m, _ => m

/-- Lines 341-354: the descriptor assigned to `user` when the rule overwrites. -/
def inheritedMetadata (E : Ext) (M : Module) (used user : Value) (vmd : Option MDInfo) :
    Res (Option MDInfo) :=
  let usedt := E.fullyUnwrapPointerOrArrayType (M.type used)
  let usert := E.fullyUnwrapPointerOrArrayType (M.type user)
  let copyok := (usedt == usert) || ((!usedt.isStructTy && !usert.isStructTy)
    || (M.kind user).isStoreInst)
  if copyok then
    match vmd with
    | some md => .ok (some md.clone)
    | none => .crash
  else
    match extractGEPIMetadata M user used vmd with
    | .ok (some g) => .ok (some g)
    | .ok none =>
      match E.constructFromLLVMType usert with
      | some s => .ok (some s)
      | none => .ok (some (.inputInfo none none none true))
    | .crash => .crash
    | .timeout => .timeout

/-- Function `TaffoInitializer::createInfoOfUser(used, user)`. -/
def createInfoOfUser (E : Ext) (M : Module) (info : Table) (used user : Value) : Res Table :=
  let info1 := touch E info used
  let vinfo := getInfo E info1 used
  let info2 := touch E info1 user
  let uinfo := getInfo E info2 user
  let cand := candidateDistance E vinfo.fixpTypeRootDistance
  if ¬ (uinfo.fixpTypeRootDistance ≤ cand) then
    match inheritedMetadata E M used user vinfo.metadata with
    | .ok md =>
      .ok (setInfo info2 user
        { uinfo with
          metadata := orEnable md vinfo.metadata
          target := vinfo.target
          fixpTypeRootDistance := cand })
    | .crash => .crash
    | .timeout => .timeout
  else
    .ok (setInfo info2 user { uinfo with metadata := orEnable uinfo.metadata vinfo.metadata })

/-! ## The conversion queue builder -/

/-- Fold a fallible loop body over the elements a `for` loop visits. -/
def forEachRes {σ α : Type} (body : σ → α → Res σ) : List α → σ → Res σ
  | [], s => .ok s
  | a :: rest, s =>
    match body s a with
    | .ok s1 => forEachRes body rest s1
    | .crash => .crash
    | .timeout => .timeout

/-- State of one run of `buildConversionQueueForRootValues`. The last two fields
are ghost: they record what the run did and are never read by it. -/
structure BuildState where
  queue : List Value
  info : Table
  visited : List Value
  /-- Ghost: values the backtracking phase inserted (line 297), latest first. -/
  inserted : List Value
  /-- Ghost: calls `createInfoOfUser(used, user)` made, each with the root distance
  that `used` had at the call, latest first. -/
  propagated : List (Value × Value × Nat)

/-- Lines 213-221: erase every `u` from the queue; `i` is the running index and
`next` steps back for each erasure before it. -/
def eraseLoop (u : Value) : List Value → Nat → Nat → List Value × Nat
  | [], _, next => ([], next)
  | x :: xs, i, next =>
    if x = u then eraseLoop u xs i (if i < next then next - 1 else next)
    else ((eraseLoop u xs (i + 1) next).1.cons x, (eraseLoop u xs (i + 1) next).2)

/-- Assignment `valueInfo(v)->isBacktrackingNode = true`. -/
def markBacktracking (E : Ext) (info : Table) (v : Value) : Table :=
  setInfo info v { getInfo E info v with isBacktrackingNode := true }

/-- Assignment `valueInfo(v)->isRoot = b`. -/
def setIsRoot (E : Ext) (info : Table) (v : Value) (b : Bool) : Table :=
  setInfo info v { getInfo E info v with isRoot := b }

/-- Lines 202-205: `u` is a global object of the `llvm.metadata` section (the global
annotation array), which the forward pass ignores. -/
def isAnnotationGlobal (M : Module) (u : Value) : Bool :=
  (M.kind u).isGlobalObject && M.inMetadataSection u

/-- Body of the loop over `v->users()` in the forward pass (lines 200-228). -/
def forwardUser (E : Ext) (M : Module) (v : Value) (st : BuildState × Nat) (u : Value) :
    Res (BuildState × Nat) :=
  if isAnnotationGlobal M u then .ok st
  else if (M.kind u).isPHINode && decide (u ∈ st.1.visited) then .ok st
  else
    let moved := eraseLoop u st.1.queue 0 st.2
    let info1 := touch E st.1.info v
    let info2 := if (getInfo E info1 v).isBacktrackingNode then markBacktracking E info1 u
      else info1
    match createInfoOfUser E M info2 v u with
    | .ok info3 =>
      .ok ({ st.1 with
              queue := moved.1 ++ [u]
              info := info3
              propagated := (v, u, (getInfo E info2 v).fixpTypeRootDistance) :: st.1.propagated },
           moved.2)
    | .crash => .crash
    | .timeout => .timeout

/-- The forward pass (lines 195-230), from position `next`. -/
def forwardLoop (E : Ext) (M : Module) : Nat → BuildState → Nat → Res BuildState
  | 0, s, next =>
    match s.queue.get? next with
    | none => .ok s
    | some _ => .timeout
  | fuel + 1, s, next =>
    match s.queue.get? next with
    | none => .ok s
    | some v =>
      match forEachRes (forwardUser E M v) (M.users v)
          ({ s with visited := v :: s.visited }, next) with
      | .ok st => forwardLoop E M fuel st.1 (st.2 + 1)
      | .crash => .crash
      | .timeout => .timeout

/-- Lines 281-291: look for `u`; an occurrence at an index below `next` sets
`alreadyIn` and stops, a later one is erased. -/
def findOrErase (u : Value) (next : Nat) : List Value → Nat → List Value × Bool
  | [], _ => ([], false)
  | x :: xs, i =>
    if x = u then
      if i < next then (x :: xs, true) else findOrErase u next xs i
    else ((findOrErase u next xs (i + 1)).1.cons x, (findOrErase u next xs (i + 1)).2)

/-- Call `queue.insert(queue.begin() + k, u)`. -/
def insertAt (q : List Value) (k : Nat) (u : Value) : List Value :=
  q.take k ++ u :: q.drop k

/-- Body of the loop over `inst->operands()` in the backtracking scan (lines 248-306);
`v` is the node at the scan position `next - 1`. -/
def backtrackOperand (E : Ext) (M : Module) (v : Value) (st : BuildState × Nat) (u : Value) :
    Res (BuildState × Nat) :=
  if !(M.kind u).isUser && !(M.kind u).isArgument then .ok st
  else if (M.kind u).isFunction || (M.kind u).isBlockAddress then .ok st
  else if !E.isFloatType (M.type u) then .ok st
  else
    let info1 := setIsRoot E st.1.info v false
    let info2 := markBacktracking E info1 u
    let found := findOrErase u st.2 st.1.queue 0
    let info3 := if found.2 then info2 else setIsRoot E info2 u true
    let queue3 := if found.2 then found.1 else insertAt found.1 (st.2 - 1) u
    let next3 := if found.2 then st.2 else st.2 + 1
    let inserted3 := if found.2 then st.1.inserted else u :: st.1.inserted
    match createInfoOfUser E M info3 v u with
    | .ok info4 =>
      .ok ({ st.1 with
              queue := queue3
              info := info4
              inserted := inserted3
              propagated := (v, u, (getInfo E info3 v).fixpTypeRootDistance) :: st.1.propagated },
           next3)
    | .crash => .crash
    | .timeout => .timeout

/-- The backtracking scan (lines 232-307), with `next` the one-based scan position. -/
def backwardLoop (E : Ext) (M : Module) : Nat → BuildState → Nat → Res BuildState
  | 0, s, next => if next = 0 then .ok s else .timeout
  | fuel + 1, s, next =>
    if next = 0 then .ok s
    else
      match s.queue.get? (next - 1) with
      | none => .crash
      | some v =>
        if !(getInfo E (touch E s.info v) v).isBacktrackingNode then
          backwardLoop E M fuel { s with info := touch E s.info v } (next - 1)
        else if !(M.kind v).isInstruction then
          backwardLoop E M fuel { s with info := touch E s.info v } (next - 1)
        else
          match forEachRes (backtrackOperand E M v) (M.operands v)
              ({ s with info := touch E s.info v }, next) with
          | .ok st => backwardLoop E M fuel st.1 (st.2 - 1)
          | .crash => .crash
          | .timeout => .timeout

/-- The alternation of the two phases (lines 190-308). -/
def buildLoop (E : Ext) (M : Module) : Nat → BuildState → Nat → Res BuildState
  | 0, s, prevQueueSize => if prevQueueSize < s.queue.length then .timeout else .ok s
  | fuel + 1, s, prevQueueSize =>
    if prevQueueSize < s.queue.length then
      match forwardLoop E M (fuel + 1) s 0 with
      | .ok s1 =>
        match backwardLoop E M (fuel + 1) s1 s1.queue.length with
        | .ok s2 => buildLoop E M fuel s2 s.queue.length
        | .crash => .crash
        | .timeout => .timeout
      | .crash => .crash
      | .timeout => .timeout
    else .ok s

/-- Lines 185-187: every value of the queue is flagged `isRoot`. -/
def seedRoots (E : Ext) (info : Table) (queue : List Value) : Table :=
  queue.foldl (fun t v => setIsRoot E t v true) info

/-- Body of the loop over `v->users()` in the root-set finalization (lines 316-324). -/
def mergeRootsInto (E : Ext) (newroots : List Value) (info : Table) (u : Value) : Table :=
  if !hasInfo info u then info
  else setInfo info u { getInfo E info u with roots := newroots ∪ (getInfo E info u).roots }

/-- Body of the loop over the queue in the root-set finalization (lines 310-325). -/
def finalizeStep (E : Ext) (M : Module) (info : Table) (v : Value) : Table :=
  let info1 := touch E info v
  let info2 := if (getInfo E info1 v).isRoot then
      setInfo info1 v { getInfo E info1 v with roots := [v] }
    else info1
  (M.users v).foldl (mergeRootsInto E (getInfo E info2 v).roots) info2

/-- Root-set finalization (lines 310-325). -/
def finalizeRoots (E : Ext) (M : Module) (queue : List Value) (info : Table) : Table :=
  queue.foldl (finalizeStep E M) info

/-- State after lines 184-189 of `buildConversionQueueForRootValues`. -/
def initialState (E : Ext) (val queue : List Value) (info : Table) : BuildState :=
  { queue := val ++ queue
    info := seedRoots E info (val ++ queue)
    visited := []
    inserted := []
    propagated := [] }

/-- Function `TaffoInitializer::buildConversionQueueForRootValues(val, queue)`: the
final state, with the ghost record of the run. -/
def buildConversionQueueForRootValues (E : Ext) (M : Module) (fuel : Nat)
    (val queue : List Value) (info : Table) : Res BuildState :=
  match buildLoop E M fuel (initialState E val queue info) 0 with
  | .ok s => .ok { s with info := finalizeRoots E M s.queue s.info }
  | .crash => .crash
  | .timeout => .timeout

/-! ## Concrete modules used as test inputs -/

/-- Strip every pointer and array layer of a type. -/
def unwrapTy : Ty → Ty
  | .ptr e => unwrapTy e
  | .array e _ => unwrapTy e
  | t => t

/-- Externals used in the examples: a 32-bit distance, a fresh `ValueInfo` at the
largest distance, pointer and array unwrapping, float test on the unwrapped type. -/
def exampleExt : Ext :=
  { distBits := 32
    fresh :=
      { metadata := none, target := none, fixpTypeRootDistance := 2 ^ 32 - 1, isRoot := false,
        isBacktrackingNode := false, backtrackingDepthLeft := 0, roots := [] }
    fullyUnwrapPointerOrArrayType := unwrapTy
    isFloatType := fun t => (unwrapTy t).isFloatingPointTy
    constructFromLLVMType := fun _ => none
    isSpecialFunction := fun _ => false }

/-- A scalar descriptor with the given enable flag and nothing else known. -/
def scalarMD (enable : Bool) : MDInfo := .inputInfo none none none enable

/-- An annotated value: descriptor `md`, distance `d`, not flagged otherwise. -/
def annotated (md : MDInfo) (d : Nat) : ValueInfo :=
  { metadata := some md, target := none, fixpTypeRootDistance := d, isRoot := false,
    isBacktrackingNode := false, backtrackingDepthLeft := 0, roots := [] }

/-- Two float instructions, value 1 using value 0. -/
def pairModule : Module :=
  { users := fun v => if v = 0 then [1] else []
    operands := fun v => if v = 1 then [0] else []
    type := fun _ => .fp 0
    kind := fun _ => .instruction
    inMetadataSection := fun _ => false
    structBody := fun _ => [] }

/-- Table in which value 1 ties with the candidate distance of value 0: the consumer
is a disabled scalar at distance 1, the producer an enabled scalar at distance 0. -/
def tieTable : Table :=
  [(0, annotated (scalarMD true) 0), (1, annotated (scalarMD false) 1)]

/-- Table in which only the producer 0 is annotated; the consumer 1 is fresh. -/
def farTable : Table := [(0, annotated (scalarMD false) 0)]

/-- Table in which the consumer 1 is an enabled scalar at distance 5 and the producer
0 a disabled scalar at distance 0. -/
def resetTable : Table :=
  [(0, annotated (scalarMD false) 0), (1, annotated (scalarMD true) 5)]

/-! ## Vocabulary of the statements -/

/-- Edge "`u` consumes `v`" that the forward pass follows: `u` is a user of `v` and not
the global annotation array. -/
def ConsumerEdge (M : Module) (v u : Value) : Prop :=
  u ∈ M.users v ∧ isAnnotationGlobal M u = false

/-- Value `n` is reachable from `v` along consumer edges. -/
def Reachable (M : Module) (v n : Value) : Prop :=
  Relation.ReflTransGen (ConsumerEdge M) v n

/-- Every consumer of `x` is in the queue `q`. -/
def ConsumersIn (M : Module) (q : List Value) (x : Value) : Prop :=
  ∀ u, ConsumerEdge M x u → u ∈ q

/-- Only PHI nodes use their own value. -/
def OnlyPhiSelfUse (M : Module) : Prop :=
  ∀ v, v ∈ M.users v → (M.kind v).isPHINode = true

/-- Root distance of `v` in a table. -/
def distOf (E : Ext) (info : Table) (v : Value) : Nat :=
  (getInfo E info v).fixpTypeRootDistance

/-- Flag `isRoot` of `v` in a table. -/
def isRootOf (E : Ext) (info : Table) (v : Value) : Bool :=
  (getInfo E info v).isRoot

/-- Set `roots` of `v` in a table. -/
def rootsOf (E : Ext) (info : Table) (v : Value) : List Value :=
  (getInfo E info v).roots

/-- Queue invariant of a build: no value occurs twice, and every value visited or
inserted so far is in the queue. -/
def QueueInv (s : BuildState) : Prop :=
  s.queue.Nodup ∧ (∀ x ∈ s.visited, x ∈ s.queue) ∧ (∀ x ∈ s.inserted, x ∈ s.queue)

/-- Module with an instruction that uses its own value outside a PHI (value 0, as
in an unreachable block), a second annotated value 1 and its consumer 2. -/
def selfUseModule : Module :=
  { users := fun v => if v = 0 then [0] else if v = 1 then [2] else []
    operands := fun v => if v = 0 then [0] else if v = 2 then [1] else []
    type := fun _ => .fp 0
    kind := fun v => if v = 1 then .alloca (.fp 0) else .instruction
    inMetadataSection := fun _ => false
    structBody := fun _ => [] }

/-- Both roots of `selfUseModule` annotated at distance 0. -/
def selfUseTable : Table :=
  [(0, annotated (scalarMD false) 0), (1, annotated (scalarMD false) 0)]

/-- Module of the stale-distance example: two annotated values 0 (an alloca) and 1 (a
call that uses 0 and 2); 2 loads 0; 3 uses 2 and 1; the PHI node 4 uses 3. -/
def staleModule : Module :=
  { users := fun v =>
      if v = 0 then [2, 1] else if v = 2 then [3, 1] else if v = 3 then [4]
      else if v = 1 then [3] else []
    operands := fun v =>
      if v = 2 then [0] else if v = 1 then [0, 2] else if v = 3 then [2, 1]
      else if v = 4 then [3] else []
    type := fun _ => .fp 0
    kind := fun v =>
      if v = 0 then .alloca (.fp 0) else if v = 1 then .call none
      else if v = 4 then .phi else .instruction
    inMetadataSection := fun _ => false
    structBody := fun _ => [] }

/-- Both annotated values of `staleModule` at distance 0. -/
def staleTable : Table :=
  [(0, annotated (scalarMD false) 0), (1, annotated (scalarMD false) 0)]

/-- Invariant of the distances during a build started from the table `info0`: no
distance exceeds its initial value, and the consumer of every recorded propagation is
at most at the candidate distance of that propagation. -/
def DistInv (E : Ext) (info0 : Table) (s : BuildState) : Prop :=
  (∀ n, distOf E s.info n ≤ distOf E info0 n) ∧
  (∀ e ∈ s.propagated, distOf E s.info e.2.1 ≤ candidateDistance E e.2.2)

/-- Two entries agree on everything but the `roots` set. -/
def SameButRoots (a b : ValueInfo) : Prop :=
  a.metadata = b.metadata ∧ a.target = b.target ∧
  a.fixpTypeRootDistance = b.fixpTypeRootDistance ∧ a.isRoot = b.isRoot ∧
  a.isBacktrackingNode = b.isBacktrackingNode ∧
  a.backtrackingDepthLeft = b.backtrackingDepthLeft

/-- Module with a loop-carried PHI cycle of floating-point values: 0 is an annotated
`alloca float` (its operand 4 is the integer array size), 1 loads it, the PHI node 2
merges 1 and 3, and 3 is an `fadd` of 2 and 1. -/
def loopModule : Module :=
  { users := fun v =>
      if v = 0 then [1] else if v = 1 then [2, 3] else if v = 2 then [3]
      else if v = 3 then [2] else if v = 4 then [0] else []
    operands := fun v =>
      if v = 0 then [4] else if v = 1 then [0] else if v = 2 then [1, 3]
      else if v = 3 then [2, 1] else []
    type := fun v => if v = 0 then .ptr (.fp 0) else if v = 4 then .int 32 else .fp 0
    kind := fun v =>
      if v = 0 then .alloca (.fp 0) else if v = 2 then .phi
      else if v = 4 then .constant else .instruction
    inMetadataSection := fun _ => false
    structBody := fun _ => [] }

/-- The root 0 of `loopModule`, annotated at distance 0 with backtracking requested. -/
def loopTable : Table :=
  [(0, { annotated (scalarMD false) 0 with isBacktrackingNode := true })]

/-- Entry of a value of `loopModule` once the forward pass has reached it. -/
def loopEntry (d : Nat) (isRoot : Bool) : ValueInfo :=
  { metadata := some (scalarMD false), target := none, fixpTypeRootDistance := d,
    isRoot := isRoot, isBacktrackingNode := true, backtrackingDepthLeft := 0, roots := [] }

/-- The states the backtracking scan of `loopModule` runs through: the queue `q` is
`[0, 1, 2, 3]` or `[0, 1, 3, 2]`, only the `isRoot` flags of 2 and 3 and the ghost
records vary. -/
def loopState (q : List Value) (r2 r3 : Bool) (ins : List Value)
    (prop : List (Value × Value × Nat)) : BuildState :=
  { queue := q
    info := [(0, loopEntry 0 true), (1, loopEntry 1 false), (2, loopEntry 2 r2),
      (3, loopEntry 2 r3)]
    visited := [3, 2, 1, 0]
    inserted := ins
    propagated := prop }

/-- Chain of consumer uses from the root `r` along which the finalization hands the
root on: `RootPath M q info r j n` says that `n` sits at position `j` of the queue `q`
and is reached from an occurrence of `r` through values at strictly increasing queue
positions, none of which (after `r`) is flagged `isRoot`. -/
inductive RootPath (E : Ext) (M : Module) (q : List Value) (info : Table) (r : Value) :
    Nat → Value → Prop where
  | root (i : Nat) : q.get? i = some r → RootPath E M q info r i r
  | step (i j : Nat) (v u : Value) : RootPath E M q info r i v → u ∈ M.users v →
      isRootOf E info u = false → q.get? j = some u → i < j → RootPath E M q info r j u

/-- Both values of `pairModule` annotated at distance 0, with empty `roots` sets. -/
def twoRootsTable : Table :=
  [(0, annotated (scalarMD false) 0), (1, annotated (scalarMD false) 0)]

/-- Module of the re-seeding example: value 1 is a call of the annotated function 5
with the float argument 0 as operand; the call site is a global root. -/
def callModule : Module :=
  { users := fun v => if v = 0 then [1] else if v = 5 then [1] else []
    operands := fun v => if v = 1 then [0, 5] else []
    type := fun _ => .fp 0
    kind := fun v =>
      if v = 0 then .argument else if v = 1 then .call (some 5)
      else if v = 5 then .function else .instruction
    inMetadataSection := fun _ => false
    structBody := fun _ => [] }

/-- The call site 1 annotated at distance 0 with backtracking requested. -/
def callTable : Table :=
  [(1, { annotated (scalarMD false) 0 with isBacktrackingNode := true })]

/-- Module of the aggregate example (`RgbPixel pixel` of `main.c`): value 0 is the
`alloca` of the struct type 7 with five fields, value 1 a pointer into it of the same
struct type. -/
def pixelModule : Module :=
  { users := fun v => if v = 0 then [1] else []
    operands := fun v => if v = 1 then [0] else []
    type := fun _ => .ptr (.struct 7)
    kind := fun v => if v = 0 then .alloca (.struct 7) else .instruction
    inMetadataSection := fun _ => false
    structBody := fun id => if id = 7 then [.fp 0, .fp 0, .fp 0, .int 32, .fp 0] else [] }

/-- The aggregate annotated with a scalar descriptor, as the pragma of `main.c` does. -/
def pixelScalarTable : Table := [(0, annotated (scalarMD false) 0)]

/-! ## Programs with function bodies, for the specialization engine -/

/-- What the annotation parser (`AnnotationParser`, not part of the sources) reads
from an annotation string. -/
structure ParsedAnnotation where
  metadata : Option MDInfo
  target : Option String
  backtracking : Bool
  backtrackingDepth : Nat
  startingPoint : Bool

/-- An instruction of a function body. -/
structure Inst where
  id : Value
  kind : Kind
  type : Ty
  /-- Operands; for a call or invoke the arguments come first and the called function,
  recorded in `kind`, is the last operand. -/
  args : List Value
  /-- Descriptor persisted on the instruction (what `retrieveMDInfo` reads back). -/
  attached : Option MDInfo := none
  /-- For a call of `llvm.var.annotation`: what its annotation string parses to, or
  `some none` when the string is rejected. -/
  varAnnotation : Option (Option ParsedAnnotation) := none

/-- A function: its formal parameters with their types, and its instructions in the
order in which `for (BasicBlock& bb: f) for (Instruction& i: bb)` visits them. -/
structure Func where
  id : Value
  params : List (Value × Ty)
  body : List Inst

/-- A program: its functions, its other values (globals, constants) with kind, type
and section test, the struct bodies, and the first identity not in use. -/
structure Prog where
  funcs : List Func
  others : List (Value × Kind × Ty × Bool)
  structBody : Nat → List Ty
  nextValue : Nat

namespace Inst

/-- Called function of a call or invoke, null otherwise. -/
def calledFunction (i : Inst) : Option Value :=
  match i.kind with
  | .call f => f
  | .invoke f => f
  | _ => none

/-- All operands: the arguments, then the called function of a call. -/
def operands (i : Inst) : List Value :=
  match i.calledFunction with
  | some f => i.args ++ [f]
  | none => i.args

end Inst

namespace Prog

/-- All instructions of the program, function after function. -/
def insts (P : Prog) : List Inst := P.funcs.flatMap (fun f => f.body)

def findInst (P : Prog) (v : Value) : Option Inst := P.insts.find? (fun i => i.id == v)

def findFunc (P : Prog) (v : Value) : Option Func := P.funcs.find? (fun f => f.id == v)

/-- Function that contains the instruction `v` (`inst->getFunction()`). -/
def parentOf (P : Prog) (v : Value) : Option Value :=
  (P.funcs.find? (fun f => f.body.any (fun i => i.id == v))).map (fun f => f.id)

/-- Type of a formal parameter, if `v` is one. -/
def findParam (P : Prog) (v : Value) : Option Ty :=
  ((P.funcs.flatMap (fun f => f.params)).find? (fun a => a.1 == v)).map (fun a => a.2)

def findOther (P : Prog) (v : Value) : Option (Value × Kind × Ty × Bool) :=
  P.others.find? (fun o => o.1 == v)

/-- Use list of `v`: one entry per use, instruction after instruction. The order of a
use list is not fixed by the sources; this one is the order of the bodies. -/
def usersOf (P : Prog) (v : Value) : List Value :=
  P.insts.flatMap (fun i => (i.operands.filter (fun o => o == v)).map (fun _ => i.id))

/-- The program as the queue builder sees it. -/
def toModule (P : Prog) : Module :=
  { users := P.usersOf
    operands := fun v =>
      match P.findInst v with
      | some i => i.operands
      | none => []
    type := fun v =>
      match P.findInst v with
      | some i => i.type
      | none =>
        match P.findParam v with
        | some t => t
        | none =>
          match P.findOther v with
          | some o => o.2.2.1
          | none => .other
    kind := fun v =>
      match P.findInst v with
      | some i => i.kind
      | none =>
        match P.findParam v with
        | some _ => .argument
        | none =>
          match P.findFunc v with
          | some _ => .function
          | none =>
            match P.findOther v with
            | some o => o.2.1
            | none => .constant
    inMetadataSection := fun v =>
      match P.findOther v with
      | some o => o.2.2.2
      | none => false
    structBody := P.structBody }

/-- Replace the instruction with identity `v` by `f` of it. -/
def updateInst (P : Prog) (v : Value) (f : Inst → Inst) : Prog :=
  { P with
    funcs := P.funcs.map (fun fn =>
      { fn with body := fn.body.map (fun i => if i.id = v then f i else i) }) }

/-- Call `call->setCalledFunction(newF)`. -/
def setCalledFunction (P : Prog) (call newF : Value) : Prog :=
  P.updateInst call (fun i =>
    { i with
      kind :=
        match i.kind with
        | .call _ => .call (some newF)
        | .invoke _ => .invoke (some newF)
        | k => k })

/-- Value map of a clone: the formal parameters and the instructions of the function
are numbered from `base + 1` on. -/
def cloneMap (f : Func) (base : Nat) : List (Value × Value) :=
  ((f.params.map (fun a => a.1)) ++ (f.body.map (fun i => i.id))).enum.map
    (fun e => (e.2, base + 1 + e.1))

/-- Image of a value under a value map; values outside the map are kept. -/
def remap (vmap : List (Value × Value)) (v : Value) : Value :=
  match vmap.find? (fun e => e.1 == v) with
  | some e => e.2
  | none => v

/-- Calls `Function::Create` and `CloneFunctionInto` (lines 471-483): a fresh function
with fresh parameters and a copy of every instruction, operands mapped through the
value map, persisted descriptors copied. -/
def cloneFunction (P : Prog) (f : Func) : Prog × Func :=
  let base := P.nextValue
  let vmap := cloneMap f base
  let newF : Func :=
    { id := base
      params := f.params.map (fun a => (remap vmap a.1, a.2))
      body := f.body.map (fun i =>
        { i with id := remap vmap i.id, args := i.args.map (remap vmap) }) }
  ({ P with funcs := P.funcs ++ [newF]
            nextValue := base + 1 + f.params.length + f.body.length }, newF)

end Prog

/-- State of the pass during specialization. -/
structure PassState where
  prog : Prog
  info : Table
  enabledFunctions : List Value
  /-- Statistic `FunctionCloned`. -/
  functionCloned : Nat

/-- Options and inputs of the pass that stay fixed during specialization. -/
structure PassEnv where
  ext : Ext
  /-- Option `-manualclone`. -/
  manualFunctionCloning : Bool
  /-- The global roots, in the iteration order of the set. -/
  global : List Value
  /-- Fuel given to every queue build. -/
  buildFuel : Nat

/-- What a successful `parseAnnotation` adds: the seeded values with their
`ValueInfo`, the functions it enables, and the starting-point flag. -/
structure Seeded where
  seeds : List (Value × ValueInfo)
  enabled : List Value
  startingPoint : Bool

/-- Function `TaffoInitializer::parseAnnotation` (`Annotations.cpp`), without the
declarations file: `parsed` is what the checks of lines 108-126 and the parser leave
(`none` when they reject the record and the function returns false), `instr` the
annotated value. -/
def parseAnnotation (E : Ext) (P : Prog) (parsed : Option ParsedAnnotation) (instr : Value) :
    Res (Option Seeded) :=
  match parsed with
  | none => .ok none
  | some a =>
    match a.metadata with
    | none => .crash
    | some md =>
      let vi : ValueInfo :=
        { E.fresh with
          fixpTypeRootDistance := 0
          backtrackingDepthLeft := if !a.backtracking then 0 else a.backtrackingDepth
          metadata := some md
          target := a.target }
      match P.findInst instr with
      | some toconv =>
        match toconv.operands.head? with
        | some root => .ok (some ⟨[(root, vi)], [], a.startingPoint⟩)
        | none => .crash
      | none =>
        match P.findFunc instr with
        | some _ =>
          .ok (some ⟨((P.usersOf instr).filter (fun u =>
              (P.toModule.kind u).isCallOrInvoke)).map (fun u => (u, vi)),
            [instr], a.startingPoint⟩)
        | none => .ok (some ⟨[(instr, vi)], [], a.startingPoint⟩)

/-- One round of the loop of `readLocalAnnotations` over the instructions. -/
def readLocalAnnotation (E : Ext) (P : Prog) (acc : Seeded) (i : Inst) : Res Seeded :=
  match i.kind, i.calledFunction, i.varAnnotation with
  | .call _, some _, some parsed =>
    match i.args.head? with
    | none => .crash
    | some instr =>
      match parseAnnotation E P parsed instr with
      | .ok (some r) =>
        .ok ⟨acc.seeds ++ r.seeds, acc.enabled ++ r.enabled,
          acc.startingPoint || r.startingPoint⟩
      | .ok none => .ok acc
      | .crash => .crash
      | .timeout => .timeout
  | _, _, _ => .ok acc

/-- Function `TaffoInitializer::readLocalAnnotations` (`Annotations.cpp`). -/
def readLocalAnnotations (E : Ext) (P : Prog) (f : Func) : Res Seeded :=
  forEachRes ( readLocalAnnotation E P) f.body ⟨[], [], false⟩

/-- Modelled from the spec: the glue of `TaffoInitializerPass.h` between the annotation
readers and the `info` table is missing; by section 4.1 the loader seeds the
Value-Info entry of every root it reports, so each reported `ValueInfo` is stored in
the table. -/
def storeSeeded (info : Table) (seeds : List (Value × ValueInfo)) : Table :=
  seeds.foldl (fun t e => setInfo t e.1 e.2) info

/-- One round of the loop over the formal parameters (lines 490-513); `st` holds the
table and the clone-local roots collected so far. -/
def seedArgument (E : Ext) (M : Module) (call : Value) (st : Table × List Value)
    (param : Nat × Value) : Res (Table × List Value) :=
  match (M.operands call).get? param.1 with
  | none => .crash
  | some callOperand =>
    match (M.users param.2).head? with
    | none => .crash
    | some firstUser =>
      match (M.operands firstUser).get? 1 with
      | none => .crash
      | some allocaOfArgument =>
        if !hasInfo st.1 callOperand then .ok st
        else
          let info1 := touch E (touch E st.1 allocaOfArgument) param.2
          match (getInfo E info1 callOperand).metadata with
          | none => .crash
          | some md =>
            let info2 := setInfo info1 allocaOfArgument
              { getInfo E info1 allocaOfArgument with
                metadata := some md.clone
                fixpTypeRootDistance :=
                  ((getInfo E info1 callOperand).fixpTypeRootDistance + 2) % 2 ^ E.distBits }
            match (getInfo E info2 callOperand).metadata with
            | none => .crash
            | some md2 =>
              .ok (setInfo info2 param.2
                { getInfo E info2 param.2 with
                  metadata := some md2.clone
                  fixpTypeRootDistance :=
                    ((getInfo E info2 callOperand).fixpTypeRootDistance + 1)
                      % 2 ^ E.distBits },
                st.2 ++ [allocaOfArgument])

/-- Function `TaffoInitializer::createFunctionAndQueue`: the new state, the clone and
the conversion queue of the clone. -/
def createFunctionAndQueue (V : PassEnv) (st : PassState) (call : Value) (oldF : Func) :
    Res (PassState × Func × List Value) :=
  let cloned := st.prog.cloneFunction oldF
  let M := cloned.1.toModule
  match forEachRes (seedArgument V.ext M call) (cloned.2.params.map (fun a => a.1)).enum
      (st.info, []) with
  | .ok seeded =>
    match readLocalAnnotations V.ext cloned.1 cloned.2 with
    | .ok localFix =>
      let roots := localFix.seeds.map (fun e => e.1) ++ V.global ++ seeded.2
      match buildConversionQueueForRootValues V.ext M V.buildFuel roots []
          (storeSeeded seeded.1 localFix.seeds) with
      | .ok s =>
        .ok ({ prog := cloned.1
               info := s.info
               enabledFunctions := localFix.enabled ++ st.enabledFunctions
               functionCloned := st.functionCloned + 1 },
             cloned.2,
             s.queue.filter (fun v =>
               (M.kind v).isInstruction && cloned.1.parentOf v == some cloned.2.id))
      | .crash => .crash
      | .timeout => .timeout
    | .crash => .crash
    | .timeout => .timeout
  | .crash => .crash
  | .timeout => .timeout

/-- Function `TaffoInitializer::setMetadataOfValue`, as far as it persists the
descriptor of an instruction. -/
def setMetadataOfValue (E : Ext) (st : PassState) (v : Value) : Res PassState :=
  match (getInfo E st.info v).metadata with
  | none =>
    if (st.prog.toModule.kind v).isInstruction || (st.prog.toModule.kind v).isGlobalObject
    then .crash
    else .ok { st with info := touch E st.info v }
  | some md =>
    .ok { st with
          info := touch E st.info v
          prog := st.prog.updateInst v (fun i => { i with attached := some md }) }

/-- Lines 446-452: every instruction of the clone that carries a persisted descriptor
is appended to the queue and gets that descriptor back. -/
def reattachStep (E : Ext) (acc : Table × List Value) (i : Inst) : Table × List Value :=
  match i.attached with
  | some mdi =>
    (setInfo acc.1 i.id { getInfo E acc.1 i.id with metadata := some mdi.clone },
     acc.2 ++ [i.id])
  | none => acc

/-- Function `TaffoInitializer::generateFunctionSpace`; the fuel bounds the depth of
the recursion. -/
def generateFunctionSpace (V : PassEnv) :
    Nat → List Value → List Value → PassState → Res PassState
  | 0, _, _, _ => .timeout
  | fuel + 1, vals, callTrace, st =>
    forEachRes (fun (st : PassState) (v : Value) =>
      match st.prog.findInst v with
      | none => .ok st
      | some call =>
        if !call.kind.isCallOrInvoke then .ok st
        else
          match call.calledFunction with
          | none => .crash
          | some oldFId =>
            if V.ext.isSpecialFunction oldFId then .ok st
            else if V.manualFunctionCloning && !decide (oldFId ∈ st.enabledFunctions) then
              .ok st
            else
              match st.prog.findFunc oldFId with
              | none => .crash
              | some oldF =>
                match createFunctionAndQueue V st v oldF with
                | .ok created =>
                  let st1 : PassState :=
                    { created.1 with
                      prog := created.1.prog.setCalledFunction v created.2.1.id
                      enabledFunctions := created.2.1.id :: created.1.enabledFunctions }
                  match forEachRes (setMetadataOfValue V.ext) created.2.2 st1 with
                  | .ok st2 =>
                    match st2.prog.findFunc created.2.1.id with
                    | none => .crash
                    | some newF =>
                      let re := newF.body.foldl (reattachStep V.ext) (st2.info, created.2.2)
                      let st3 : PassState := { st2 with info := re.1 }
                      if decide (oldFId ∈ callTrace) then .ok st3
                      else
                        generateFunctionSpace V fuel re.2
                          (created.2.1.id :: oldFId :: callTrace) st3
                  | .crash => .crash
                  | .timeout => .timeout
                | .crash => .crash
                | .timeout => .timeout) vals st

/-- Function `TaffoInitializer::removeAnnotationCalls`: the calls of
`llvm.var.annotation` leave the queue and the program. -/
def removeAnnotationCalls (P : Prog) (q : List Value) : Prog × List Value :=
  let isAnno : Value → Bool := fun v =>
    match P.findInst v with
    | some i =>
      match i.kind, i.calledFunction with
      | .call _, some _ => i.varAnnotation.isSome
      | _, _ => false
    | none => false
  ({ P with
     funcs := P.funcs.map (fun fn =>
       { fn with body := fn.body.filter (fun i => !(q.contains i.id && isAnno i.id)) }) },
   q.filter (fun v => !isAnno v))

/-- Function `TaffoInitializer::runOnModule` from the point where the annotations have
been read: `rootsLocal` and the global roots of the environment are the annotated
values, their entries are in the table. The fuel bounds the depth of the recursion of
`generateFunctionSpace`. -/
def runOnModule (V : PassEnv) (fuel : Nat) (rootsLocal : List Value) (st : PassState) :
    Res PassState :=
  match buildConversionQueueForRootValues V.ext st.prog.toModule V.buildFuel
      (V.global ++ rootsLocal) [] st.info with
  | .ok s =>
    match forEachRes (setMetadataOfValue V.ext) s.queue { st with info := s.info } with
    | .ok st1 =>
      let removed := removeAnnotationCalls st1.prog s.queue
      generateFunctionSpace V fuel removed.2 [] { st1 with prog := removed.1 }
    | .crash => .crash
    | .timeout => .timeout
  | .crash => .crash
  | .timeout => .timeout

/-- A float `alloca`.  Its only operand is the array size, the shared constant `i32 1`,
which has identity `0` in every example program. -/
def allocaInst (id : Value) : Inst :=
  { id := id, kind := .alloca (.fp 0), type := .ptr (.fp 0), args := [0] }

/-- A float instruction with the given operands. -/
def floatInst (id : Value) (args : List Value) : Inst :=
  { id := id, kind := .instruction, type := .fp 0, args := args }

/-- A store of `val` to `ptr`. -/
def storeInst (id val ptr : Value) : Inst :=
  { id := id, kind := .store, type := .void, args := [val, ptr] }

/-- A call of `callee` with float result. -/
def callInst (id callee : Value) (args : List Value) : Inst :=
  { id := id, kind := .call (some callee), type := .fp 0, args := args }

/-- Program with a self-recursive function: `main` (100) loads the annotated local 1
and calls `f` (200) with it; `f` stores its parameter 10 to the slot 11, loads it and
calls itself with the loaded value. -/
def recursiveProg : Prog :=
  { funcs :=
      [{ id := 100, params := [],
         body := [allocaInst 1, floatInst 2 [1], callInst 3 200 [2]] },
       { id := 200, params := [(10, .fp 0)],
         body := [allocaInst 11, storeInst 12 10 11, floatInst 13 [11],
           callInst 14 200 [13], floatInst 15 [14]] }]
    others := []
    structBody := fun _ => []
    nextValue := 300 }

/-- Environment of the examples: no manual cloning, no global roots. -/
def exampleEnv (buildFuel : Nat) : PassEnv :=
  { ext := exampleExt, manualFunctionCloning := false, global := [], buildFuel := buildFuel }

/-- State of the pass on `recursiveProg` after the annotation of the local 1. -/
def recursiveStart : PassState :=
  { prog := recursiveProg
    info := [(1, annotated (scalarMD false) 0)]
    enabledFunctions := []
    functionCloned := 0 }

/-- A scalar descriptor with the range `[0, hi]`, conversion not enabled. -/
def rangeMD (hi : Int) : MDInfo := .inputInfo none (some ⟨0, hi⟩) none false

/-- On the nodes `S`, the table `T'` has an entry for the image of a node exactly
when `T` has one for the node, and the two entries agree on descriptor, target,
distance and flags. -/
def EntriesCorrespond (E : Ext) (S : Value → Prop) (r : Value → Value) (T T' : Table) :
    Prop :=
  ∀ v, S v → hasInfo T' (r v) = hasInfo T v ∧ SameButRoots (getInfo E T v) (getInfo E T' (r v))

namespace Func

end Func

/-- Every identity in use in the program lies below `nextValue`, the first identity
that `cloneFunction` hands out. -/
def Prog.Bounded (P : Prog) : Prop :=
  (∀ i ∈ P.insts, i.id < P.nextValue ∧ ∀ o ∈ i.operands, o < P.nextValue) ∧
  (∀ fn ∈ P.funcs, ∀ a ∈ fn.params, a.1 < P.nextValue) ∧
  (∀ o ∈ P.others, o.1 < P.nextValue)

/-- Body of the loop of `generateFunctionSpace` over `vals` (lines 402-463) for the
value `v`, with the recursive call of line 459 as the parameter `descend`. -/
def specializeCall (V : PassEnv)
    (descend : List Value → List Value → PassState → Res PassState)
    (callTrace : List Value) (st : PassState) (v : Value) : Res PassState :=
  match st.prog.findInst v with
  | none => .ok st
  | some call =>
    if !call.kind.isCallOrInvoke then .ok st
    else
      match call.calledFunction with
      | none => .crash
      | some oldFId =>
        if V.ext.isSpecialFunction oldFId then .ok st
        else if V.manualFunctionCloning && !decide (oldFId ∈ st.enabledFunctions) then
          .ok st
        else
          match st.prog.findFunc oldFId with
          | none => .crash
          | some oldF =>
            match createFunctionAndQueue V st v oldF with
            | .ok created =>
              let st1 : PassState :=
                { created.1 with
                  prog := created.1.prog.setCalledFunction v created.2.1.id
                  enabledFunctions := created.2.1.id :: created.1.enabledFunctions }
              match forEachRes (setMetadataOfValue V.ext) created.2.2 st1 with
              | .ok st2 =>
                match st2.prog.findFunc created.2.1.id with
                | none => .crash
                | some newF =>
                  let re := newF.body.foldl (reattachStep V.ext) (st2.info, created.2.2)
                  let st3 : PassState := { st2 with info := re.1 }
                  if decide (oldFId ∈ callTrace) then .ok st3
                  else descend re.2 (created.2.1.id :: oldFId :: callTrace) st3
              | .crash => .crash
              | .timeout => .timeout
            | .crash => .crash
            | .timeout => .timeout

/-- State of the pass on `recursiveProg` when `runOnModule` calls
`generateFunctionSpace`: the top-level queue 1, 2, 3 has been built from the annotated
local 1 and the descriptors have been persisted on its instructions. -/
def recursiveTop : PassState :=
  { prog :=
      { funcs :=
          [{ id := 100, params := [],
             body := [{ allocaInst 1 with attached := some (scalarMD false) },
               { floatInst 2 [1] with attached := some (scalarMD false) },
               { callInst 3 200 [2] with attached := some (scalarMD false) }] },
           { id := 200, params := [(10, .fp 0)],
             body := [allocaInst 11, storeInst 12 10 11, floatInst 13 [11],
               callInst 14 200 [13], floatInst 15 [14]] }]
        others := []
        structBody := fun _ => []
        nextValue := 300 }
    info :=
      [(1, { annotated (scalarMD false) 0 with isRoot := true, roots := [1] }),
       (2, { annotated (scalarMD false) 1 with roots := [1] }),
       (3, { annotated (scalarMD false) 2 with roots := [1] })]
    enabledFunctions := []
    functionCloned := 0 }

/-! ## Field-access decomposition -/

/-- The index loop of `extractGEPIMetadata` reaches an index that is not a constant
integer: every index before it is a constant that selects an existing field of a struct
type and an existing child of a Struct descriptor, and the type reached is not a
sequential type. -/
inductive MeetsNonConstantIndex (M : Module) : List (Option Int) → Ty → Option MDInfo → Prop
  | here (rest : List (Option Int)) (ty : Ty) (mdi : Option MDInfo) :
      ty.isSequentialTy = false → MeetsNonConstantIndex M (none :: rest) ty mdi
  | field (n : Int) (rest : List (Option Int)) (id : Nat) (fields : List (Option MDInfo)) :
      0 ≤ n → n.toNat < fields.length → n.toNat < (M.structBody id).length →
      MeetsNonConstantIndex M rest ((M.structBody id).getD n.toNat .other)
        (fields.getD n.toNat none) →
      MeetsNonConstantIndex M (some n :: rest) (.struct id) (some (.structInfo fields))

/-- Module with a nested aggregate: the struct type 0 has a field of the struct type 1
and a float field, the struct type 1 has two float fields. Value 0 is the `alloca` of
the struct type 0; value 1 is the address of the second field of its inner struct
(indices 0, 0, 1); value 2 is an address computed with a second index that is not a
constant integer. -/
def nestedModule : Module :=
  { users := fun v => if v = 0 then [1, 2] else []
    operands := fun v => if v = 1 then [0] else if v = 2 then [0] else []
    type := fun v => if v = 0 then .ptr (.struct 0) else .ptr (.fp 0)
    kind := fun v =>
      if v = 0 then .alloca (.struct 0)
      else if v = 1 then .gep (.struct 0) [some 0, some 0, some 1]
      else .gep (.struct 0) [some 0, none]
    inMetadataSection := fun _ => false
    structBody := fun id => if id = 0 then [.struct 1, .fp 0] else [.fp 0, .fp 0] }

/-- The aggregate 0 annotated with a Struct descriptor of two Scalar children: the
first child does not have the shape of the inner struct. -/
def nestedTable : Table :=
  [(0, annotated (.structInfo [some (scalarMD false), some (scalarMD false)]) 0)]

/-! ## Filtering of the annotated values -/

/-- Decision of `removeNoFloatTy` (lines 227-256) for the entry of `it`, true when the
entry is not erased: the type looked at is the allocated type of an `alloca`, the
type of a global variable, or the type of a call or invoke (kept at once when it is
void); any other value is erased; the `while` loop of lines 246-251 is `unwrapTy`. -/
def keepsEntry (M : Module) (it : Value) : Bool :=
  match M.kind it with
  | .alloca ty => (unwrapTy ty).isFloatingPointTy
  | .globalVariable => (unwrapTy (M.type it)).isFloatingPointTy
  | .call _ => (M.type it).isVoidTy || (unwrapTy (M.type it)).isFloatingPointTy
  | .invoke _ => (M.type it).isVoidTy || (unwrapTy (M.type it)).isFloatingPointTy
  | _ => false

/-- Function `TaffoInitializer::removeNoFloatTy` (`Annotations.cpp`): the loop visits
the entries of `res`, and `res.erase(it)` takes every entry of the key `it` out. -/
def removeNoFloatTy (M : Module) (res : List (Value × ValueInfo)) : List (Value × ValueInfo) :=
  res.foldl
    (fun acc e => if keepsEntry M e.1 then acc else acc.filter (fun x => x.1 != e.1)) res

/-- Both annotated values of `staleModule` at distance 0, annotated with backtracking. -/
def staleBacktrackingTable : Table :=
  [(0, { annotated (scalarMD false) 0 with isBacktrackingNode := true }),
   (1, { annotated (scalarMD false) 0 with isBacktrackingNode := true })]

/-- Value 1 of `pairModule` annotated with backtracking, with the range `[0, 1]`. -/
def backtrackingPairTable : Table :=
  [(1, { annotated (rangeMD 1) 0 with isBacktrackingNode := true })]

/-- Every consumer of `x` that is not a PHI node occurs in the queue `q` after an
occurrence of `x`. -/
def ConsumersAfter (M : Module) (q : List Value) (x : Value) : Prop :=
  ∀ u, ConsumerEdge M x u → (M.kind u).isPHINode = false → List.Sublist [x, u] q

/-- Program with a call inside a callee: `main` (100) passes its annotated local 1 to
`f` (200); `f` stores its parameter 10 to the slot 11 and passes its own annotated
local 21 to `h` (400), which stores its parameter 40 to the slot 41. -/
def nestedCallProg : Prog :=
  { funcs :=
      [{ id := 100, params := [],
         body := [allocaInst 1, callInst 3 200 [1]] },
       { id := 200, params := [(10, .ptr (.fp 0))],
         body := [allocaInst 11, storeInst 12 10 11, allocaInst 21, callInst 23 400 [21]] },
       { id := 400, params := [(40, .ptr (.fp 0))],
         body := [allocaInst 41, storeInst 42 40 41] }]
    others := []
    structBody := fun _ => []
    nextValue := 300 }

/-- State of the pass on `nestedCallProg` after the annotations of the locals 1 (in
`main`) and 21 (in `f`) have been read. -/
def nestedCallStart : PassState :=
  { prog := nestedCallProg
    info := [(1, annotated (scalarMD false) 0), (21, annotated (scalarMD false) 0)]
    enabledFunctions := []
    functionCloned := 0 }

/-! ## Descriptors that mirror a struct type -/

/-- The descriptor mirrors the struct type `id`: it is a Struct descriptor with one
child per field of the type, and every child that is present at a field whose type,
after unwrapping, is a struct type mirrors that type in turn. -/
inductive WellShaped (E : Ext) (M : Module) : Nat → MDInfo → Prop
  | struct (id : Nat) (fs : List (Option MDInfo))
      (hlen : fs.length = (M.structBody id).length)
      (hfields : ∀ i child cid, fs.get? i = some (some child) →
        E.fullyUnwrapPointerOrArrayType ((M.structBody id).getD i .other) = .struct cid →
        WellShaped E M cid child) :
      WellShaped E M id (.structInfo fs)

/-- The type that a field access reaches from the type `ty` along the indices that
follow the first one when every index is a constant that selects a field of a struct
type; `none` when an index is not constant or out of range, or when it meets a type
that is not a struct type, an array or a vector included. -/
def fieldPath (M : Module) : List (Option Int) → Ty → Option Ty
  | [], ty => some ty
  | idx :: rest, ty =>
    match idx, ty with
    | some n, .struct id =>
      if 0 ≤ n ∧ n.toNat < (M.structBody id).length then
        fieldPath M rest ((M.structBody id).getD n.toNat .other)
      else none
    | _, _ => none

/-- Every descriptor of the table sits on a value whose struct type it mirrors. -/
def Shaped (E : Ext) (M : Module) (T : Table) : Prop :=
  ∀ n md uid, (getInfo E T n).metadata = some md →
    E.fullyUnwrapPointerOrArrayType (M.type n) = .struct uid → WellShaped E M uid md

/-- Typing of the field accesses with a result of struct type: the pointer operand
points to a struct, the indices after the first are constants that select struct
fields one after the other, with no array or vector level on the way, and the type
reached is the type of the result. -/
def FieldAccessesTyped (E : Ext) (M : Module) : Prop :=
  ∀ u p srcTy i0 rest uid, M.kind u = .gep srcTy (i0 :: rest) →
    (M.operands u).head? = some p →
    E.fullyUnwrapPointerOrArrayType (M.type u) = .struct uid →
    ∃ sid ty, srcTy = .struct sid ∧
      E.fullyUnwrapPointerOrArrayType (M.type p) = .struct sid ∧
      fieldPath M rest (.struct sid) = some ty ∧
      E.fullyUnwrapPointerOrArrayType ty = .struct uid

/-- Module with a nested aggregate: struct type 0 has a field of struct type 1 and a
float field, struct type 1 has two float fields. Value 0 is an `alloca` of struct
type 0, value 1 the address of its field 0 (`getelementptr` with the constant indices
0, 0), value 2 a copy of that address, and value 3 a cast of the aggregate's address
to a pointer to struct type 1. -/
def shapeModule : Module :=
  { users := fun v => if v = 0 then [1, 3] else if v = 1 then [2] else []
    operands := fun v => if v = 1 then [0] else if v = 2 then [1] else if v = 3 then [0] else []
    type := fun v => if v = 0 then .ptr (.struct 0) else .ptr (.struct 1)
    kind := fun v =>
      if v = 0 then .alloca (.struct 0)
      else if v = 1 then .gep (.struct 0) [some 0, some 0]
      else .instruction
    inMetadataSection := fun _ => false
    structBody := fun id =>
      if id = 0 then [.struct 1, .fp 0] else if id = 1 then [.fp 0, .fp 0] else [] }

/-- Modelled from the spec: `StructInfo::constructFromLLVMType` is outside the sources;
by section 4.2 it builds the structurally-default descriptor of the static type, with
unknown scalars at the leaves. This is that descriptor for the struct types of
`shapeModule`. -/
def defaultShape : Ty → Option MDInfo
  | .struct 0 =>
    some (.structInfo [some (.structInfo [some (scalarMD true), some (scalarMD true)]),
      some (scalarMD true)])
  | .struct 1 => some (.structInfo [some (scalarMD true), some (scalarMD true)])
  | .struct _ => some (.structInfo [])
  | _ => none

/-- The externals of the examples with `defaultShape` as the default descriptor. -/
def shapeExt : Ext := { exampleExt with constructFromLLVMType := defaultShape }

/-- The aggregate 0 of `shapeModule` annotated with a descriptor that mirrors struct
type 0: the ranges `[0, 1]` and `[0, 2]` for the fields of the inner struct and
`[0, 3]` for the float field. -/
def shapeTable : Table :=
  [(0, annotated (.structInfo [some (.structInfo [some (rangeMD 1), some (rangeMD 2)]),
    some (rangeMD 3)]) 0)]

/-- The aggregate 0 of `shapeModule` annotated with a Struct descriptor of two
children, as many as struct type 0 has fields, whose child at the field of struct
type 1 is a Scalar. -/
def shapeScalarChildTable : Table :=
  [(0, annotated (.structInfo [some (rangeMD 1), some (rangeMD 3)]) 0)]

/-- Module with an array of structs: struct type 0 has a float field and a field of
struct type 1, struct type 1 has three float fields. Value 0 is an `alloca` of an
array of four structs of type 0, value 1 the address of field 1 of its element 2
(`getelementptr` with the constant indices 0, 2, 1), a pointer to struct type 1. -/
def arrayOfStructsModule : Module :=
  { users := fun v => if v = 0 then [1] else []
    operands := fun v => if v = 1 then [0] else []
    type := fun v => if v = 0 then .ptr (.array (.struct 0) 4) else .ptr (.struct 1)
    kind := fun v =>
      if v = 0 then .alloca (.array (.struct 0) 4)
      else .gep (.array (.struct 0) 4) [some 0, some 2, some 1]
    inMetadataSection := fun _ => false
    structBody := fun id =>
      if id = 0 then [.fp 0, .struct 1] else if id = 1 then [.fp 0, .fp 0, .fp 0] else [] }

/-- The array 0 of `arrayOfStructsModule` annotated with a descriptor that mirrors
its element type, struct type 0. -/
def arrayOfStructsTable : Table :=
  [(0, annotated (.structInfo [some (rangeMD 1),
    some (.structInfo [some (rangeMD 2), some (rangeMD 3), some (rangeMD 4)])]) 0)]

/-! # Theorems -/

/-! ## The info table -/

theorem findInfo_setInfo (info : Table) (v w : Value) (vi : ValueInfo) :
    findInfo (setInfo info v vi) w = if w = v then some vi else findInfo info w := by
  induction info with
  | nil => simp [setInfo, findInfo]
  | cons e rest ih =>
    obtain ⟨k, x⟩ := e
    unfold setInfo
    by_cases hk : k = v
    · subst hk
      simp only [if_true, findInfo]
      split_ifs <;> rfl
    · simp only [if_neg hk, findInfo, ih]
      by_cases hw : w = k
      · subst hw
        simp [hk]
      · simp [hw]

theorem getInfo_setInfo (E : Ext) (info : Table) (v w : Value) (vi : ValueInfo) :
    getInfo E (setInfo info v vi) w = if w = v then vi else getInfo E info w := by
  unfold getInfo
  rw [findInfo_setInfo]
  split_ifs <;> rfl

theorem getInfo_setInfo_same (E : Ext) (info : Table) (v : Value) (vi : ValueInfo) :
    getInfo E (setInfo info v vi) v = vi := by
  simp [getInfo_setInfo]

theorem getInfo_setInfo_ne (E : Ext) (info : Table) (v w : Value) (vi : ValueInfo)
    (h : w ≠ v) : getInfo E (setInfo info v vi) w = getInfo E info w := by
  simp [getInfo_setInfo, h]

theorem getInfo_touch (E : Ext) (info : Table) (v w : Value) :
    getInfo E (touch E info v) w = getInfo E info w := by
  unfold touch
  rw [getInfo_setInfo]
  split_ifs with h
  · rw [h]
  · rfl

theorem hasInfo_setInfo (info : Table) (v w : Value) (vi : ValueInfo) :
    hasInfo (setInfo info v vi) w = (decide (w = v) || hasInfo info w) := by
  unfold hasInfo
  rw [findInfo_setInfo]
  split_ifs with h <;> simp [h]

theorem hasInfo_touch (E : Ext) (info : Table) (v w : Value) :
    hasInfo (touch E info v) w = (decide (w = v) || hasInfo info w) := by
  unfold touch
  exact hasInfo_setInfo _ _ _ _

/-! ## The propagation rule -/

theorem candidateDistance_eq (E : Ext) (d : Nat) (h : d + 1 < 2 ^ E.distBits) :
    candidateDistance E d = d + 1 := by
  unfold candidateDistance
  rw [Nat.mod_eq_of_lt h]
  omega

theorem candidateDistance_top (E : Ext) (d : Nat) (h : d + 1 = 2 ^ E.distBits) :
    candidateDistance E d = d := by
  unfold candidateDistance
  rw [h, Nat.mod_self]
  omega

theorem le_candidateDistance (E : Ext) (d : Nat) : d ≤ candidateDistance E d := by
  unfold candidateDistance
  omega

theorem candidateDistance_le (E : Ext) (d : Nat) : candidateDistance E d ≤ d + 1 := by
  unfold candidateDistance
  have := Nat.mod_le (d + 1) (2 ^ E.distBits)
  omega

theorem createInfoOfUser_keep (E : Ext) (M : Module) (info : Table) (p u : Value)
    (h : (getInfo E info u).fixpTypeRootDistance
      ≤ candidateDistance E (getInfo E info p).fixpTypeRootDistance) :
    createInfoOfUser E M info p u
      = .ok (setInfo (touch E (touch E info p) u) u
          { getInfo E info u with
            metadata := orEnable (getInfo E info u).metadata (getInfo E info p).metadata }) := by
  unfold createInfoOfUser
  simp only [getInfo_touch]
  rw [if_neg (by simpa using h)]

theorem createInfoOfUser_overwrite (E : Ext) (M : Module) (info : Table) (p u : Value)
    (h : ¬ (getInfo E info u).fixpTypeRootDistance
      ≤ candidateDistance E (getInfo E info p).fixpTypeRootDistance) :
    createInfoOfUser E M info p u
      = match inheritedMetadata E M p u (getInfo E info p).metadata with
        | .ok md =>
          .ok (setInfo (touch E (touch E info p) u) u
            { getInfo E info u with
              metadata := orEnable md (getInfo E info p).metadata
              target := (getInfo E info p).target
              fixpTypeRootDistance :=
                candidateDistance E (getInfo E info p).fixpTypeRootDistance })
        | .crash => .crash
        | .timeout => .timeout := by
  unfold createInfoOfUser
  simp only [getInfo_touch]
  rw [if_pos h]

/-- The rule overwrites exactly when the consumer is farther than the candidate:
on distances of the machine type, `u.d ≤ max(p.d, p.d+1)` is `u.d ≤ p.d + 1`. -/
theorem keep_iff (E : Ext) (dp du : Nat) (hp : dp < 2 ^ E.distBits) (hu : du < 2 ^ E.distBits) :
    du ≤ candidateDistance E dp ↔ ¬ du > dp + 1 := by
  by_cases htop : dp + 1 < 2 ^ E.distBits
  · rw [candidateDistance_eq E dp htop]
    omega
  · rw [candidateDistance_top E dp (by omega)]
    omega

/-- C1, as amended. One propagation step `createInfoOfUser(p, u)` on distances of
the machine type: if `u.rootDistance > p.rootDistance + 1` and a descriptor `md` is
inherited (lines 341-354), the step succeeds and sets `u.target = p.target`,
`u.rootDistance = p.rootDistance + 1` and `u`'s descriptor to `md` (enable flag forced
by lines 362-366); otherwise, the tie included, the step succeeds, `u.target` and
`u.rootDistance` are unchanged and `u` keeps its descriptor except that its enable
flag is forced on when both descriptors are scalar and `p`'s flag is set. -/
theorem createInfoOfUser_overwrites_iff_farther (E : Ext) (M : Module) (info : Table)
    (p u : Value)
    (hp : (getInfo E info p).fixpTypeRootDistance < 2 ^ E.distBits)
    (hu : (getInfo E info u).fixpTypeRootDistance < 2 ^ E.distBits) :
    ((getInfo E info u).fixpTypeRootDistance > (getInfo E info p).fixpTypeRootDistance + 1 →
      ∀ md, inheritedMetadata E M p u (getInfo E info p).metadata = .ok md →
        ∃ info', createInfoOfUser E M info p u = .ok info' ∧
          (getInfo E info' u).target = (getInfo E info p).target ∧
          (getInfo E info' u).fixpTypeRootDistance
            = (getInfo E info p).fixpTypeRootDistance + 1 ∧
          (getInfo E info' u).metadata = orEnable md (getInfo E info p).metadata) ∧
    (¬ (getInfo E info u).fixpTypeRootDistance
        > (getInfo E info p).fixpTypeRootDistance + 1 →
      ∃ info', createInfoOfUser E M info p u = .ok info' ∧
        (getInfo E info' u).target = (getInfo E info u).target ∧
        (getInfo E info' u).fixpTypeRootDistance = (getInfo E info u).fixpTypeRootDistance ∧
        (getInfo E info' u).metadata
          = orEnable (getInfo E info u).metadata (getInfo E info p).metadata) := by
  constructor
  · intro hfar md hmd
    have hno : ¬ (getInfo E info u).fixpTypeRootDistance
        ≤ candidateDistance E (getInfo E info p).fixpTypeRootDistance := by
      rw [keep_iff E _ _ hp hu]
      exact not_not.mpr hfar
    have hc : candidateDistance E (getInfo E info p).fixpTypeRootDistance
        = (getInfo E info p).fixpTypeRootDistance + 1 :=
      candidateDistance_eq E _ (by omega)
    rw [createInfoOfUser_overwrite E M info p u hno, hmd]
    exact ⟨_, rfl, by simp [getInfo_setInfo_same], by simp [getInfo_setInfo_same, hc],
      by simp [getInfo_setInfo_same]⟩
  · intro hnear
    have hle := (keep_iff E _ _ hp hu).mpr hnear
    rw [createInfoOfUser_keep E M info p u hle]
    exact ⟨_, rfl, by simp [getInfo_setInfo_same], by simp [getInfo_setInfo_same],
      by simp [getInfo_setInfo_same]⟩

theorem createInfoOfUser_overwrites_iff_farther_witness :
    (getInfo exampleExt farTable 0).fixpTypeRootDistance < 2 ^ exampleExt.distBits ∧
    (getInfo exampleExt farTable 1).fixpTypeRootDistance < 2 ^ exampleExt.distBits ∧
    ∃ info', createInfoOfUser exampleExt pairModule farTable 0 1 = .ok info' ∧
      (getInfo exampleExt info' 1).target = (getInfo exampleExt farTable 0).target ∧
      (getInfo exampleExt info' 1).fixpTypeRootDistance
        = (getInfo exampleExt farTable 0).fixpTypeRootDistance + 1 ∧
      (getInfo exampleExt info' 1).metadata
        = orEnable (some (scalarMD false)) (getInfo exampleExt farTable 0).metadata :=
  ⟨by decide, by decide,
    (createInfoOfUser_overwrites_iff_farther exampleExt pairModule farTable 0 1
      (by decide) (by decide)).1 (by decide) (some (scalarMD false)) rfl⟩

/-- C1 as stated fails on a tie: value 1 is not farther than the candidate distance of
value 0, so the rule does not overwrite, yet the descriptor of value 1 is not the one
it had: its enable flag went from false to true. -/
theorem createInfoOfUser_tie_changes_descriptor :
    ∃ info', createInfoOfUser exampleExt pairModule tieTable 0 1 = .ok info' ∧
      ¬ (getInfo exampleExt tieTable 1).fixpTypeRootDistance
          > (getInfo exampleExt tieTable 0).fixpTypeRootDistance + 1 ∧
      mdEnabled (getInfo exampleExt tieTable 1).metadata = false ∧
      mdEnabled (getInfo exampleExt info' 1).metadata = true ∧
      (getInfo exampleExt info' 1).metadata ≠ (getInfo exampleExt tieTable 1).metadata := by
  refine ⟨_, rfl, by decide, by decide, by decide, ?_⟩
  intro h
  have h2 := congrArg mdEnabled h
  revert h2
  decide

/-- C3 at the failing input: the consumer 1 holds an enabled scalar at distance 5, the
producer 0 a disabled scalar at distance 0; the step overwrites the descriptor of 1
with a copy of the producer's and the enable flag of 1 is false afterwards. -/
theorem createInfoOfUser_resets_enable_flag :
    ∃ info', createInfoOfUser exampleExt pairModule resetTable 0 1 = .ok info' ∧
      mdEnabled (getInfo exampleExt resetTable 1).metadata = true ∧
      mdEnabled (getInfo exampleExt info' 1).metadata = false :=
  ⟨_, rfl, by decide, by decide⟩

/-! ## Queue surgery -/

theorem eraseLoop_fst (u : Value) (xs : List Value) (i next : Nat) :
    (eraseLoop u xs i next).1 = xs.filter (fun x => x != u) := by
  induction xs generalizing i next with
  | nil => rfl
  | cons x xs ih =>
    unfold eraseLoop
    by_cases hx : x = u
    · simp only [if_pos hx, ih]
      simp [hx]
    · simp only [if_neg hx, ih]
      simp [hx]

theorem eraseLoop_snd (u : Value) (xs : List Value) (i next : Nat) :
    (eraseLoop u xs i next).2 = next - (xs.take (next - i)).count u := by
  induction xs generalizing i next with
  | nil => simp [eraseLoop]
  | cons x xs ih =>
    unfold eraseLoop
    by_cases hx : x = u
    · simp only [if_pos hx, ih]
      by_cases hi : i < next
      · simp only [if_pos hi]
        obtain ⟨k, hk⟩ : ∃ k, next - i = k + 1 := ⟨next - i - 1, by omega⟩
        have hk2 : next - 1 - i = k := by omega
        rw [hk, hk2, List.take_succ_cons, hx, List.count_cons_self]
        omega
      · simp only [if_neg hi]
        have h0 : next - i = 0 := by omega
        simp [h0]
    · simp only [if_neg hx, ih]
      by_cases hi : i < next
      · obtain ⟨k, hk⟩ : ∃ k, next - i = k + 1 := ⟨next - i - 1, by omega⟩
        have hk2 : next - (i + 1) = k := by omega
        rw [hk, hk2, List.take_succ_cons, List.count_cons_of_ne (Ne.symm hx)]
      · have h0 : next - i = 0 := by omega
        have h1 : next - (i + 1) = 0 := by omega
        simp [h0, h1]

theorem findOrErase_eq (u : Value) (next : Nat) (xs : List Value) (i : Nat) :
    findOrErase u next xs i
      = if u ∈ xs.take (next - i) then (xs, true) else (xs.filter (fun x => x != u), false) := by
  induction xs generalizing i with
  | nil => simp [findOrErase]
  | cons x xs ih =>
    unfold findOrErase
    by_cases hx : x = u
    · simp only [if_pos hx]
      by_cases hi : i < next
      · obtain ⟨k, hk⟩ : ∃ k, next - i = k + 1 := ⟨next - i - 1, by omega⟩
        simp [hi, hk, hx]
      · have h0 : next - i = 0 := by omega
        simp only [if_neg hi, ih, h0]
        simp [hx]
    · simp only [if_neg hx, ih]
      by_cases hi : i < next
      · obtain ⟨k, hk⟩ : ∃ k, next - i = k + 1 := ⟨next - i - 1, by omega⟩
        have hk2 : next - (i + 1) = k := by omega
        rw [hk, hk2, List.take_succ_cons]
        have hux : u ≠ x := Ne.symm hx
        by_cases hm : u ∈ xs.take k
        · simp [hm]
        · simp [hm, hux, hx]
      · have h0 : next - i = 0 := by omega
        have h1 : next - (i + 1) = 0 := by omega
        simp [h0, h1, hx]

theorem mem_filter_ne (u x : Value) (xs : List Value) :
    x ∈ xs.filter (fun y => y != u) ↔ x ∈ xs ∧ x ≠ u := by
  simp [List.mem_filter]

theorem mem_insertAt (q : List Value) (k : Nat) (u x : Value) :
    x ∈ insertAt q k u ↔ x = u ∨ x ∈ q := by
  unfold insertAt
  rw [List.mem_append, List.mem_cons]
  constructor
  · rintro (h | h | h)
    · exact Or.inr (List.mem_of_mem_take h)
    · exact Or.inl h
    · exact Or.inr (List.mem_of_mem_drop h)
  · rintro (h | h)
    · exact Or.inr (Or.inl h)
    · rw [← List.take_append_drop k q, List.mem_append] at h
      rcases h with h | h
      · exact Or.inl h
      · exact Or.inr (Or.inr h)

theorem nodup_insertAt (q : List Value) (k : Nat) (u : Value) (hq : q.Nodup) (hu : u ∉ q) :
    (insertAt q k u).Nodup := by
  unfold insertAt
  have hperm : (q.take k ++ u :: q.drop k).Perm (u :: (q.take k ++ q.drop k)) :=
    List.perm_middle
  rw [hperm.nodup_iff, List.take_append_drop]
  exact List.nodup_cons.mpr ⟨hu, hq⟩

/-! ## Loops -/

theorem forEachRes_preserves {σ α : Type} (body : σ → α → Res σ) (P : σ → Prop)
    (hbody : ∀ s a s', P s → body s a = .ok s' → P s') :
    ∀ (l : List α) (s s' : σ), P s → forEachRes body l s = .ok s' → P s' := by
  intro l
  induction l with
  | nil =>
    intro s s' hP h
    simp only [forEachRes, Res.ok.injEq] at h
    exact h ▸ hP
  | cons a rest ih =>
    intro s s' hP h
    unfold forEachRes at h
    cases hb : body s a with
    | ok s1 =>
      rw [hb] at h
      exact ih s1 s' (hbody s a s1 hP hb) h
    | crash => rw [hb] at h; cases h
    | timeout => rw [hb] at h; cases h

theorem forEachRes_forall {σ α : Type} (body : σ → α → Res σ) (P : σ → Prop)
    (Q : α → σ → Prop)
    (hbody : ∀ s a s', P s → body s a = .ok s' → P s')
    (hpost : ∀ s a s', P s → body s a = .ok s' → Q a s')
    (hstable : ∀ s a s' b, P s → Q b s → body s a = .ok s' → Q b s') :
    ∀ (l : List α) (s s' : σ), P s → forEachRes body l s = .ok s' →
      P s' ∧ ∀ a ∈ l, Q a s' := by
  intro l
  induction l with
  | nil =>
    intro s s' hP h
    simp only [forEachRes, Res.ok.injEq] at h
    subst h
    exact ⟨hP, by simp⟩
  | cons a rest ih =>
    intro s s' hP h
    unfold forEachRes at h
    cases hb : body s a with
    | ok s1 =>
      rw [hb] at h
      have hP1 := hbody s a s1 hP hb
      have hQ1 := hpost s a s1 hP hb
      obtain ⟨hP', hrest⟩ := ih s1 s' hP1 h
      refine ⟨hP', ?_⟩
      intro b hb'
      rcases List.mem_cons.mp hb' with hba | hbr
      · subst hba
        exact forEachRes_preserves body (fun t => P t ∧ Q b t)
          (fun t c t' ht hc => ⟨hbody t c t' ht.1 hc, hstable t c t' b ht.1 ht.2 hc⟩)
          rest s1 s' ⟨hP1, hQ1⟩ h |>.2
      · exact hrest b hbr
    | crash => rw [hb] at h; cases h
    | timeout => rw [hb] at h; cases h

/-- What a successful propagation step does to the table. -/
theorem createInfoOfUser_ok (E : Ext) (M : Module) (info info' : Table) (p u : Value)
    (h : createInfoOfUser E M info p u = .ok info') :
    ∃ md tg d, info' = setInfo (touch E (touch E info p) u) u
        { getInfo E info u with metadata := md, target := tg, fixpTypeRootDistance := d } ∧
      d ≤ (getInfo E info u).fixpTypeRootDistance ∧
      d ≤ candidateDistance E (getInfo E info p).fixpTypeRootDistance := by
  by_cases hk : (getInfo E info u).fixpTypeRootDistance
      ≤ candidateDistance E (getInfo E info p).fixpTypeRootDistance
  · rw [createInfoOfUser_keep E M info p u hk] at h
    simp only [Res.ok.injEq] at h
    exact ⟨_, _, _, h.symm, le_refl _, hk⟩
  · rw [createInfoOfUser_overwrite E M info p u hk] at h
    cases hm : inheritedMetadata E M p u (getInfo E info p).metadata with
    | ok md =>
      rw [hm] at h
      simp only [Res.ok.injEq] at h
      exact ⟨_, _, _, h.symm, by omega, le_refl _⟩
    | crash => rw [hm] at h; cases h
    | timeout => rw [hm] at h; cases h

theorem createInfoOfUser_dist (E : Ext) (M : Module) (info info' : Table) (p u : Value)
    (h : createInfoOfUser E M info p u = .ok info') :
    (∀ n, distOf E info' n ≤ distOf E info n) ∧
      distOf E info' u ≤ candidateDistance E (distOf E info p) := by
  obtain ⟨md, tg, d, rfl, hd1, hd2⟩ := createInfoOfUser_ok E M info info' p u h
  unfold distOf
  constructor
  · intro n
    rw [getInfo_setInfo]
    split_ifs with hn
    · subst hn; exact hd1
    · rw [getInfo_touch, getInfo_touch]
  · rw [getInfo_setInfo_same]
    exact hd2

theorem createInfoOfUser_flags (E : Ext) (M : Module) (info info' : Table) (p u : Value)
    (h : createInfoOfUser E M info p u = .ok info') (n : Value) :
    (getInfo E info' n).isRoot = (getInfo E info n).isRoot ∧
    (getInfo E info' n).isBacktrackingNode = (getInfo E info n).isBacktrackingNode ∧
    (getInfo E info' n).roots = (getInfo E info n).roots := by
  obtain ⟨md, tg, d, rfl, -, -⟩ := createInfoOfUser_ok E M info info' p u h
  rw [getInfo_setInfo]
  split_ifs with hn
  · subst hn; exact ⟨rfl, rfl, rfl⟩
  · rw [getInfo_touch, getInfo_touch]
    exact ⟨rfl, rfl, rfl⟩

theorem createInfoOfUser_hasInfo (E : Ext) (M : Module) (info info' : Table) (p u : Value)
    (h : createInfoOfUser E M info p u = .ok info') (n : Value) :
    hasInfo info' n = (decide (n = u) || (decide (n = p) || hasInfo info n)) := by
  obtain ⟨md, tg, d, rfl, -, -⟩ := createInfoOfUser_ok E M info info' p u h
  rw [hasInfo_setInfo, hasInfo_touch, hasInfo_touch]
  cases decide (n = u) <;> simp

theorem getInfo_markBacktracking (E : Ext) (info : Table) (v n : Value) :
    getInfo E (markBacktracking E info v) n
      = if n = v then { getInfo E info v with isBacktrackingNode := true }
        else getInfo E info n := by
  unfold markBacktracking
  rw [getInfo_setInfo]

theorem getInfo_setIsRoot (E : Ext) (info : Table) (v n : Value) (b : Bool) :
    getInfo E (setIsRoot E info v b) n
      = if n = v then { getInfo E info v with isRoot := b } else getInfo E info n := by
  unfold setIsRoot
  rw [getInfo_setInfo]

theorem distOf_touch (E : Ext) (info : Table) (v n : Value) :
    distOf E (touch E info v) n = distOf E info n := by
  unfold distOf
  rw [getInfo_touch]

theorem distOf_markBacktracking (E : Ext) (info : Table) (v n : Value) :
    distOf E (markBacktracking E info v) n = distOf E info n := by
  unfold distOf
  rw [getInfo_markBacktracking]
  split_ifs with h
  · subst h; rfl
  · rfl

theorem distOf_setIsRoot (E : Ext) (info : Table) (v n : Value) (b : Bool) :
    distOf E (setIsRoot E info v b) n = distOf E info n := by
  unfold distOf
  rw [getInfo_setIsRoot]
  split_ifs with h
  · subst h; rfl
  · rfl

theorem isRootOf_touch (E : Ext) (info : Table) (v n : Value) :
    isRootOf E (touch E info v) n = isRootOf E info n := by
  unfold isRootOf
  rw [getInfo_touch]

theorem isRootOf_markBacktracking (E : Ext) (info : Table) (v n : Value) :
    isRootOf E (markBacktracking E info v) n = isRootOf E info n := by
  unfold isRootOf
  rw [getInfo_markBacktracking]
  split_ifs with h
  · subst h; rfl
  · rfl

theorem isRootOf_setIsRoot (E : Ext) (info : Table) (v n : Value) (b : Bool) :
    isRootOf E (setIsRoot E info v b) n = if n = v then b else isRootOf E info n := by
  unfold isRootOf
  rw [getInfo_setIsRoot]
  split_ifs with h <;> rfl

theorem isRootOf_createInfoOfUser (E : Ext) (M : Module) (info info' : Table) (p u : Value)
    (h : createInfoOfUser E M info p u = .ok info') (n : Value) :
    isRootOf E info' n = isRootOf E info n :=
  (createInfoOfUser_flags E M info info' p u h n).1

/-- What one successful round of the loop over the users of `v` does. -/
theorem forwardUser_ok (E : Ext) (M : Module) (v u : Value) (st st' : BuildState × Nat)
    (h : forwardUser E M v st u = .ok st') :
    (st' = st ∧ (isAnnotationGlobal M u = true ∨
        ((M.kind u).isPHINode = true ∧ u ∈ st.1.visited))) ∨
    (isAnnotationGlobal M u = false ∧
      ¬ ((M.kind u).isPHINode = true ∧ u ∈ st.1.visited) ∧
      ∃ info2,
        (info2 = touch E st.1.info v ∨ info2 = markBacktracking E (touch E st.1.info v) u) ∧
        createInfoOfUser E M info2 v u = .ok st'.1.info ∧
        st'.1.queue = st.1.queue.filter (fun x => x != u) ++ [u] ∧
        st'.1.visited = st.1.visited ∧
        st'.1.inserted = st.1.inserted ∧
        st'.1.propagated = (v, u, distOf E info2 v) :: st.1.propagated ∧
        st'.2 = st.2 - (st.1.queue.take st.2).count u) := by
  unfold forwardUser at h
  by_cases hg : isAnnotationGlobal M u = true
  · rw [if_pos hg] at h
    simp only [Res.ok.injEq] at h
    exact Or.inl ⟨h.symm, Or.inl hg⟩
  · rw [if_neg hg] at h
    by_cases hphi : ((M.kind u).isPHINode && decide (u ∈ st.1.visited)) = true
    · rw [if_pos hphi] at h
      simp only [Res.ok.injEq] at h
      refine Or.inl ⟨h.symm, Or.inr ?_⟩
      simpa using hphi
    · rw [if_neg hphi] at h
      refine Or.inr ⟨by simpa using hg, by simpa using hphi, ?_⟩
      simp only at h
      split at h
      · rename_i info3 hc
        simp only [Res.ok.injEq] at h
        subst h
        refine ⟨_, ?_, hc, ?_, rfl, rfl, rfl, ?_⟩
        · split_ifs
          · exact Or.inr rfl
          · exact Or.inl rfl
        · simp only [eraseLoop_fst]
        · simp only [eraseLoop_snd, Nat.sub_zero]
      · cases h
      · cases h

/-- What one successful round of the loop over the operands of `v` does. -/
theorem backtrackOperand_ok (E : Ext) (M : Module) (v u : Value) (st st' : BuildState × Nat)
    (h : backtrackOperand E M v st u = .ok st') :
    st' = st ∨
    (∃ info3,
        createInfoOfUser E M info3 v u = .ok st'.1.info ∧
        ((u ∈ st.1.queue.take st.2 ∧
            info3 = markBacktracking E (setIsRoot E st.1.info v false) u ∧
            st'.1.queue = st.1.queue ∧ st'.2 = st.2 ∧ st'.1.inserted = st.1.inserted) ∨
          (u ∉ st.1.queue.take st.2 ∧
            info3 = setIsRoot E (markBacktracking E (setIsRoot E st.1.info v false) u) u true ∧
            st'.1.queue = insertAt (st.1.queue.filter (fun x => x != u)) (st.2 - 1) u ∧
            st'.2 = st.2 + 1 ∧ st'.1.inserted = u :: st.1.inserted)) ∧
        st'.1.visited = st.1.visited ∧
        st'.1.propagated = (v, u, distOf E info3 v) :: st.1.propagated) := by
  unfold backtrackOperand at h
  split_ifs at h with h1 h2 h3
  · simp only [Res.ok.injEq] at h; exact Or.inl h.symm
  · simp only [Res.ok.injEq] at h; exact Or.inl h.symm
  · simp only [Res.ok.injEq] at h; exact Or.inl h.symm
  · right
    simp only [findOrErase_eq, Nat.sub_zero] at h
    by_cases hm : u ∈ st.1.queue.take st.2
    · simp only [if_pos hm, if_true] at h
      split at h
      · rename_i info4 hc
        simp only [Res.ok.injEq] at h
        subst h
        exact ⟨_, hc, Or.inl ⟨hm, rfl, rfl, rfl, rfl⟩, rfl, rfl⟩
      · cases h
      · cases h
    · simp only [if_neg hm, Bool.false_eq_true, if_false] at h
      split at h
      · rename_i info4 hc
        simp only [Res.ok.injEq] at h
        subst h
        exact ⟨_, hc, Or.inr ⟨hm, rfl, rfl, rfl, rfl⟩, rfl, rfl⟩
      · cases h
      · cases h

theorem forwardLoop_preserves (E : Ext) (M : Module) (P : BuildState → Prop)
    (hvisit : ∀ s v, v ∈ s.queue → P s → P { s with visited := v :: s.visited })
    (hstep : ∀ v st u st', P st.1 → forwardUser E M v st u = .ok st' → P st'.1) :
    ∀ (fuel : Nat) (s : BuildState) (next : Nat) (s' : BuildState),
      P s → forwardLoop E M fuel s next = .ok s' → P s' := by
  intro fuel
  induction fuel with
  | zero =>
    intro s next s' hP h
    unfold forwardLoop at h
    cases hq : s.queue.get? next with
    | none =>
      rw [hq] at h
      simp only [Res.ok.injEq] at h
      exact h ▸ hP
    | some v => rw [hq] at h; cases h
  | succ fuel ih =>
    intro s next s' hP h
    unfold forwardLoop at h
    cases hq : s.queue.get? next with
    | none =>
      rw [hq] at h
      simp only [Res.ok.injEq] at h
      exact h ▸ hP
    | some v =>
      rw [hq] at h
      simp only at h
      have hv : v ∈ s.queue := List.get?_mem hq
      cases hf : forEachRes (forwardUser E M v) (M.users v)
          ({ s with visited := v :: s.visited }, next) with
      | ok st =>
        rw [hf] at h
        have hP1 : P st.1 :=
          forEachRes_preserves (forwardUser E M v) (fun t => P t.1)
            (fun t a t' ht ha => hstep v t a t' ht ha) _ _ _ (hvisit s v hv hP) hf
        exact ih st.1 (st.2 + 1) s' hP1 h
      | crash => rw [hf] at h; cases h
      | timeout => rw [hf] at h; cases h

theorem backwardLoop_preserves (E : Ext) (M : Module) (P : BuildState → Prop)
    (htouch : ∀ s v, P s → P { s with info := touch E s.info v })
    (hstep : ∀ v st u st', P st.1 → backtrackOperand E M v st u = .ok st' → P st'.1) :
    ∀ (fuel : Nat) (s : BuildState) (next : Nat) (s' : BuildState),
      P s → backwardLoop E M fuel s next = .ok s' → P s' := by
  intro fuel
  induction fuel with
  | zero =>
    intro s next s' hP h
    unfold backwardLoop at h
    split_ifs at h with hn
    · simp only [Res.ok.injEq] at h
      exact h ▸ hP
  | succ fuel ih =>
    intro s next s' hP h
    unfold backwardLoop at h
    split_ifs at h with hn
    · simp only [Res.ok.injEq] at h
      exact h ▸ hP
    · cases hq : s.queue.get? (next - 1) with
      | none => rw [hq] at h; cases h
      | some v =>
        rw [hq] at h
        simp only at h
        have hP1 := htouch s v hP
        split_ifs at h with hb hi
        · exact ih _ _ s' hP1 h
        · exact ih _ _ s' hP1 h
        · cases hf : forEachRes (backtrackOperand E M v) (M.operands v)
              ({ s with info := touch E s.info v }, next) with
          | ok st =>
            rw [hf] at h
            have hP2 : P st.1 :=
              forEachRes_preserves (backtrackOperand E M v) (fun t => P t.1)
                (fun t a t' ht ha => hstep v t a t' ht ha) _ _ _ hP1 hf
            exact ih st.1 (st.2 - 1) s' hP2 h
          | crash => rw [hf] at h; cases h
          | timeout => rw [hf] at h; cases h

theorem buildLoop_preserves (E : Ext) (M : Module) (P : BuildState → Prop)
    (hvisit : ∀ s v, v ∈ s.queue → P s → P { s with visited := v :: s.visited })
    (hfwd : ∀ v st u st', P st.1 → forwardUser E M v st u = .ok st' → P st'.1)
    (htouch : ∀ s v, P s → P { s with info := touch E s.info v })
    (hbwd : ∀ v st u st', P st.1 → backtrackOperand E M v st u = .ok st' → P st'.1) :
    ∀ (fuel : Nat) (s : BuildState) (prev : Nat) (s' : BuildState),
      P s → buildLoop E M fuel s prev = .ok s' → P s' := by
  intro fuel
  induction fuel with
  | zero =>
    intro s prev s' hP h
    unfold buildLoop at h
    by_cases hn : prev < s.queue.length
    · rw [if_pos hn] at h
      cases h
    · rw [if_neg hn] at h
      simp only [Res.ok.injEq] at h
      exact h ▸ hP
  | succ fuel ih =>
    intro s prev s' hP h
    unfold buildLoop at h
    by_cases hn : prev < s.queue.length
    · rw [if_pos hn] at h
      cases hf : forwardLoop E M (fuel + 1) s 0 with
      | ok s1 =>
        rw [hf] at h
        simp only at h
        have hP1 := forwardLoop_preserves E M P hvisit hfwd _ _ _ _ hP hf
        cases hb : backwardLoop E M (fuel + 1) s1 s1.queue.length with
        | ok s2 =>
          rw [hb] at h
          have hP2 := backwardLoop_preserves E M P htouch hbwd _ _ _ _ hP1 hb
          exact ih s2 _ s' hP2 h
        | crash => rw [hb] at h; cases h
        | timeout => rw [hb] at h; cases h
      | crash => rw [hf] at h; cases h
      | timeout => rw [hf] at h; cases h
    · rw [if_neg hn] at h
      simp only [Res.ok.injEq] at h
      exact h ▸ hP

/-! ## Queue invariant -/

theorem mem_moved (q : List Value) (u x : Value) :
    x ∈ q.filter (fun y => y != u) ++ [u] ↔ x ∈ q ∨ x = u := by
  rw [List.mem_append, mem_filter_ne, List.mem_singleton]
  constructor
  · rintro (⟨h, -⟩ | h)
    · exact Or.inl h
    · exact Or.inr h
  · rintro (h | h)
    · by_cases hx : x = u
      · exact Or.inr hx
      · exact Or.inl ⟨h, hx⟩
    · exact Or.inr h

theorem nodup_moved (q : List Value) (u : Value) (hq : q.Nodup) :
    (q.filter (fun y => y != u) ++ [u]).Nodup := by
  rw [List.nodup_append]
  refine ⟨hq.filter _, List.nodup_singleton u, ?_⟩
  intro a ha hb
  rw [mem_filter_ne] at ha
  rw [List.mem_singleton] at hb
  exact ha.2 hb

theorem forwardUser_queueInv (E : Ext) (M : Module) (v u : Value) (st st' : BuildState × Nat)
    (hQ : QueueInv st.1) (h : forwardUser E M v st u = .ok st') :
    QueueInv st'.1 ∧ (∀ x ∈ st.1.queue, x ∈ st'.1.queue) := by
  rcases forwardUser_ok E M v u st st' h with ⟨rfl, -⟩ | ⟨-, -, info2, -, -, hq, hv, hi, -, -⟩
  · exact ⟨hQ, fun x hx => hx⟩
  · obtain ⟨hnd, hvis, hins⟩ := hQ
    have hgrow : ∀ x ∈ st.1.queue, x ∈ st'.1.queue := by
      intro x hx
      rw [hq, mem_moved]
      exact Or.inl hx
    refine ⟨⟨?_, ?_, ?_⟩, hgrow⟩
    · rw [hq]; exact nodup_moved _ _ hnd
    · intro x hx
      rw [hv] at hx
      exact hgrow x (hvis x hx)
    · intro x hx
      rw [hi] at hx
      exact hgrow x (hins x hx)

theorem backtrackOperand_queueInv (E : Ext) (M : Module) (v u : Value)
    (st st' : BuildState × Nat) (hQ : QueueInv st.1)
    (h : backtrackOperand E M v st u = .ok st') :
    QueueInv st'.1 ∧ (∀ x ∈ st.1.queue, x ∈ st'.1.queue) := by
  rcases backtrackOperand_ok E M v u st st' h with rfl | ⟨info3, -, hcase, hv, -⟩
  · exact ⟨hQ, fun x hx => hx⟩
  · obtain ⟨hnd, hvis, hins⟩ := hQ
    rcases hcase with ⟨hm, -, hq, -, hi⟩ | ⟨hm, -, hq, -, hi⟩
    · refine ⟨⟨?_, ?_, ?_⟩, ?_⟩
      · rw [hq]; exact hnd
      · intro x hx; rw [hv] at hx; rw [hq]; exact hvis x hx
      · intro x hx; rw [hi] at hx; rw [hq]; exact hins x hx
      · intro x hx; rw [hq]; exact hx
    · have hgrow : ∀ x ∈ st.1.queue, x ∈ st'.1.queue := by
        intro x hx
        rw [hq, mem_insertAt, mem_filter_ne]
        by_cases hxu : x = u
        · exact Or.inl hxu
        · exact Or.inr ⟨hx, hxu⟩
      refine ⟨⟨?_, ?_, ?_⟩, hgrow⟩
      · rw [hq]
        refine nodup_insertAt _ _ _ (hnd.filter _) ?_
        rw [mem_filter_ne]
        exact fun hc => hc.2 rfl
      · intro x hx; rw [hv] at hx; exact hgrow x (hvis x hx)
      · intro x hx
        rw [hi] at hx
        rcases List.mem_cons.mp hx with hxu | hx'
        · rw [hq, mem_insertAt]; exact Or.inl hxu
        · exact hgrow x (hins x hx')

/-- The alternation keeps the queue invariant and never drops a value of `base`. -/
theorem buildLoop_queueInv (E : Ext) (M : Module) (base : List Value) (fuel : Nat)
    (s : BuildState) (prev : Nat) (s' : BuildState)
    (hQ : QueueInv s) (hbase : ∀ x ∈ base, x ∈ s.queue)
    (h : buildLoop E M fuel s prev = .ok s') :
    QueueInv s' ∧ ∀ x ∈ base, x ∈ s'.queue := by
  refine buildLoop_preserves E M (fun t => QueueInv t ∧ ∀ x ∈ base, x ∈ t.queue)
    ?_ ?_ ?_ ?_ fuel s prev s' ⟨hQ, hbase⟩ h
  · intro t v hv ht
    obtain ⟨⟨hnd, hvis, hins⟩, hb⟩ := ht
    refine ⟨⟨hnd, ?_, hins⟩, hb⟩
    intro x hx
    rcases List.mem_cons.mp hx with hxv | hx'
    · exact hxv ▸ hv
    · exact hvis x hx'
  · intro v st u st' ht hstep
    obtain ⟨hQ', hgrow⟩ := forwardUser_queueInv E M v u st st' ht.1 hstep
    exact ⟨hQ', fun x hx => hgrow x (ht.2 x hx)⟩
  · intro t v ht
    exact ht
  · intro v st u st' ht hstep
    obtain ⟨hQ', hgrow⟩ := backtrackOperand_queueInv E M v u st st' ht.1 hstep
    exact ⟨hQ', fun x hx => hgrow x (ht.2 x hx)⟩

theorem forEachRes_preserves_mem {σ α : Type} (body : σ → α → Res σ) (P : σ → Prop) :
    ∀ (l : List α), (∀ s a s', a ∈ l → P s → body s a = .ok s' → P s') →
      ∀ (s s' : σ), P s → forEachRes body l s = .ok s' → P s' := by
  intro l
  induction l with
  | nil =>
    intro _ s s' hP h
    simp only [forEachRes, Res.ok.injEq] at h
    exact h ▸ hP
  | cons a rest ih =>
    intro hbody s s' hP h
    unfold forEachRes at h
    cases hb : body s a with
    | ok s1 =>
      rw [hb] at h
      exact ih (fun s a' s' hm => hbody s a' s' (List.mem_cons_of_mem a hm)) s1 s'
        (hbody s a s1 (List.mem_cons_self a rest) hP hb) h
    | crash => rw [hb] at h; cases h
    | timeout => rw [hb] at h; cases h

theorem forEachRes_forall_mem {σ α : Type} (body : σ → α → Res σ) (P : σ → Prop)
    (Q : α → σ → Prop) :
    ∀ (l : List α),
      (∀ s a s', a ∈ l → P s → body s a = .ok s' → P s') →
      (∀ s a s', a ∈ l → P s → body s a = .ok s' → Q a s') →
      (∀ s a s' b, a ∈ l → P s → Q b s → body s a = .ok s' → Q b s') →
      ∀ (s s' : σ), P s → forEachRes body l s = .ok s' → P s' ∧ ∀ a ∈ l, Q a s' := by
  intro l
  induction l with
  | nil =>
    intro _ _ _ s s' hP h
    simp only [forEachRes, Res.ok.injEq] at h
    subst h
    exact ⟨hP, by simp⟩
  | cons a rest ih =>
    intro hbody hpost hstable s s' hP h
    unfold forEachRes at h
    cases hb : body s a with
    | ok s1 =>
      rw [hb] at h
      have ha : a ∈ a :: rest := List.mem_cons_self a rest
      have hP1 := hbody s a s1 ha hP hb
      have hQ1 := hpost s a s1 ha hP hb
      have hbody' : ∀ s a' s', a' ∈ rest → P s → body s a' = .ok s' → P s' :=
        fun s a' s' hm => hbody s a' s' (List.mem_cons_of_mem a hm)
      have hpost' : ∀ s a' s', a' ∈ rest → P s → body s a' = .ok s' → Q a' s' :=
        fun s a' s' hm => hpost s a' s' (List.mem_cons_of_mem a hm)
      have hstable' : ∀ s a' s' b, a' ∈ rest → P s → Q b s → body s a' = .ok s' → Q b s' :=
        fun s a' s' b hm => hstable s a' s' b (List.mem_cons_of_mem a hm)
      obtain ⟨hP', hrest⟩ := ih hbody' hpost' hstable' s1 s' hP1 h
      refine ⟨hP', ?_⟩
      intro b hb'
      rcases List.mem_cons.mp hb' with hba | hbr
      · subst hba
        exact (forEachRes_preserves_mem body (fun t => P t ∧ Q b t) rest
          (fun t c t' hm ht hc => ⟨hbody' t c t' hm ht.1 hc, hstable' t c t' b hm ht.1 ht.2 hc⟩)
          s1 s' ⟨hP1, hQ1⟩ h).2
      · exact hrest b hbr
    | crash => rw [hb] at h; cases h
    | timeout => rw [hb] at h; cases h

theorem eq_take_cons_drop (q : List Value) (n : Nat) (v : Value) (h : q.get? n = some v) :
    q = q.take n ++ v :: q.drop (n + 1) ∧ (q.take n).length = n := by
  induction q generalizing n with
  | nil => simp at h
  | cons x xs ih =>
    cases n with
    | zero =>
      simp only [List.get?_cons_zero, Option.some.injEq] at h
      subst h
      simp
    | succ n =>
      simp only [List.get?_cons_succ] at h
      obtain ⟨h1, h2⟩ := ih n h
      constructor
      · simp only [List.take_succ_cons, List.drop_succ_cons, List.cons_append]
        rw [← h1]
      · simp only [List.take_succ_cons, List.length_cons, h2]

theorem length_filter_ne_add_count (l : List Value) (u : Value) :
    (l.filter (fun x => x != u)).length + l.count u = l.length := by
  induction l with
  | nil => rfl
  | cons x xs ih =>
    by_cases hx : x = u
    · subst hx
      simp only [bne_self_eq_false, Bool.false_eq_true, not_false_eq_true, List.filter_cons_of_neg,
        List.count_cons_self, List.length_cons]
      omega
    · have hb : (x != u) = true := by simpa using hx
      rw [List.count_cons_of_ne (Ne.symm hx)]
      simp only [List.filter_cons, hb, if_true, List.length_cons]
      omega

/-- Moving a value `u ≠ v` to the end keeps `v` at the scan position, and the values
before the scan position are among those that were before it. -/
theorem moved_scan (q : List Value) (next : Nat) (u v : Value) (hget : q.get? next = some v)
    (huv : u ≠ v) :
    (q.filter (fun x => x != u) ++ [u]).get? (next - (q.take next).count u) = some v ∧
    (q.filter (fun x => x != u) ++ [u]).take (next - (q.take next).count u)
      = (q.take next).filter (fun x => x != u) := by
  obtain ⟨hsplit, hlen⟩ := eq_take_cons_drop q next v hget
  have hcount := length_filter_ne_add_count (q.take next) u
  have hpos : next - (q.take next).count u = ((q.take next).filter (fun x => x != u)).length := by
    omega
  have hvu : (v != u) = true := by simpa using Ne.symm huv
  have hfil : q.filter (fun x => x != u) ++ [u]
      = (q.take next).filter (fun x => x != u)
        ++ (v :: ((q.drop (next + 1)).filter (fun x => x != u) ++ [u])) := by
    conv_lhs => rw [hsplit]
    rw [List.filter_append]
    simp only [List.filter_cons, hvu, if_true, List.append_assoc, List.cons_append]
  rw [hpos, hfil]
  constructor
  · rw [List.get?_eq_getElem?, List.getElem?_append_right (le_refl _)]
    simp
  · rw [List.take_left']
    rfl

/-! ## Closure of the queue under consumer edges -/

theorem ConsumersIn.mono {M : Module} {q q' : List Value} {x : Value}
    (h : ConsumersIn M q x) (hsub : ∀ y ∈ q, y ∈ q') : ConsumersIn M q' x :=
  fun u hu => hsub u (h u hu)

theorem forwardUser_scan (E : Ext) (M : Module) (hphi : OnlyPhiSelfUse M) (v u : Value)
    (st st' : BuildState × Nat) (hu : u ∈ M.users v)
    (hQ : QueueInv st.1) (hvis : v ∈ st.1.visited) (hget : st.1.queue.get? st.2 = some v)
    (hclosed : ∀ x ∈ st.1.queue.take st.2, ConsumersIn M st.1.queue x)
    (h : forwardUser E M v st u = .ok st') :
    (v ∈ st'.1.visited ∧ st'.1.queue.get? st'.2 = some v ∧
      ∀ x ∈ st'.1.queue.take st'.2, ConsumersIn M st'.1.queue x) ∧
    (isAnnotationGlobal M u = false → u ∈ st'.1.queue) := by
  rcases forwardUser_ok E M v u st st' h with
    ⟨rfl, hskip⟩ | ⟨-, hnophi, info2, -, -, hq, hv, -, -, hnext⟩
  · refine ⟨⟨hvis, hget, hclosed⟩, ?_⟩
    intro hg
    rcases hskip with hg' | ⟨-, huvis⟩
    · rw [hg] at hg'; cases hg'
    · exact hQ.2.1 u huvis
  · have huv : u ≠ v := by
      intro huv
      subst huv
      exact hnophi ⟨hphi u hu, hvis⟩
    obtain ⟨hg1, hg2⟩ := moved_scan st.1.queue st.2 u v hget huv
    have hgrow : ∀ x ∈ st.1.queue, x ∈ st'.1.queue := by
      intro x hx
      rw [hq, mem_moved]
      exact Or.inl hx
    refine ⟨⟨hv ▸ hvis, ?_, ?_⟩, ?_⟩
    · rw [hq, hnext]; exact hg1
    · intro x hx
      rw [hq, hnext, hg2, mem_filter_ne] at hx
      exact (hclosed x hx.1).mono hgrow
    · intro _
      rw [hq, mem_moved]
      exact Or.inr rfl

/-- At the end of a forward pass every consumer of a queue value is in the queue. -/
theorem forwardLoop_closed (E : Ext) (M : Module) (hphi : OnlyPhiSelfUse M) :
    ∀ (fuel : Nat) (s : BuildState) (next : Nat) (s' : BuildState),
      QueueInv s → (∀ x ∈ s.queue.take next, ConsumersIn M s.queue x) →
      forwardLoop E M fuel s next = .ok s' →
      ∀ x ∈ s'.queue, ConsumersIn M s'.queue x := by
  intro fuel
  induction fuel with
  | zero =>
    intro s next s' _ hclosed h
    unfold forwardLoop at h
    cases hq : s.queue.get? next with
    | none =>
      rw [hq] at h
      simp only [Res.ok.injEq] at h
      subst h
      have hlen : s.queue.length ≤ next := by
        rw [List.get?_eq_none] at hq
        exact hq
      intro x hx
      rw [← List.take_of_length_le hlen] at hx
      exact hclosed x hx
    | some v => rw [hq] at h; cases h
  | succ fuel ih =>
    intro s next s' hQ hclosed h
    unfold forwardLoop at h
    cases hq : s.queue.get? next with
    | none =>
      rw [hq] at h
      simp only [Res.ok.injEq] at h
      subst h
      have hlen : s.queue.length ≤ next := by
        rw [List.get?_eq_none] at hq
        exact hq
      intro x hx
      rw [← List.take_of_length_le hlen] at hx
      exact hclosed x hx
    | some v =>
      rw [hq] at h
      simp only at h
      have hvq : v ∈ s.queue := List.get?_mem hq
      cases hf : forEachRes (forwardUser E M v) (M.users v)
          ({ s with visited := v :: s.visited }, next) with
      | ok st =>
        rw [hf] at h
        have hQ0 : QueueInv ({ s with visited := v :: s.visited } : BuildState) := by
          obtain ⟨hnd, hvis, hins⟩ := hQ
          refine ⟨hnd, ?_, hins⟩
          intro x hx
          rcases List.mem_cons.mp hx with hxv | hx'
          · exact hxv ▸ hvq
          · exact hvis x hx'
        obtain ⟨hI, hpost⟩ := forEachRes_forall_mem (forwardUser E M v)
          (fun t => QueueInv t.1 ∧ v ∈ t.1.visited ∧ t.1.queue.get? t.2 = some v ∧
            ∀ x ∈ t.1.queue.take t.2, ConsumersIn M t.1.queue x)
          (fun u t => isAnnotationGlobal M u = false → u ∈ t.1.queue)
          (M.users v)
          (fun t a t' ha ht hstep =>
            ⟨(forwardUser_queueInv E M v a t t' ht.1 hstep).1,
              (forwardUser_scan E M hphi v a t t' ha ht.1 ht.2.1 ht.2.2.1 ht.2.2.2 hstep).1⟩)
          (fun t a t' ha ht hstep =>
            (forwardUser_scan E M hphi v a t t' ha ht.1 ht.2.1 ht.2.2.1 ht.2.2.2 hstep).2)
          (fun t a t' b _ ht hb hstep hg =>
            (forwardUser_queueInv E M v a t t' ht.1 hstep).2 b (hb hg))
          _ _ ⟨hQ0, List.mem_cons_self v _, hq, hclosed⟩ hf
        obtain ⟨hQ1, -, hget1, hclosed1⟩ := hI
        refine ih st.1 (st.2 + 1) s' hQ1 ?_ h
        intro x hx
        rw [List.take_succ, ← List.get?_eq_getElem?, hget1] at hx
        simp only [Option.toList_some, List.mem_append, List.mem_singleton] at hx
        rcases hx with hx | hx
        · exact hclosed1 x hx
        · subst hx
          intro u hu
          exact hpost u hu.1 hu.2
      | crash => rw [hf] at h; cases h
      | timeout => rw [hf] at h; cases h

theorem forwardLoop_queueInv (E : Ext) (M : Module) (base : List Value) (fuel : Nat)
    (s : BuildState) (next : Nat) (s' : BuildState)
    (hQ : QueueInv s) (hbase : ∀ x ∈ base, x ∈ s.queue)
    (h : forwardLoop E M fuel s next = .ok s') :
    QueueInv s' ∧ ∀ x ∈ base, x ∈ s'.queue := by
  refine forwardLoop_preserves E M (fun t => QueueInv t ∧ ∀ x ∈ base, x ∈ t.queue)
    ?_ ?_ fuel s next s' ⟨hQ, hbase⟩ h
  · intro t v hv ht
    obtain ⟨⟨hnd, hvis, hins⟩, hb⟩ := ht
    refine ⟨⟨hnd, ?_, hins⟩, hb⟩
    intro x hx
    rcases List.mem_cons.mp hx with hxv | hx'
    · exact hxv ▸ hv
    · exact hvis x hx'
  · intro v st u st' ht hstep
    obtain ⟨hQ', hgrow⟩ := forwardUser_queueInv E M v u st st' ht.1 hstep
    exact ⟨hQ', fun x hx => hgrow x (ht.2 x hx)⟩

theorem backwardLoop_queueInv (E : Ext) (M : Module) (base : List Value) (fuel : Nat)
    (s : BuildState) (next : Nat) (s' : BuildState)
    (hQ : QueueInv s) (hbase : ∀ x ∈ base, x ∈ s.queue)
    (h : backwardLoop E M fuel s next = .ok s') :
    QueueInv s' ∧ ∀ x ∈ base, x ∈ s'.queue := by
  refine backwardLoop_preserves E M (fun t => QueueInv t ∧ ∀ x ∈ base, x ∈ t.queue)
    ?_ ?_ fuel s next s' ⟨hQ, hbase⟩ h
  · intro t v ht
    exact ht
  · intro v st u st' ht hstep
    obtain ⟨hQ', hgrow⟩ := backtrackOperand_queueInv E M v u st st' ht.1 hstep
    exact ⟨hQ', fun x hx => hgrow x (ht.2 x hx)⟩

/-- A duplicate-free list that is contained in a list no longer than itself has the
same members. -/
theorem subset_of_nodup_of_length_le (l₁ l₂ : List Value) (hnd : l₁.Nodup)
    (hsub : ∀ x ∈ l₁, x ∈ l₂) (hlen : l₂.length ≤ l₁.length) : ∀ x ∈ l₂, x ∈ l₁ := by
  have hsp : l₁.Subperm l₂ := List.subperm_of_subset hnd hsub
  have hp : l₁.Perm l₂ := hsp.perm_of_length_le hlen
  intro x hx
  exact hp.mem_iff.mpr hx

/-- When the alternation stops, every consumer of a queue value is in the queue. -/
theorem buildLoop_closed (E : Ext) (M : Module) (hphi : OnlyPhiSelfUse M) :
    ∀ (fuel : Nat) (s : BuildState) (prev : Nat) (s' : BuildState),
      QueueInv s →
      (s.queue.length ≤ prev → ∀ x ∈ s.queue, ConsumersIn M s.queue x) →
      buildLoop E M fuel s prev = .ok s' →
      ∀ x ∈ s'.queue, ConsumersIn M s'.queue x := by
  intro fuel
  induction fuel with
  | zero =>
    intro s prev s' _ hc h
    unfold buildLoop at h
    by_cases hn : prev < s.queue.length
    · rw [if_pos hn] at h
      cases h
    · rw [if_neg hn] at h
      simp only [Res.ok.injEq] at h
      subst h
      exact hc (by omega)
  | succ fuel ih =>
    intro s prev s' hQ hc h
    unfold buildLoop at h
    by_cases hn : prev < s.queue.length
    · rw [if_pos hn] at h
      cases hf : forwardLoop E M (fuel + 1) s 0 with
      | ok s1 =>
        rw [hf] at h
        simp only at h
        obtain ⟨hQ1, hsub1⟩ := forwardLoop_queueInv E M s.queue _ _ _ _ hQ (fun x hx => hx) hf
        have hclosed1 := forwardLoop_closed E M hphi _ _ _ _ hQ (by simp) hf
        cases hb : backwardLoop E M (fuel + 1) s1 s1.queue.length with
        | ok s2 =>
          rw [hb] at h
          obtain ⟨hQ2, hsub2⟩ :=
            backwardLoop_queueInv E M s1.queue _ _ _ _ hQ1 (fun x hx => hx) hb
          refine ih s2 _ s' hQ2 ?_ h
          intro hlen
          have hback : ∀ x ∈ s2.queue, x ∈ s.queue :=
            subset_of_nodup_of_length_le s.queue s2.queue hQ.1
              (fun x hx => hsub2 x (hsub1 x hx)) hlen
          intro x hx
          exact (hclosed1 x (hsub1 x (hback x hx))).mono hsub2
        | crash => rw [hb] at h; cases h
        | timeout => rw [hb] at h; cases h
      | crash => rw [hf] at h; cases h
      | timeout => rw [hf] at h; cases h
    · rw [if_neg hn] at h
      simp only [Res.ok.injEq] at h
      subst h
      exact hc (by omega)

theorem buildConversionQueueForRootValues_ok (E : Ext) (M : Module) (fuel : Nat)
    (val queue : List Value) (info : Table) (s : BuildState)
    (h : buildConversionQueueForRootValues E M fuel val queue info = .ok s) :
    ∃ s0, buildLoop E M fuel (initialState E val queue info) 0 = .ok s0 ∧
      s = { s0 with info := finalizeRoots E M s0.queue s0.info } := by
  unfold buildConversionQueueForRootValues at h
  cases hb : buildLoop E M fuel (initialState E val queue info) 0 with
  | ok s0 =>
    rw [hb] at h
    simp only [Res.ok.injEq] at h
    exact ⟨s0, rfl, h.symm⟩
  | crash => rw [hb] at h; cases h
  | timeout => rw [hb] at h; cases h

theorem pairModule_onlyPhiSelfUse : OnlyPhiSelfUse pairModule := by
  intro v hv
  unfold pairModule at hv
  simp only at hv
  split_ifs at hv with h0
  · subst h0
    simp at hv
  · simp at hv

/-- C2, as amended. On a module in which only PHI nodes use their own value, for every
duplicate-free list of roots on which `buildConversionQueueForRootValues` finishes, the
final queue contains each root, each value reachable from a queue value along consumer
edges (the global annotation array left out) and each value the backtracking phase
inserted, and no value occurs in it twice. -/
theorem queue_totality (E : Ext) (M : Module) (hphi : OnlyPhiSelfUse M) (fuel : Nat)
    (val : List Value) (info : Table) (s : BuildState) (hval : val.Nodup)
    (h : buildConversionQueueForRootValues E M fuel val [] info = .ok s) :
    (∀ r ∈ val, r ∈ s.queue) ∧
    (∀ v ∈ s.queue, ∀ n, Reachable M v n → n ∈ s.queue) ∧
    (∀ x ∈ s.inserted, x ∈ s.queue) ∧
    s.queue.Nodup := by
  obtain ⟨s0, hb, rfl⟩ := buildConversionQueueForRootValues_ok E M fuel val [] info s h
  have hQ0 : QueueInv (initialState E val [] info) := by
    refine ⟨?_, ?_, ?_⟩
    · simpa [initialState] using hval
    · intro x hx; simp [initialState] at hx
    · intro x hx; simp [initialState] at hx
  obtain ⟨hQ, hroots⟩ := buildLoop_queueInv E M val fuel _ 0 s0 hQ0
    (by intro x hx; simpa [initialState] using hx) hb
  have hclosed := buildLoop_closed E M hphi fuel _ 0 s0 hQ0
    (by
      intro hlen x hx
      have : (initialState E val [] info).queue = [] :=
        List.eq_nil_of_length_eq_zero (by omega)
      rw [this] at hx
      cases hx) hb
  refine ⟨hroots, ?_, hQ.2.2, hQ.1⟩
  intro v hv n hreach
  induction hreach with
  | refl => exact hv
  | tail _ hedge ihn => exact hclosed _ ihn _ hedge

theorem queue_totality_witness :
    OnlyPhiSelfUse pairModule ∧ [0].Nodup ∧
    ∃ s, buildConversionQueueForRootValues exampleExt pairModule 4 [0] [] farTable = .ok s ∧
      (∀ r ∈ [0], r ∈ s.queue) ∧
      (∀ v ∈ s.queue, ∀ n, Reachable pairModule v n → n ∈ s.queue) ∧
      (∀ x ∈ s.inserted, x ∈ s.queue) ∧
      s.queue.Nodup := by
  have hex : ∃ s, buildConversionQueueForRootValues exampleExt pairModule 4 [0] [] farTable
      = .ok s := by
    simp [buildConversionQueueForRootValues, buildLoop, forwardLoop, backwardLoop,
    forEachRes, forwardUser, backtrackOperand, initialState, seedRoots, finalizeRoots,
    finalizeStep, mergeRootsInto, hasInfo, setIsRoot, markBacktracking, touch, getInfo, setInfo,
    findInfo, createInfoOfUser, inheritedMetadata, extractGEPIMetadata, gepiWalk,
    candidateDistance, isAnnotationGlobal, eraseLoop, findOrErase, insertAt, exampleExt,
    annotated, scalarMD, orEnable, unwrapTy, distOf, isRootOf, rootsOf, Kind.isGlobalObject,
    Kind.isPHINode, Kind.isInstruction, Kind.isStoreInst, Kind.isUser, Kind.isArgument,
    Kind.isFunction, Kind.isBlockAddress, Ty.isStructTy, Ty.isFloatingPointTy,
    Ty.isSequentialTy, MDInfo.clone, MDInfo.isInputInfo, MDInfo.enabled, MDInfo.setEnabled, pairModule, farTable]
  obtain ⟨s, hs⟩ := hex
  exact ⟨pairModule_onlyPhiSelfUse, by decide, s, hs,
    queue_totality exampleExt pairModule pairModule_onlyPhiSelfUse 4 [0] farTable s
      (by decide) hs⟩

/-- C2 as stated fails on a module with a non-PHI instruction that uses itself: the
build from the roots 0 and 1 finishes with the queue `[1, 0]`, which lacks value 2
although 2 consumes the queue value 1. -/
theorem queue_totality_fails_on_self_use :
    ∃ s, buildConversionQueueForRootValues exampleExt selfUseModule 4 [0, 1] [] selfUseTable
        = .ok s ∧
      [0, 1].Nodup ∧ s.queue = [1, 0] ∧ ConsumerEdge selfUseModule 1 2 ∧ 2 ∉ s.queue := by
  simp [buildConversionQueueForRootValues, buildLoop, forwardLoop, backwardLoop,
    forEachRes, forwardUser, backtrackOperand, initialState, seedRoots, finalizeRoots,
    finalizeStep, mergeRootsInto, hasInfo, setIsRoot, markBacktracking, touch, getInfo, setInfo,
    findInfo, createInfoOfUser, inheritedMetadata, extractGEPIMetadata, gepiWalk,
    candidateDistance, isAnnotationGlobal, eraseLoop, findOrErase, insertAt, exampleExt,
    annotated, scalarMD, orEnable, unwrapTy, distOf, isRootOf, rootsOf, Kind.isGlobalObject,
    Kind.isPHINode, Kind.isInstruction, Kind.isStoreInst, Kind.isUser, Kind.isArgument,
    Kind.isFunction, Kind.isBlockAddress, Ty.isStructTy, Ty.isFloatingPointTy,
    Ty.isSequentialTy, MDInfo.clone, MDInfo.isInputInfo, MDInfo.enabled, MDInfo.setEnabled, selfUseModule, selfUseTable, ConsumerEdge]

/-! ## Distances -/

theorem distOf_seedRoots (E : Ext) (queue : List Value) (info : Table) (n : Value) :
    distOf E (seedRoots E info queue) n = distOf E info n := by
  unfold seedRoots
  induction queue generalizing info with
  | nil => rfl
  | cons v rest ih =>
    simp only [List.foldl_cons]
    rw [ih, distOf_setIsRoot]

theorem SameButRoots.refl (a : ValueInfo) : SameButRoots a a :=
  ⟨rfl, rfl, rfl, rfl, rfl, rfl⟩

theorem SameButRoots.trans {a b c : ValueInfo} (h1 : SameButRoots a b)
    (h2 : SameButRoots b c) : SameButRoots a c :=
  ⟨h1.1.trans h2.1, h1.2.1.trans h2.2.1, h1.2.2.1.trans h2.2.2.1,
    h1.2.2.2.1.trans h2.2.2.2.1, h1.2.2.2.2.1.trans h2.2.2.2.2.1,
    h1.2.2.2.2.2.trans h2.2.2.2.2.2⟩

theorem mergeRootsInto_same (E : Ext) (newroots : List Value) (info : Table) (u n : Value) :
    SameButRoots (getInfo E (mergeRootsInto E newroots info u) n) (getInfo E info n) := by
  unfold mergeRootsInto
  split_ifs with h
  · exact SameButRoots.refl _
  · rw [getInfo_setInfo]
    split_ifs with hn
    · subst hn
      exact ⟨rfl, rfl, rfl, rfl, rfl, rfl⟩
    · exact SameButRoots.refl _

theorem foldl_mergeRootsInto_same (E : Ext) (newroots : List Value) (us : List Value)
    (info : Table) (n : Value) :
    SameButRoots (getInfo E (us.foldl (mergeRootsInto E newroots) info) n)
      (getInfo E info n) := by
  induction us generalizing info with
  | nil => exact SameButRoots.refl _
  | cons u rest ih =>
    simp only [List.foldl_cons]
    exact (ih _).trans (mergeRootsInto_same E newroots info u n)

theorem finalizeStep_same (E : Ext) (M : Module) (info : Table) (v n : Value) :
    SameButRoots (getInfo E (finalizeStep E M info v) n) (getInfo E info n) := by
  unfold finalizeStep
  refine (foldl_mergeRootsInto_same E _ _ _ n).trans ?_
  split_ifs with h
  · rw [getInfo_setInfo]
    split_ifs with hn
    · subst hn
      rw [getInfo_touch]
      exact ⟨rfl, rfl, rfl, rfl, rfl, rfl⟩
    · rw [getInfo_touch]
      exact SameButRoots.refl _
  · rw [getInfo_touch]
    exact SameButRoots.refl _

theorem finalizeRoots_same (E : Ext) (M : Module) (queue : List Value) (info : Table)
    (n : Value) :
    SameButRoots (getInfo E (finalizeRoots E M queue info) n) (getInfo E info n) := by
  unfold finalizeRoots
  induction queue generalizing info with
  | nil => exact SameButRoots.refl _
  | cons v rest ih =>
    simp only [List.foldl_cons]
    exact (ih _).trans (finalizeStep_same E M info v n)

theorem forwardUser_distInv (E : Ext) (M : Module) (info0 : Table) (v u : Value)
    (st st' : BuildState × Nat) (hD : DistInv E info0 st.1)
    (h : forwardUser E M v st u = .ok st') : DistInv E info0 st'.1 := by
  rcases forwardUser_ok E M v u st st' h with ⟨rfl, -⟩ | ⟨-, -, info2, hinfo2, hc, -, -, -, hp, -⟩
  · exact hD
  · obtain ⟨hmono, hu⟩ := createInfoOfUser_dist E M info2 st'.1.info v u hc
    have h2 : ∀ n, distOf E info2 n = distOf E st.1.info n := by
      intro n
      rcases hinfo2 with rfl | rfl
      · exact distOf_touch E _ v n
      · rw [distOf_markBacktracking, distOf_touch]
    refine ⟨fun n => le_trans (hmono n) (h2 n ▸ hD.1 n), ?_⟩
    intro e he
    rw [hp] at he
    rcases List.mem_cons.mp he with rfl | he'
    · exact hu
    · exact le_trans (hmono _) (h2 _ ▸ hD.2 e he')

theorem backtrackOperand_distInv (E : Ext) (M : Module) (info0 : Table) (v u : Value)
    (st st' : BuildState × Nat) (hD : DistInv E info0 st.1)
    (h : backtrackOperand E M v st u = .ok st') : DistInv E info0 st'.1 := by
  rcases backtrackOperand_ok E M v u st st' h with rfl | ⟨info3, hc, hcase, -, hp⟩
  · exact hD
  · obtain ⟨hmono, hu⟩ := createInfoOfUser_dist E M info3 st'.1.info v u hc
    have h3 : ∀ n, distOf E info3 n = distOf E st.1.info n := by
      intro n
      rcases hcase with ⟨-, rfl, -⟩ | ⟨-, rfl, -⟩
      · rw [distOf_markBacktracking, distOf_setIsRoot]
      · rw [distOf_setIsRoot, distOf_markBacktracking, distOf_setIsRoot]
    refine ⟨fun n => le_trans (hmono n) (h3 n ▸ hD.1 n), ?_⟩
    intro e he
    rw [hp] at he
    rcases List.mem_cons.mp he with rfl | he'
    · exact hu
    · exact le_trans (hmono _) (h3 _ ▸ hD.2 e he')

/-- C4, as amended. When `buildConversionQueueForRootValues` finishes, no value is
farther from a root than it was at the start, and for every propagation step
`createInfoOfUser(p, u)` made during the build, recorded with the distance `d` that `p`
had at that step, the final distance of `u` is at most `std::max(d, d+1)`, hence at
most `d + 1`. -/
theorem distance_bounded_by_propagation_time (E : Ext) (M : Module) (fuel : Nat)
    (val : List Value) (info : Table) (s : BuildState)
    (h : buildConversionQueueForRootValues E M fuel val [] info = .ok s) :
    (∀ n, distOf E s.info n ≤ distOf E info n) ∧
    (∀ p u d, (p, u, d) ∈ s.propagated →
      distOf E s.info u ≤ candidateDistance E d ∧ distOf E s.info u ≤ d + 1) := by
  obtain ⟨s0, hb, rfl⟩ := buildConversionQueueForRootValues_ok E M fuel val [] info s h
  have hD0 : DistInv E info (initialState E val [] info) := by
    refine ⟨?_, ?_⟩
    · intro n
      simp only [initialState]
      rw [distOf_seedRoots]
    · intro e he
      simp [initialState] at he
  have hD : DistInv E info s0 :=
    buildLoop_preserves E M (DistInv E info) (fun t v _ ht => ht)
      (fun v st u st' ht hstep => forwardUser_distInv E M info v u st st' ht hstep)
      (fun t v ht => ⟨fun n => by
          show distOf E (touch E t.info v) n ≤ _
          rw [distOf_touch]; exact ht.1 n,
        fun e he => by
          show distOf E (touch E t.info v) _ ≤ _
          rw [distOf_touch]; exact ht.2 e he⟩)
      (fun v st u st' ht hstep => backtrackOperand_distInv E M info v u st st' ht hstep)
      fuel _ 0 s0 hD0 hb
  have hfin : ∀ n, distOf E (finalizeRoots E M s0.queue s0.info) n = distOf E s0.info n :=
    fun n => (finalizeRoots_same E M s0.queue s0.info n).2.2.1
  refine ⟨fun n => (hfin n).symm ▸ hD.1 n, ?_⟩
  intro p u d hmem
  have hle : distOf E s0.info u ≤ candidateDistance E d := hD.2 (p, u, d) hmem
  simp only [hfin]
  exact ⟨hle, le_trans hle (candidateDistance_le E d)⟩

theorem distance_bounded_by_propagation_time_witness :
    ∃ s, buildConversionQueueForRootValues exampleExt pairModule 4 [0] [] farTable = .ok s ∧
      (∀ n, distOf exampleExt s.info n ≤ distOf exampleExt farTable n) ∧
      (∀ p u d, (p, u, d) ∈ s.propagated →
        distOf exampleExt s.info u ≤ candidateDistance exampleExt d ∧
        distOf exampleExt s.info u ≤ d + 1) := by
  have hex : ∃ s, buildConversionQueueForRootValues exampleExt pairModule 4 [0] [] farTable
      = .ok s := by
    simp [buildConversionQueueForRootValues, buildLoop, forwardLoop, backwardLoop,
    forEachRes, forwardUser, backtrackOperand, initialState, seedRoots, finalizeRoots,
    finalizeStep, mergeRootsInto, hasInfo, setIsRoot, markBacktracking, touch, getInfo, setInfo,
    findInfo, createInfoOfUser, inheritedMetadata, extractGEPIMetadata, gepiWalk,
    candidateDistance, isAnnotationGlobal, eraseLoop, findOrErase, insertAt, exampleExt,
    annotated, scalarMD, orEnable, unwrapTy, distOf, isRootOf, rootsOf, Kind.isGlobalObject,
    Kind.isPHINode, Kind.isInstruction, Kind.isStoreInst, Kind.isUser, Kind.isArgument,
    Kind.isFunction, Kind.isBlockAddress, Ty.isStructTy, Ty.isFloatingPointTy,
    Ty.isSequentialTy, MDInfo.clone, MDInfo.isInputInfo, MDInfo.enabled, MDInfo.setEnabled, pairModule, farTable]
  obtain ⟨s, hs⟩ := hex
  exact ⟨s, hs, distance_bounded_by_propagation_time exampleExt pairModule 4 [0] farTable s hs⟩

/-- C4 as stated fails: in `staleModule` the rule is run on the edge 3 -> 4 while 3 is
at distance 2; later 3 is shortened to distance 1 through the annotated value 1, the
visited PHI node 4 is skipped, and the build ends with 4 at distance 3, farther than
the distance of 3 plus one. -/
theorem distance_monotonicity_fails_on_visited_phi :
    ∃ s, buildConversionQueueForRootValues exampleExt staleModule 8 [0, 1] [] staleTable
        = .ok s ∧
      (3, 4, 2) ∈ s.propagated ∧ distOf exampleExt s.info 3 = 1 ∧
      distOf exampleExt s.info 4 = 3 ∧
      ¬ distOf exampleExt s.info 4 ≤ distOf exampleExt s.info 3 + 1 := by
  simp [buildConversionQueueForRootValues, buildLoop, forwardLoop, backwardLoop,
    forEachRes, forwardUser, backtrackOperand, initialState, seedRoots, finalizeRoots,
    finalizeStep, mergeRootsInto, hasInfo, setIsRoot, markBacktracking, touch, getInfo, setInfo,
    findInfo, createInfoOfUser, inheritedMetadata, extractGEPIMetadata, gepiWalk,
    candidateDistance, isAnnotationGlobal, eraseLoop, findOrErase, insertAt, exampleExt,
    annotated, scalarMD, orEnable, unwrapTy, distOf, isRootOf, rootsOf, Kind.isGlobalObject,
    Kind.isPHINode, Kind.isInstruction, Kind.isStoreInst, Kind.isUser, Kind.isArgument,
    Kind.isFunction, Kind.isBlockAddress, Ty.isStructTy, Ty.isFloatingPointTy,
    Ty.isSequentialTy, MDInfo.clone, MDInfo.isInputInfo, MDInfo.enabled, MDInfo.setEnabled, staleModule, staleTable]

/-! ## Divergence of the backtracking scan on a PHI cycle -/

theorem forwardLoop_done (E : Ext) (M : Module) (fuel : Nat) (s : BuildState) (next : Nat)
    (h : s.queue.length ≤ next) : forwardLoop E M fuel s next = .ok s := by
  have hq : s.queue.get? next = none := List.get?_eq_none.mpr h
  cases fuel <;> (unfold forwardLoop; rw [hq])

theorem loop_forward (k : Nat) :
    forwardLoop exampleExt loopModule (k + 4) (initialState exampleExt [0] [] loopTable) 0
      = .ok (loopState [0, 1, 2, 3] false false []
          [(2, 3, 2), (1, 3, 1), (1, 2, 1), (0, 1, 0)]) := by
  simp [forwardLoop_done, buildConversionQueueForRootValues, buildLoop, forwardLoop, backwardLoop,
    forEachRes, forwardUser, backtrackOperand, initialState, seedRoots, finalizeRoots,
    finalizeStep, mergeRootsInto, hasInfo, setIsRoot, markBacktracking, touch, getInfo, setInfo,
    findInfo, createInfoOfUser, inheritedMetadata, extractGEPIMetadata, gepiWalk,
    candidateDistance, isAnnotationGlobal, eraseLoop, findOrErase, insertAt, exampleExt,
    annotated, scalarMD, orEnable, unwrapTy, distOf, isRootOf, rootsOf, Kind.isGlobalObject,
    Kind.isPHINode, Kind.isInstruction, Kind.isStoreInst, Kind.isUser, Kind.isArgument,
    Kind.isFunction, Kind.isBlockAddress, Ty.isStructTy, Ty.isFloatingPointTy,
    Ty.isSequentialTy, MDInfo.clone, MDInfo.isInputInfo, MDInfo.enabled, MDInfo.setEnabled, loopModule, loopTable, loopState, loopEntry]

theorem loop_backward_first (fuel : Nat) (prop : List (Value × Value × Nat)) :
    backwardLoop exampleExt loopModule (fuel + 1) (loopState [0, 1, 2, 3] false false [] prop) 4
      = backwardLoop exampleExt loopModule fuel
          (loopState [0, 1, 2, 3] false false [] ((3, 1, 2) :: (3, 2, 2) :: prop)) 3 := by
  simp [buildConversionQueueForRootValues, buildLoop, forwardLoop, backwardLoop,
    forEachRes, forwardUser, backtrackOperand, initialState, seedRoots, finalizeRoots,
    finalizeStep, mergeRootsInto, hasInfo, setIsRoot, markBacktracking, touch, getInfo, setInfo,
    findInfo, createInfoOfUser, inheritedMetadata, extractGEPIMetadata, gepiWalk,
    candidateDistance, isAnnotationGlobal, eraseLoop, findOrErase, insertAt, exampleExt,
    annotated, scalarMD, orEnable, unwrapTy, distOf, isRootOf, rootsOf, Kind.isGlobalObject,
    Kind.isPHINode, Kind.isInstruction, Kind.isStoreInst, Kind.isUser, Kind.isArgument,
    Kind.isFunction, Kind.isBlockAddress, Ty.isStructTy, Ty.isFloatingPointTy,
    Ty.isSequentialTy, MDInfo.clone, MDInfo.isInputInfo, MDInfo.enabled, MDInfo.setEnabled, loopModule, loopState, loopEntry]

theorem loop_backward_phi (fuel : Nat) (r2 r3 : Bool) (ins : List Value)
    (prop : List (Value × Value × Nat)) :
    backwardLoop exampleExt loopModule (fuel + 1) (loopState [0, 1, 2, 3] r2 r3 ins prop) 3
      = backwardLoop exampleExt loopModule fuel
          (loopState [0, 1, 3, 2] false true (3 :: ins) ((2, 3, 2) :: (2, 1, 2) :: prop)) 3 := by
  simp [buildConversionQueueForRootValues, buildLoop, forwardLoop, backwardLoop,
    forEachRes, forwardUser, backtrackOperand, initialState, seedRoots, finalizeRoots,
    finalizeStep, mergeRootsInto, hasInfo, setIsRoot, markBacktracking, touch, getInfo, setInfo,
    findInfo, createInfoOfUser, inheritedMetadata, extractGEPIMetadata, gepiWalk,
    candidateDistance, isAnnotationGlobal, eraseLoop, findOrErase, insertAt, exampleExt,
    annotated, scalarMD, orEnable, unwrapTy, distOf, isRootOf, rootsOf, Kind.isGlobalObject,
    Kind.isPHINode, Kind.isInstruction, Kind.isStoreInst, Kind.isUser, Kind.isArgument,
    Kind.isFunction, Kind.isBlockAddress, Ty.isStructTy, Ty.isFloatingPointTy,
    Ty.isSequentialTy, MDInfo.clone, MDInfo.isInputInfo, MDInfo.enabled, MDInfo.setEnabled, loopModule, loopState, loopEntry]

theorem loop_backward_fadd (fuel : Nat) (r2 r3 : Bool) (ins : List Value)
    (prop : List (Value × Value × Nat)) :
    backwardLoop exampleExt loopModule (fuel + 1) (loopState [0, 1, 3, 2] r2 r3 ins prop) 3
      = backwardLoop exampleExt loopModule fuel
          (loopState [0, 1, 2, 3] true false (2 :: ins) ((3, 1, 2) :: (3, 2, 2) :: prop)) 3 := by
  simp [buildConversionQueueForRootValues, buildLoop, forwardLoop, backwardLoop,
    forEachRes, forwardUser, backtrackOperand, initialState, seedRoots, finalizeRoots,
    finalizeStep, mergeRootsInto, hasInfo, setIsRoot, markBacktracking, touch, getInfo, setInfo,
    findInfo, createInfoOfUser, inheritedMetadata, extractGEPIMetadata, gepiWalk,
    candidateDistance, isAnnotationGlobal, eraseLoop, findOrErase, insertAt, exampleExt,
    annotated, scalarMD, orEnable, unwrapTy, distOf, isRootOf, rootsOf, Kind.isGlobalObject,
    Kind.isPHINode, Kind.isInstruction, Kind.isStoreInst, Kind.isUser, Kind.isArgument,
    Kind.isFunction, Kind.isBlockAddress, Ty.isStructTy, Ty.isFloatingPointTy,
    Ty.isSequentialTy, MDInfo.clone, MDInfo.isInputInfo, MDInfo.enabled, MDInfo.setEnabled, loopModule, loopState, loopEntry]

theorem loop_backward_diverges (fuel : Nat) :
    ∀ (r2 r3 : Bool) (ins : List Value) (prop : List (Value × Value × Nat)),
      backwardLoop exampleExt loopModule fuel (loopState [0, 1, 2, 3] r2 r3 ins prop) 3
        = .timeout ∧
      backwardLoop exampleExt loopModule fuel (loopState [0, 1, 3, 2] r2 r3 ins prop) 3
        = .timeout := by
  induction fuel with
  | zero =>
    intro r2 r3 ins prop
    constructor <;> simp [backwardLoop]
  | succ fuel ih =>
    intro r2 r3 ins prop
    constructor
    · rw [loop_backward_phi]
      exact (ih _ _ _ _).2
    · rw [loop_backward_fadd]
      exact (ih _ _ _ _).1

/-- C5 at the failing input: on `loopModule` with the root 0 flagged for backtracking,
`buildConversionQueueForRootValues` does not terminate: whatever the number of loop
iterations allowed, the run is cut off. The forward pass ends with the queue
`[0, 1, 2, 3]`; the backtracking scan then moves 3 before 2 and 2 before 3 for ever. -/
theorem build_diverges_on_phi_cycle (fuel : Nat) :
    buildConversionQueueForRootValues exampleExt loopModule fuel [0] [] loopTable
      = .timeout := by
  match fuel with
  | 0 => simp [buildConversionQueueForRootValues, buildLoop, forwardLoop, backwardLoop,
    forEachRes, forwardUser, backtrackOperand, initialState, seedRoots, finalizeRoots,
    finalizeStep, mergeRootsInto, hasInfo, setIsRoot, markBacktracking, touch, getInfo, setInfo,
    findInfo, createInfoOfUser, inheritedMetadata, extractGEPIMetadata, gepiWalk,
    candidateDistance, isAnnotationGlobal, eraseLoop, findOrErase, insertAt, exampleExt,
    annotated, scalarMD, orEnable, unwrapTy, distOf, isRootOf, rootsOf, Kind.isGlobalObject,
    Kind.isPHINode, Kind.isInstruction, Kind.isStoreInst, Kind.isUser, Kind.isArgument,
    Kind.isFunction, Kind.isBlockAddress, Ty.isStructTy, Ty.isFloatingPointTy,
    Ty.isSequentialTy, MDInfo.clone, MDInfo.isInputInfo, MDInfo.enabled, MDInfo.setEnabled, loopModule, loopTable]
  | 1 => simp [buildConversionQueueForRootValues, buildLoop, forwardLoop, backwardLoop,
    forEachRes, forwardUser, backtrackOperand, initialState, seedRoots, finalizeRoots,
    finalizeStep, mergeRootsInto, hasInfo, setIsRoot, markBacktracking, touch, getInfo, setInfo,
    findInfo, createInfoOfUser, inheritedMetadata, extractGEPIMetadata, gepiWalk,
    candidateDistance, isAnnotationGlobal, eraseLoop, findOrErase, insertAt, exampleExt,
    annotated, scalarMD, orEnable, unwrapTy, distOf, isRootOf, rootsOf, Kind.isGlobalObject,
    Kind.isPHINode, Kind.isInstruction, Kind.isStoreInst, Kind.isUser, Kind.isArgument,
    Kind.isFunction, Kind.isBlockAddress, Ty.isStructTy, Ty.isFloatingPointTy,
    Ty.isSequentialTy, MDInfo.clone, MDInfo.isInputInfo, MDInfo.enabled, MDInfo.setEnabled, loopModule, loopTable]
  | 2 => simp [buildConversionQueueForRootValues, buildLoop, forwardLoop, backwardLoop,
    forEachRes, forwardUser, backtrackOperand, initialState, seedRoots, finalizeRoots,
    finalizeStep, mergeRootsInto, hasInfo, setIsRoot, markBacktracking, touch, getInfo, setInfo,
    findInfo, createInfoOfUser, inheritedMetadata, extractGEPIMetadata, gepiWalk,
    candidateDistance, isAnnotationGlobal, eraseLoop, findOrErase, insertAt, exampleExt,
    annotated, scalarMD, orEnable, unwrapTy, distOf, isRootOf, rootsOf, Kind.isGlobalObject,
    Kind.isPHINode, Kind.isInstruction, Kind.isStoreInst, Kind.isUser, Kind.isArgument,
    Kind.isFunction, Kind.isBlockAddress, Ty.isStructTy, Ty.isFloatingPointTy,
    Ty.isSequentialTy, MDInfo.clone, MDInfo.isInputInfo, MDInfo.enabled, MDInfo.setEnabled, loopModule, loopTable]
  | 3 => simp [buildConversionQueueForRootValues, buildLoop, forwardLoop, backwardLoop,
    forEachRes, forwardUser, backtrackOperand, initialState, seedRoots, finalizeRoots,
    finalizeStep, mergeRootsInto, hasInfo, setIsRoot, markBacktracking, touch, getInfo, setInfo,
    findInfo, createInfoOfUser, inheritedMetadata, extractGEPIMetadata, gepiWalk,
    candidateDistance, isAnnotationGlobal, eraseLoop, findOrErase, insertAt, exampleExt,
    annotated, scalarMD, orEnable, unwrapTy, distOf, isRootOf, rootsOf, Kind.isGlobalObject,
    Kind.isPHINode, Kind.isInstruction, Kind.isStoreInst, Kind.isUser, Kind.isArgument,
    Kind.isFunction, Kind.isBlockAddress, Ty.isStructTy, Ty.isFloatingPointTy,
    Ty.isSequentialTy, MDInfo.clone, MDInfo.isInputInfo, MDInfo.enabled, MDInfo.setEnabled, loopModule, loopTable]
  | k + 4 =>
    unfold buildConversionQueueForRootValues buildLoop
    have hlen : 0 < (initialState exampleExt [0] [] loopTable).queue.length := by
      simp [initialState]
    rw [if_pos hlen, loop_forward (k + 0)]
    simp only
    have hq : (loopState [0, 1, 2, 3] false false []
        [(2, 3, 2), (1, 3, 1), (1, 2, 1), (0, 1, 0)]).queue.length = 4 := rfl
    rw [hq, loop_backward_first, (loop_backward_diverges _ _ _ _ _).1]

/-! ## Root-set finalization -/

theorem rootsOf_mergeRootsInto_mono (E : Ext) (newroots : List Value) (info : Table)
    (u n r : Value) (h : r ∈ rootsOf E info n) :
    r ∈ rootsOf E (mergeRootsInto E newroots info u) n := by
  unfold mergeRootsInto
  split_ifs with hi
  · exact h
  · unfold rootsOf
    rw [getInfo_setInfo]
    split_ifs with hn
    · subst hn
      exact List.mem_union_iff.mpr (Or.inr h)
    · exact h

theorem hasInfo_mergeRootsInto (E : Ext) (newroots : List Value) (info : Table) (u n : Value) :
    hasInfo (mergeRootsInto E newroots info u) n = hasInfo info n := by
  unfold mergeRootsInto
  split_ifs with hi
  · rfl
  · rw [hasInfo_setInfo]
    by_cases hn : n = u
    · subst hn
      have hi' : hasInfo info n = true := by
        cases hh : hasInfo info n
        · rw [hh] at hi; exact absurd rfl hi
        · rfl
      simp [hi']
    · simp [hn]

theorem foldl_mergeRootsInto_mono (E : Ext) (newroots : List Value) (us : List Value)
    (info : Table) (n r : Value) (h : r ∈ rootsOf E info n) :
    r ∈ rootsOf E (us.foldl (mergeRootsInto E newroots) info) n := by
  induction us generalizing info with
  | nil => exact h
  | cons u rest ih =>
    simp only [List.foldl_cons]
    exact ih _ (rootsOf_mergeRootsInto_mono E newroots info u n r h)

theorem foldl_mergeRootsInto_hasInfo (E : Ext) (newroots : List Value) (us : List Value)
    (info : Table) (n : Value) :
    hasInfo (us.foldl (mergeRootsInto E newroots) info) n = hasInfo info n := by
  induction us generalizing info with
  | nil => rfl
  | cons u rest ih =>
    simp only [List.foldl_cons]
    rw [ih, hasInfo_mergeRootsInto]

theorem foldl_mergeRootsInto_mem (E : Ext) (newroots : List Value) (us : List Value)
    (info : Table) (u r : Value) (hu : u ∈ us) (hi : hasInfo info u = true)
    (hr : r ∈ newroots) :
    r ∈ rootsOf E (us.foldl (mergeRootsInto E newroots) info) u := by
  induction us generalizing info with
  | nil => cases hu
  | cons a rest ih =>
    simp only [List.foldl_cons]
    rcases List.mem_cons.mp hu with hua | hur
    · subst hua
      apply foldl_mergeRootsInto_mono
      unfold mergeRootsInto rootsOf
      rw [if_neg (by simp [hi]), getInfo_setInfo_same]
      exact List.mem_union_iff.mpr (Or.inl hr)
    · exact ih _ hur (by rw [hasInfo_mergeRootsInto]; exact hi)

theorem isRootOf_finalizeStep (E : Ext) (M : Module) (info : Table) (v n : Value) :
    isRootOf E (finalizeStep E M info v) n = isRootOf E info n :=
  (finalizeStep_same E M info v n).2.2.2.1

theorem isRootOf_finalizeRoots (E : Ext) (M : Module) (q : List Value) (info : Table)
    (n : Value) : isRootOf E (finalizeRoots E M q info) n = isRootOf E info n :=
  (finalizeRoots_same E M q info n).2.2.2.1

theorem hasInfo_finalizeStep (E : Ext) (M : Module) (info : Table) (v n : Value) :
    hasInfo (finalizeStep E M info v) n = (decide (n = v) || hasInfo info n) := by
  unfold finalizeStep
  simp only
  rw [foldl_mergeRootsInto_hasInfo]
  split_ifs with h
  · rw [hasInfo_setInfo, hasInfo_touch]
    cases decide (n = v) <;> simp
  · rw [hasInfo_touch]

theorem hasInfo_finalizeRoots_of (E : Ext) (M : Module) (q : List Value) (info : Table)
    (n : Value) (h : hasInfo info n = true) : hasInfo (finalizeRoots E M q info) n = true := by
  unfold finalizeRoots
  induction q generalizing info with
  | nil => exact h
  | cons v rest ih =>
    simp only [List.foldl_cons]
    apply ih
    rw [hasInfo_finalizeStep, h]
    simp

theorem hasInfo_finalizeRoots (E : Ext) (M : Module) (q : List Value) (info : Table)
    (n : Value) (h : hasInfo (finalizeRoots E M q info) n = true) :
    hasInfo info n = true ∨ n ∈ q := by
  unfold finalizeRoots at h
  induction q generalizing info with
  | nil => exact Or.inl h
  | cons v rest ih =>
    simp only [List.foldl_cons] at h
    rcases ih _ h with h1 | h1
    · rw [hasInfo_finalizeStep] at h1
      simp only [Bool.or_eq_true, decide_eq_true_eq] at h1
      rcases h1 with h2 | h2
      · exact Or.inr (h2 ▸ List.mem_cons_self _ _)
      · exact Or.inl h2
    · exact Or.inr (List.mem_cons_of_mem _ h1)

/-- One finalization step keeps `r` in the root set of a value that is `r` itself or
is not flagged `isRoot`. -/
theorem finalizeStep_stable (E : Ext) (M : Module) (info : Table) (x n r : Value)
    (hroot : isRootOf E info r = true) (hn : n = r ∨ isRootOf E info n = false)
    (h : r ∈ rootsOf E info n) : r ∈ rootsOf E (finalizeStep E M info x) n := by
  unfold finalizeStep
  simp only
  apply foldl_mergeRootsInto_mono
  split_ifs with hx
  · unfold rootsOf
    rw [getInfo_setInfo]
    split_ifs with hnx
    · subst hnx
      rw [getInfo_touch] at hx
      rcases hn with hnr | hnr
      · subst hnr
        exact List.mem_singleton.mpr rfl
      · unfold isRootOf at hnr
        rw [hnr] at hx
        cases hx
    · rw [getInfo_touch]
      exact h
  · unfold rootsOf
    rw [getInfo_touch]
    exact h

/-- After the finalization step of `x`, a root set that `x` holds at that step (its
own value if it is flagged, what it received otherwise) is in `x` and in every user of
`x` that has an entry. -/
theorem finalizeStep_hands_on (E : Ext) (M : Module) (info : Table) (x r : Value)
    (hx : (x = r ∧ isRootOf E info r = true) ∨
      (isRootOf E info x = false ∧ r ∈ rootsOf E info x)) :
    r ∈ rootsOf E (finalizeStep E M info x) x ∧
    ∀ u ∈ M.users x, hasInfo info u = true → r ∈ rootsOf E (finalizeStep E M info x) u := by
  have hnew : ∀ info2, info2 = (if (getInfo E (touch E info x) x).isRoot = true then
        setInfo (touch E info x) x { getInfo E (touch E info x) x with roots := [x] }
      else touch E info x) → r ∈ rootsOf E info2 x := by
    intro info2 h2
    subst h2
    rw [getInfo_touch]
    rcases hx with ⟨hxr, hroot⟩ | ⟨hnr, hmem⟩
    · subst hxr
      unfold isRootOf at hroot
      rw [if_pos hroot]
      unfold rootsOf
      rw [getInfo_setInfo_same]
      exact List.mem_singleton.mpr rfl
    · unfold isRootOf at hnr
      rw [if_neg (by simp [hnr])]
      unfold rootsOf
      rw [getInfo_touch]
      exact hmem
  unfold finalizeStep
  simp only
  constructor
  · exact foldl_mergeRootsInto_mono E _ _ _ _ _ (hnew _ rfl)
  · intro u hu hi
    apply foldl_mergeRootsInto_mem E _ _ _ u r hu
    · split_ifs
      · rw [hasInfo_setInfo, hasInfo_touch, hi]; simp
      · rw [hasInfo_touch, hi]; simp
    · exact hnew _ rfl

theorem RootPath.get? {E : Ext} {M : Module} {q : List Value} {info : Table} {r n : Value}
    {j : Nat} (h : RootPath E M q info r j n) : q.get? j = some n := by
  cases h with
  | root _ hg => exact hg
  | step _ _ _ _ _ _ _ hg _ => exact hg

theorem RootPath.end_cases {E : Ext} {M : Module} {q : List Value} {info : Table}
    {r n : Value} {j : Nat} (h : RootPath E M q info r j n) :
    n = r ∨ isRootOf E info n = false := by
  cases h with
  | root _ _ => exact Or.inl rfl
  | step _ _ _ _ _ _ hnr _ _ => exact Or.inr hnr

theorem RootPath.restrict {E : Ext} {M : Module} {init : List Value} {x : Value}
    {info : Table} {r n : Value} {j : Nat} (h : RootPath E M (init ++ [x]) info r j n)
    (hj : j < init.length) : RootPath E M init info r j n := by
  induction h with
  | root i hg =>
    refine RootPath.root i ?_
    rw [List.get?_eq_getElem?] at hg ⊢
    rwa [List.getElem?_append_left hj] at hg
  | step i j v u _ hu hnr hg hij ih =>
    refine RootPath.step i j v u (ih (by omega)) hu hnr ?_ hij
    rw [List.get?_eq_getElem?] at hg ⊢
    rwa [List.getElem?_append_left hj] at hg

theorem RootPath.congr {E : Ext} {M : Module} {q : List Value} {info info' : Table}
    {r n : Value} {j : Nat} (hsame : ∀ x, isRootOf E info' x = isRootOf E info x)
    (h : RootPath E M q info r j n) : RootPath E M q info' r j n := by
  induction h with
  | root i hg => exact RootPath.root i hg
  | step i j v u _ hu hnr hg hij ih =>
    exact RootPath.step i j v u ih hu (by rw [hsame]; exact hnr) hg hij

theorem get?_snoc_cases (init : List Value) (x n : Value) (j : Nat)
    (h : (init ++ [x]).get? j = some n) : j < init.length ∨ (j = init.length ∧ n = x) := by
  by_cases hj : j < init.length
  · exact Or.inl hj
  · right
    rw [List.get?_eq_getElem?, List.getElem?_append_right (by omega)] at h
    have hlt : j - init.length < 1 := by
      by_contra hc
      rw [List.getElem?_eq_none (by simp only [List.length_singleton]; omega)] at h
      cases h
    have h0 : j - init.length = 0 := by omega
    rw [h0] at h
    simp only [List.getElem?_cons_zero, Option.some.injEq] at h
    exact ⟨by omega, h.symm⟩

theorem finalizeRoots_snoc (E : Ext) (M : Module) (init : List Value) (x : Value)
    (info : Table) :
    finalizeRoots E M (init ++ [x]) info
      = finalizeStep E M (finalizeRoots E M init info) x := by
  unfold finalizeRoots
  rw [List.foldl_append]
  rfl

/-- The finalization hands a flagged root on along every root path, and from the end
of a root path to its users that have an entry and are not flagged. -/
theorem finalizeRoots_complete (E : Ext) (M : Module) (q : List Value) :
    ∀ (info : Table), (∀ x ∈ q, hasInfo info x = true) →
      ∀ r, isRootOf E info r = true →
        (∀ j n, RootPath E M q info r j n → r ∈ rootsOf E (finalizeRoots E M q info) n) ∧
        (∀ j v u, RootPath E M q info r j v → u ∈ M.users v → hasInfo info u = true →
          isRootOf E info u = false → r ∈ rootsOf E (finalizeRoots E M q info) u) := by
  induction q using List.reverseRecOn with
  | nil =>
    intro info _ r _
    constructor
    · intro j n hp
      have := hp.get?
      simp at this
    · intro j v u hp
      have := hp.get?
      simp at this
  | append_singleton init x ih =>
    intro info hinfo r hroot
    obtain ⟨ihA, ihB⟩ := ih info (fun y hy => hinfo y (List.mem_append_left _ hy)) r hroot
    have hrootF : isRootOf E (finalizeRoots E M init info) r = true := by
      rw [isRootOf_finalizeRoots]; exact hroot
    have hxinfo : hasInfo info x = true := hinfo x (by simp)
    -- what `x` holds when its step starts, for a path that ends at the new position
    have hlast : ∀ j n, RootPath E M (init ++ [x]) info r j n → j = init.length → n = x →
        (x = r ∧ isRootOf E (finalizeRoots E M init info) r = true) ∨
        (isRootOf E (finalizeRoots E M init info) x = false ∧
          r ∈ rootsOf E (finalizeRoots E M init info) x) := by
      intro j n hp hj hn
      subst hn
      cases hp with
      | root _ _ => exact Or.inl ⟨rfl, hrootF⟩
      | step i _ v _ hpv hu hnr _ hij =>
        right
        refine ⟨by rw [isRootOf_finalizeRoots]; exact hnr, ?_⟩
        exact ihB i v n (hpv.restrict (by omega)) hu hxinfo hnr
    rw [finalizeRoots_snoc]
    constructor
    · intro j n hp
      rcases get?_snoc_cases init x n j hp.get? with hj | ⟨hj, hn⟩
      · refine finalizeStep_stable E M _ x n r hrootF ?_ (ihA j n (hp.restrict hj))
        rcases hp.end_cases with h1 | h1
        · exact Or.inl h1
        · exact Or.inr (by rw [isRootOf_finalizeRoots]; exact h1)
      · subst hn
        exact (finalizeStep_hands_on E M _ n r (hlast j n hp hj rfl)).1
    · intro j v u hp hu hiu hnr
      rcases get?_snoc_cases init x v j hp.get? with hj | ⟨hj, hv⟩
      · exact finalizeStep_stable E M _ x u r hrootF
          (Or.inr (by rw [isRootOf_finalizeRoots]; exact hnr))
          (ihB j v u (hp.restrict hj) hu hiu hnr)
      · subst hv
        exact (finalizeStep_hands_on E M _ v r (hlast j v hp hj rfl)).2 u hu
          (hasInfo_finalizeRoots_of E M init info u hiu)

theorem hasInfo_markBacktracking (E : Ext) (info : Table) (v n : Value) :
    hasInfo (markBacktracking E info v) n = (decide (n = v) || hasInfo info n) := by
  unfold markBacktracking
  exact hasInfo_setInfo _ _ _ _

theorem hasInfo_setIsRoot (E : Ext) (info : Table) (v n : Value) (b : Bool) :
    hasInfo (setIsRoot E info v b) n = (decide (n = v) || hasInfo info n) := by
  unfold setIsRoot
  exact hasInfo_setInfo _ _ _ _

theorem hasInfo_seedRoots (E : Ext) (q : List Value) (info : Table) (n : Value) :
    (hasInfo info n = true → hasInfo (seedRoots E info q) n = true) ∧
    (n ∈ q → hasInfo (seedRoots E info q) n = true) := by
  unfold seedRoots
  induction q generalizing info with
  | nil => exact ⟨fun h => h, fun h => by cases h⟩
  | cons v rest ih =>
    simp only [List.foldl_cons]
    obtain ⟨ih1, ih2⟩ := ih (setIsRoot E info v true)
    constructor
    · intro h
      exact ih1 (by rw [hasInfo_setIsRoot, h]; simp)
    · intro h
      rcases List.mem_cons.mp h with hv | hr
      · exact ih1 (by rw [hasInfo_setIsRoot, hv]; simp)
      · exact ih2 hr

theorem forwardUser_hasInfo (E : Ext) (M : Module) (v u : Value) (st st' : BuildState × Nat)
    (hI : ∀ x ∈ st.1.queue, hasInfo st.1.info x = true)
    (h : forwardUser E M v st u = .ok st') :
    ∀ x ∈ st'.1.queue, hasInfo st'.1.info x = true := by
  rcases forwardUser_ok E M v u st st' h with ⟨rfl, -⟩ | ⟨-, -, info2, hinfo2, hc, hq, -, -, -, -⟩
  · exact hI
  · intro x hx
    rw [hq, mem_moved] at hx
    rw [createInfoOfUser_hasInfo E M info2 _ v u hc]
    rcases hx with hx | hx
    · have h2 : hasInfo info2 x = true := by
        rcases hinfo2 with rfl | rfl
        · rw [hasInfo_touch, hI x hx]; simp
        · rw [hasInfo_markBacktracking, hasInfo_touch, hI x hx]; simp
      rw [h2]; simp
    · simp [hx]

theorem backtrackOperand_hasInfo (E : Ext) (M : Module) (v u : Value)
    (st st' : BuildState × Nat) (hI : ∀ x ∈ st.1.queue, hasInfo st.1.info x = true)
    (h : backtrackOperand E M v st u = .ok st') :
    ∀ x ∈ st'.1.queue, hasInfo st'.1.info x = true := by
  rcases backtrackOperand_ok E M v u st st' h with rfl | ⟨info3, hc, hcase, -, -⟩
  · exact hI
  · intro x hx
    rw [createInfoOfUser_hasInfo E M info3 _ v u hc]
    rcases hcase with ⟨-, rfl, hq, -, -⟩ | ⟨-, rfl, hq, -, -⟩
    · rw [hq] at hx
      rw [hasInfo_markBacktracking, hasInfo_setIsRoot, hI x hx]
      simp
    · rw [hq, mem_insertAt, mem_filter_ne] at hx
      rcases hx with hx | ⟨hx, -⟩
      · simp [hx]
      · rw [hasInfo_setIsRoot, hasInfo_markBacktracking, hasInfo_setIsRoot, hI x hx]
        simp

theorem buildLoop_hasInfo (E : Ext) (M : Module) (fuel : Nat) (s : BuildState) (prev : Nat)
    (s' : BuildState) (hI : ∀ x ∈ s.queue, hasInfo s.info x = true)
    (h : buildLoop E M fuel s prev = .ok s') : ∀ x ∈ s'.queue, hasInfo s'.info x = true :=
  buildLoop_preserves E M (fun t => ∀ x ∈ t.queue, hasInfo t.info x = true)
    (fun _ _ _ ht => ht)
    (fun v st u st' ht hstep => forwardUser_hasInfo E M v u st st' ht hstep)
    (fun t v ht x hx => by
      show hasInfo (touch E t.info v) x = true
      rw [hasInfo_touch, ht x hx]; simp)
    (fun v st u st' ht hstep => backtrackOperand_hasInfo E M v u st st' ht hstep)
    fuel s prev s' hI h

/-- C7, as amended. When `buildConversionQueueForRootValues` finishes, every value `r`
flagged `isRoot` is a member of `roots(n)` for every queue value `n` that is reached
from a queue occurrence of `r` (`r = n` included) along consumer uses through values at
strictly increasing queue positions that are not themselves flagged `isRoot`; and `r` is
a member of `roots(u)` for every user `u` of the end of such a path that has a
`ValueInfo` entry and is not flagged `isRoot`. -/
theorem roots_handed_on_along_queue (E : Ext) (M : Module) (fuel : Nat) (val : List Value)
    (info : Table) (s : BuildState)
    (h : buildConversionQueueForRootValues E M fuel val [] info = .ok s) :
    ∀ r, isRootOf E s.info r = true →
      (∀ j n, RootPath E M s.queue s.info r j n → r ∈ rootsOf E s.info n) ∧
      (∀ j v u, RootPath E M s.queue s.info r j v → u ∈ M.users v →
        hasInfo s.info u = true → isRootOf E s.info u = false → r ∈ rootsOf E s.info u) := by
  obtain ⟨s0, hb, rfl⟩ := buildConversionQueueForRootValues_ok E M fuel val [] info s h
  have hI : ∀ x ∈ s0.queue, hasInfo s0.info x = true :=
    buildLoop_hasInfo E M fuel _ 0 s0
      (fun x hx => (hasInfo_seedRoots E _ info x).2 (by simpa [initialState] using hx)) hb
  intro r hroot
  simp only at hroot ⊢
  rw [isRootOf_finalizeRoots] at hroot
  obtain ⟨hA, hB⟩ := finalizeRoots_complete E M s0.queue s0.info hI r hroot
  have hsame : ∀ x, isRootOf E s0.info x
      = isRootOf E (finalizeRoots E M s0.queue s0.info) x :=
    fun x => (isRootOf_finalizeRoots E M s0.queue s0.info x).symm
  constructor
  · intro j n hp
    exact hA j n (hp.congr hsame)
  · intro j v u hp hu hiu hnr
    refine hB j v u (hp.congr hsame) hu ?_ (by rw [← isRootOf_finalizeRoots E M s0.queue]; exact hnr)
    rcases hasInfo_finalizeRoots E M s0.queue s0.info u hiu with h1 | h1
    · exact h1
    · exact hI u h1

theorem roots_handed_on_along_queue_witness :
    ∃ s, buildConversionQueueForRootValues exampleExt pairModule 4 [0] [] farTable = .ok s ∧
      isRootOf exampleExt s.info 0 = true ∧
      RootPath exampleExt pairModule s.queue s.info 0 1 1 ∧
      0 ∈ rootsOf exampleExt s.info 1 := by
  have hex : ∃ s, buildConversionQueueForRootValues exampleExt pairModule 4 [0] [] farTable
      = .ok s ∧ isRootOf exampleExt s.info 0 = true ∧ isRootOf exampleExt s.info 1 = false ∧
      s.queue.get? 0 = some 0 ∧ s.queue.get? 1 = some 1 := by
    simp [buildConversionQueueForRootValues, buildLoop, forwardLoop, backwardLoop,
    forEachRes, forwardUser, backtrackOperand, initialState, seedRoots, finalizeRoots,
    finalizeStep, mergeRootsInto, hasInfo, setIsRoot, markBacktracking, touch, getInfo, setInfo,
    findInfo, createInfoOfUser, inheritedMetadata, extractGEPIMetadata, gepiWalk,
    candidateDistance, isAnnotationGlobal, eraseLoop, findOrErase, insertAt, exampleExt,
    annotated, scalarMD, orEnable, unwrapTy, distOf, isRootOf, rootsOf, Kind.isGlobalObject,
    Kind.isPHINode, Kind.isInstruction, Kind.isStoreInst, Kind.isUser, Kind.isArgument,
    Kind.isFunction, Kind.isBlockAddress, Ty.isStructTy, Ty.isFloatingPointTy,
    Ty.isSequentialTy, MDInfo.clone, MDInfo.isInputInfo, MDInfo.enabled, MDInfo.setEnabled, pairModule, farTable]
  obtain ⟨s, hs, hroot, hnr, hg0, hg1⟩ := hex
  have hpath : RootPath exampleExt pairModule s.queue s.info 0 1 1 :=
    RootPath.step 0 1 0 1 (RootPath.root 0 hg0) (by decide) hnr hg1 (by decide)
  exact ⟨s, hs, hroot, hpath,
    (roots_handed_on_along_queue exampleExt pairModule 4 [0] farTable s hs 0 hroot).1 1 1 hpath⟩

/-- C7 as stated fails: with both values of `pairModule` given as roots, the build
ends with the queue `[0, 1]`, both flagged `isRoot`; value 1 is a consumer of 0, yet
the finalization step of 1 resets `roots(1)` to `{1}`, so 0 is not a member of
`roots(1)` and `roots(0)` is not a subset of `roots(1)`. -/
theorem root_sets_incomplete_on_root_consumer :
    ∃ s, buildConversionQueueForRootValues exampleExt pairModule 4 [0, 1] [] twoRootsTable
        = .ok s ∧
      s.queue = [0, 1] ∧ isRootOf exampleExt s.info 0 = true ∧ Reachable pairModule 0 1 ∧
      hasInfo s.info 1 = true ∧ rootsOf exampleExt s.info 0 = [0] ∧
      rootsOf exampleExt s.info 1 = [1] ∧ 0 ∉ rootsOf exampleExt s.info 1 := by
  have hex : ∃ s, buildConversionQueueForRootValues exampleExt pairModule 4 [0, 1] []
      twoRootsTable = .ok s ∧
      s.queue = [0, 1] ∧ isRootOf exampleExt s.info 0 = true ∧
      hasInfo s.info 1 = true ∧ rootsOf exampleExt s.info 0 = [0] ∧
      rootsOf exampleExt s.info 1 = [1] ∧ 0 ∉ rootsOf exampleExt s.info 1 := by
    simp [buildConversionQueueForRootValues, buildLoop, forwardLoop, backwardLoop,
    forEachRes, forwardUser, backtrackOperand, initialState, seedRoots, finalizeRoots,
    finalizeStep, mergeRootsInto, hasInfo, setIsRoot, markBacktracking, touch, getInfo, setInfo,
    findInfo, createInfoOfUser, inheritedMetadata, extractGEPIMetadata, gepiWalk,
    candidateDistance, isAnnotationGlobal, eraseLoop, findOrErase, insertAt, exampleExt,
    annotated, scalarMD, orEnable, unwrapTy, distOf, isRootOf, rootsOf, Kind.isGlobalObject,
    Kind.isPHINode, Kind.isInstruction, Kind.isStoreInst, Kind.isUser, Kind.isArgument,
    Kind.isFunction, Kind.isBlockAddress, Ty.isStructTy, Ty.isFloatingPointTy,
    Ty.isSequentialTy, MDInfo.clone, MDInfo.isInputInfo, MDInfo.enabled, MDInfo.setEnabled, pairModule, twoRootsTable]
  obtain ⟨s, hs, hq, hroot, hi, h0, h1, hn⟩ := hex
  exact ⟨s, hs, hq, hroot, Relation.ReflTransGen.single ⟨by decide, by decide⟩, hi, h0, h1, hn⟩

/-! ## The `isRoot` flag -/

theorem isRootOf_seedRoots (E : Ext) (q : List Value) (info : Table) (n : Value) :
    isRootOf E (seedRoots E info q) n = true ↔ n ∈ q ∨ isRootOf E info n = true := by
  unfold seedRoots
  induction q generalizing info with
  | nil => simp
  | cons v rest ih =>
    simp only [List.foldl_cons]
    rw [ih, isRootOf_setIsRoot, List.mem_cons]
    by_cases hn : n = v
    · simp [hn]
    · simp [hn]

theorem forwardUser_isRoot (E : Ext) (M : Module) (v u : Value) (st st' : BuildState × Nat)
    (h : forwardUser E M v st u = .ok st') (n : Value) :
    isRootOf E st'.1.info n = isRootOf E st.1.info n ∧ st'.1.inserted = st.1.inserted := by
  rcases forwardUser_ok E M v u st st' h with ⟨rfl, -⟩ | ⟨-, -, info2, hinfo2, hc, -, -, hi, -, -⟩
  · exact ⟨rfl, rfl⟩
  · refine ⟨?_, hi⟩
    rw [isRootOf_createInfoOfUser E M info2 _ v u hc]
    rcases hinfo2 with rfl | rfl
    · rw [isRootOf_touch]
    · rw [isRootOf_markBacktracking, isRootOf_touch]

theorem backtrackOperand_isRoot (E : Ext) (M : Module) (v u : Value)
    (st st' : BuildState × Nat) (h : backtrackOperand E M v st u = .ok st') (n : Value)
    (hbefore : isRootOf E st.1.info n = false) (hafter : isRootOf E st'.1.info n = true) :
    n = u ∧ u ∉ st.1.queue.take st.2 ∧ st'.1.inserted = u :: st.1.inserted ∧
      st'.1.queue = insertAt (st.1.queue.filter (fun x => x != u)) (st.2 - 1) u := by
  rcases backtrackOperand_ok E M v u st st' h with rfl | ⟨info3, hc, hcase, -, -⟩
  · rw [hbefore] at hafter; cases hafter
  · rw [isRootOf_createInfoOfUser E M info3 _ v u hc] at hafter
    rcases hcase with ⟨-, rfl, -, -, -⟩ | ⟨hm, rfl, hq, -, hi⟩
    · rw [isRootOf_markBacktracking, isRootOf_setIsRoot] at hafter
      split_ifs at hafter with hnv
      rw [hbefore] at hafter; cases hafter
    · rw [isRootOf_setIsRoot] at hafter
      by_cases hnu : n = u
      · exact ⟨hnu, hm, hi, hq⟩
      · rw [if_neg hnu, isRootOf_markBacktracking, isRootOf_setIsRoot] at hafter
        split_ifs at hafter with hnv
        rw [hbefore] at hafter; cases hafter

theorem backtrackOperand_inserted_mono (E : Ext) (M : Module) (v u : Value)
    (st st' : BuildState × Nat) (h : backtrackOperand E M v st u = .ok st') :
    ∀ x ∈ st.1.inserted, x ∈ st'.1.inserted := by
  rcases backtrackOperand_ok E M v u st st' h with rfl | ⟨info3, -, hcase, -, -⟩
  · exact fun x hx => hx
  · rcases hcase with ⟨-, -, -, -, hi⟩ | ⟨-, -, -, -, hi⟩
    · rw [hi]; exact fun x hx => hx
    · rw [hi]; exact fun x hx => List.mem_cons_of_mem _ hx

/-- C9, as amended. Within one run of `buildConversionQueueForRootValues`, after the
seeding of lines 184-187 (which flags every given root, also one that an earlier build
had cleared): a round of the forward pass changes no `isRoot` flag; a round of the
backtracking scan turns the flag of a value from false to true only for the operand it
inserts into the queue as a new root at that round; and a value flagged at the end of
the build was given as a root, was flagged before the build, or was inserted by the
backtracking phase. -/
theorem isRoot_set_only_by_seeding_or_insertion (E : Ext) (M : Module) :
    (∀ v st u st', forwardUser E M v st u = .ok st' →
      ∀ n, isRootOf E st'.1.info n = isRootOf E st.1.info n) ∧
    (∀ v st u st', backtrackOperand E M v st u = .ok st' →
      ∀ n, isRootOf E st.1.info n = false → isRootOf E st'.1.info n = true →
        n = u ∧ u ∉ st.1.queue.take st.2 ∧ st'.1.inserted = u :: st.1.inserted ∧
          st'.1.queue = insertAt (st.1.queue.filter (fun x => x != u)) (st.2 - 1) u) ∧
    (∀ fuel val info s, buildConversionQueueForRootValues E M fuel val [] info = .ok s →
      ∀ n, isRootOf E s.info n = true →
        n ∈ val ∨ isRootOf E info n = true ∨ n ∈ s.inserted) := by
  refine ⟨fun v st u st' h n => (forwardUser_isRoot E M v u st st' h n).1,
    fun v st u st' h n => backtrackOperand_isRoot E M v u st st' h n, ?_⟩
  intro fuel val info s h n hn
  obtain ⟨s0, hb, rfl⟩ := buildConversionQueueForRootValues_ok E M fuel val [] info s h
  simp only at hn ⊢
  rw [isRootOf_finalizeRoots] at hn
  have hP := buildLoop_preserves E M
    (fun t => ∀ n, isRootOf E t.info n = true →
      isRootOf E (initialState E val [] info).info n = true ∨ n ∈ t.inserted)
    (fun _ _ _ ht => ht)
    (fun v st u st' ht hstep m hm => by
      obtain ⟨h1, h2⟩ := forwardUser_isRoot E M v u st st' hstep m
      rw [h1] at hm
      rw [h2]
      exact ht m hm)
    (fun t v ht m hm => by
      have hm' : isRootOf E (touch E t.info v) m = true := hm
      rw [isRootOf_touch] at hm'
      exact ht m hm')
    (fun v st u st' ht hstep m hm => by
      cases hbm : isRootOf E st.1.info m with
      | true =>
        rcases ht m hbm with h1 | h1
        · exact Or.inl h1
        · exact Or.inr (backtrackOperand_inserted_mono E M v u st st' hstep m h1)
      | false =>
        obtain ⟨hmu, -, hi, -⟩ := backtrackOperand_isRoot E M v u st st' hstep m hbm hm
        right
        rw [hi, hmu]
        exact List.mem_cons_self _ _)
    fuel _ 0 s0 (fun m hm => Or.inl hm) hb
  rcases hP n hn with h1 | h1
  · simp only [initialState, List.append_nil] at h1
    rcases (isRootOf_seedRoots E val info n).mp h1 with h2 | h2
    · exact Or.inl h2
    · exact Or.inr (Or.inl h2)
  · exact Or.inr (Or.inr h1)

theorem isRoot_set_only_by_seeding_or_insertion_witness :
    ∃ s, buildConversionQueueForRootValues exampleExt callModule 4 [1] [] callTable = .ok s ∧
      isRootOf exampleExt s.info 0 = true ∧
      (0 ∈ [1] ∨ isRootOf exampleExt callTable 0 = true ∨ 0 ∈ s.inserted) := by
  have hex : ∃ s, buildConversionQueueForRootValues exampleExt callModule 4 [1] [] callTable
      = .ok s ∧ isRootOf exampleExt s.info 0 = true := by
    simp [buildConversionQueueForRootValues, buildLoop, forwardLoop, backwardLoop,
    forEachRes, forwardUser, backtrackOperand, initialState, seedRoots, finalizeRoots,
    finalizeStep, mergeRootsInto, hasInfo, setIsRoot, markBacktracking, touch, getInfo, setInfo,
    findInfo, createInfoOfUser, inheritedMetadata, extractGEPIMetadata, gepiWalk,
    candidateDistance, isAnnotationGlobal, eraseLoop, findOrErase, insertAt, exampleExt,
    annotated, scalarMD, orEnable, unwrapTy, distOf, isRootOf, rootsOf, Kind.isGlobalObject,
    Kind.isPHINode, Kind.isInstruction, Kind.isStoreInst, Kind.isUser, Kind.isArgument,
    Kind.isFunction, Kind.isBlockAddress, Ty.isStructTy, Ty.isFloatingPointTy,
    Ty.isSequentialTy, MDInfo.clone, MDInfo.isInputInfo, MDInfo.enabled, MDInfo.setEnabled, callModule, callTable]
  obtain ⟨s, hs, hroot⟩ := hex
  exact ⟨s, hs, hroot,
    (isRoot_set_only_by_seeding_or_insertion exampleExt callModule).2.2 4 [1] callTable s hs 0
      hroot⟩

/-- C9 as stated fails across builds: the first build from the global root 1 (a call
site flagged for backtracking) ends with `isRoot` cleared on 1 by the backtracking
phase; the next build that is given the global roots flags 1 again in lines 184-187,
before any backtracking insertion. -/
theorem isRoot_reset_by_next_build :
    ∃ s, buildConversionQueueForRootValues exampleExt callModule 4 [1] [] callTable = .ok s ∧
      isRootOf exampleExt (initialState exampleExt [1] [] callTable).info 1 = true ∧
      isRootOf exampleExt s.info 1 = false ∧
      isRootOf exampleExt (initialState exampleExt [1] [] s.info).info 1 = true ∧
      (initialState exampleExt [1] [] s.info).inserted = [] := by
  simp [buildConversionQueueForRootValues, buildLoop, forwardLoop, backwardLoop,
    forEachRes, forwardUser, backtrackOperand, initialState, seedRoots, finalizeRoots,
    finalizeStep, mergeRootsInto, hasInfo, setIsRoot, markBacktracking, touch, getInfo, setInfo,
    findInfo, createInfoOfUser, inheritedMetadata, extractGEPIMetadata, gepiWalk,
    candidateDistance, isAnnotationGlobal, eraseLoop, findOrErase, insertAt, exampleExt,
    annotated, scalarMD, orEnable, unwrapTy, distOf, isRootOf, rootsOf, Kind.isGlobalObject,
    Kind.isPHINode, Kind.isInstruction, Kind.isStoreInst, Kind.isUser, Kind.isArgument,
    Kind.isFunction, Kind.isBlockAddress, Ty.isStructTy, Ty.isFloatingPointTy,
    Ty.isSequentialTy, MDInfo.clone, MDInfo.isInputInfo, MDInfo.enabled, MDInfo.setEnabled, callModule, callTable]

/-! ## Shape of the inherited descriptor -/

theorem orEnable_wellShaped {E : Ext} {M : Module} {uid : Nat} {g : MDInfo}
    (h : WellShaped E M uid g) (v : Option MDInfo) : orEnable (some g) v = some g := by
  cases h with
  | struct id fs hlen hfields =>
    cases v <;> simp [orEnable, MDInfo.isInputInfo]

theorem gepiWalk_wellShaped (E : Ext) (M : Module)
    (hstruct : ∀ id, E.fullyUnwrapPointerOrArrayType (.struct id) = .struct id)
    (rest : List (Option Int)) : ∀ (ty ty' : Ty) (mdi : Option MDInfo),
    fieldPath M rest ty = some ty' →
    (∀ sid md, mdi = some md → E.fullyUnwrapPointerOrArrayType ty = .struct sid →
      WellShaped E M sid md) →
    ∀ r, gepiWalk M rest ty mdi = .ok r →
    ∀ g uid, r = some g → E.fullyUnwrapPointerOrArrayType ty' = .struct uid →
      WellShaped E M uid g := by
  induction rest with
  | nil =>
    intro ty ty' mdi hp hmd r hr g uid hg hty
    simp only [fieldPath, Option.some.injEq] at hp
    simp only [gepiWalk, Res.ok.injEq] at hr
    subst hp
    subst hr
    exact hmd uid g hg hty
  | cons idx rest ih =>
    intro ty ty' mdi hp hmd r hr g uid hg hty
    unfold fieldPath at hp
    cases idx with
    | none => simp at hp
    | some n =>
      cases ty with
      | struct id =>
        simp only at hp
        split_ifs at hp with hn
        unfold gepiWalk at hr
        simp only [Ty.isSequentialTy, Bool.false_eq_true, if_false] at hr
        cases mdi with
        | none => simp at hr
        | some md =>
          have hw := hmd id md rfl (hstruct id)
          cases hw with
          | struct _ fs hlen hfields =>
            simp only [hlen, hn, and_self, if_true] at hr
            refine ih _ _ _ hp ?_ r hr g uid hg hty
            intro sid child hchild hsid
            refine hfields n.toNat child sid ?_ hsid
            rw [List.getD_eq_getElem?_getD] at hchild
            rw [List.get?_eq_getElem?]
            cases hget : fs[n.toNat]? with
            | none => rw [hget] at hchild; simp at hchild
            | some c =>
              rw [hget] at hchild
              simp only [Option.getD_some] at hchild
              rw [hchild]
      | _ => simp at hp

theorem createInfoOfUser_shaped (E : Ext) (M : Module)
    (hstruct : ∀ id, E.fullyUnwrapPointerOrArrayType (.struct id) = .struct id)
    (hconstruct : ∀ id, ∃ s, E.constructFromLLVMType (.struct id) = some s ∧
      WellShaped E M id s)
    (hstore : ∀ u id, (M.kind u).isStoreInst = true →
      E.fullyUnwrapPointerOrArrayType (M.type u) ≠ .struct id)
    (hgep : FieldAccessesTyped E M)
    (T T' : Table) (p u : Value) (hT : Shaped E M T)
    (h : createInfoOfUser E M T p u = .ok T') : Shaped E M T' := by
  intro n md uid hmd hty
  by_cases hc : (getInfo E T u).fixpTypeRootDistance
      ≤ candidateDistance E (getInfo E T p).fixpTypeRootDistance
  · rw [createInfoOfUser_keep E M T p u hc] at h
    simp only [Res.ok.injEq] at h
    subst h
    rw [getInfo_setInfo] at hmd
    by_cases hn : n = u
    · subst hn
      simp only [if_true] at hmd
      cases hold : (getInfo E T n).metadata with
      | none => rw [hold] at hmd; simp [orEnable] at hmd
      | some m =>
        have hw := hT n m uid hold hty
        rw [hold, orEnable_wellShaped hw] at hmd
        simp only [Option.some.injEq] at hmd
        exact hmd ▸ hw
    · simp only [if_neg hn, getInfo_touch] at hmd
      exact hT n md uid hmd hty
  · rw [createInfoOfUser_overwrite E M T p u hc] at h
    cases hi : inheritedMetadata E M p u (getInfo E T p).metadata with
    | crash => rw [hi] at h; cases h
    | timeout => rw [hi] at h; cases h
    | ok imd =>
      rw [hi] at h
      simp only [Res.ok.injEq] at h
      subst h
      rw [getInfo_setInfo] at hmd
      by_cases hn : n = u
      · subst hn
        simp only [if_true] at hmd
        have key : ∃ g, imd = some g ∧ WellShaped E M uid g := by
          unfold inheritedMetadata at hi
          simp only [hty, Ty.isStructTy, Bool.not_true, Bool.and_false, Bool.false_or] at hi
          have hs : (M.kind n).isStoreInst = false := by
            cases hk : (M.kind n).isStoreInst with
            | false => rfl
            | true => exact absurd hty (hstore n uid hk)
          rw [hs, Bool.or_false] at hi
          by_cases heq : E.fullyUnwrapPointerOrArrayType (M.type p) = .struct uid
          · simp only [heq, beq_self_eq_true, if_true] at hi
            cases hpm : (getInfo E T p).metadata with
            | none => rw [hpm] at hi; cases hi
            | some pm =>
              rw [hpm] at hi
              simp only [Res.ok.injEq] at hi
              exact ⟨pm, hi.symm, hT p pm uid hpm heq⟩
          · have hne : (E.fullyUnwrapPointerOrArrayType (M.type p) == Ty.struct uid) = false := by
              simpa using heq
            simp only [hne, Bool.false_eq_true, if_false] at hi
            cases hx : extractGEPIMetadata M n p (getInfo E T p).metadata with
            | crash => rw [hx] at hi; cases hi
            | timeout => rw [hx] at hi; cases hi
            | ok x =>
              rw [hx] at hi
              cases x with
              | none =>
                obtain ⟨s, hs1, hs2⟩ := hconstruct uid
                simp only [hs1, Res.ok.injEq] at hi
                exact ⟨s, hi.symm, hs2⟩
              | some g =>
                simp only [Res.ok.injEq] at hi
                refine ⟨g, hi.symm, ?_⟩
                unfold extractGEPIMetadata at hx
                cases hpm : (getInfo E T p).metadata with
                | none => rw [hpm] at hx; cases hx
                | some pm =>
                  rw [hpm] at hx
                  simp only at hx
                  cases hk : M.kind n with
                  | gep srcTy indices =>
                    rw [hk] at hx
                    simp only at hx
                    by_cases hh : (M.operands n).head? = some p
                    · simp only [hh, ne_eq, not_true_eq_false, if_false] at hx
                      cases indices with
                      | nil => cases hx
                      | cons i0 rest =>
                        simp only at hx
                        obtain ⟨sid, ty, h1, h2, h3, h4⟩ :=
                          hgep n p srcTy i0 rest uid hk hh hty
                        subst h1
                        cases hw : gepiWalk M rest (.struct sid) (some pm) with
                        | crash => rw [hw] at hx; cases hx
                        | timeout => rw [hw] at hx; cases hx
                        | ok r =>
                          rw [hw] at hx
                          cases r with
                          | none => cases hx
                          | some r0 =>
                            simp only [Res.ok.injEq, Option.some.injEq, MDInfo.clone] at hx
                            subst hx
                            refine gepiWalk_wellShaped E M hstruct rest (.struct sid) ty
                              (some pm) h3 ?_ (some r0) hw r0 uid rfl h4
                            intro sid' md' hmd' hsid'
                            simp only [Option.some.injEq] at hmd'
                            rw [hstruct sid] at hsid'
                            simp only [Ty.struct.injEq] at hsid'
                            rw [← hmd', ← hsid']
                            exact hT p pm sid hpm h2
                    · simp [hh] at hx
                  | _ => rw [hk] at hx; simp at hx
        obtain ⟨g, hg1, hg2⟩ := key
        rw [hg1, orEnable_wellShaped hg2] at hmd
        simp only [Option.some.injEq] at hmd
        exact hmd ▸ hg2
      · simp only [if_neg hn, getInfo_touch] at hmd
        exact hT n md uid hmd hty

theorem metadata_seedRoots (E : Ext) (queue : List Value) (info : Table) (n : Value) :
    (getInfo E (seedRoots E info queue) n).metadata = (getInfo E info n).metadata := by
  unfold seedRoots
  induction queue generalizing info with
  | nil => rfl
  | cons v rest ih =>
    simp only [List.foldl_cons]
    rw [ih, getInfo_setIsRoot]
    split_ifs with h
    · rw [h]
    · rfl

theorem shaped_of_metadata_eq {E : Ext} {M : Module} {T T' : Table} (h : Shaped E M T)
    (heq : ∀ n, (getInfo E T' n).metadata = (getInfo E T n).metadata) : Shaped E M T' :=
  fun n md uid hmd hty => h n md uid ((heq n).symm.trans hmd) hty

theorem shaped_touch {E : Ext} {M : Module} {T : Table} (h : Shaped E M T) (v : Value) :
    Shaped E M (touch E T v) :=
  shaped_of_metadata_eq h (fun n => by rw [getInfo_touch])

theorem shaped_markBacktracking {E : Ext} {M : Module} {T : Table} (h : Shaped E M T)
    (v : Value) : Shaped E M (markBacktracking E T v) :=
  shaped_of_metadata_eq h (fun n => by
    rw [getInfo_markBacktracking]
    split_ifs with hn
    · rw [hn]
    · rfl)

theorem shaped_setIsRoot {E : Ext} {M : Module} {T : Table} (h : Shaped E M T)
    (v : Value) (b : Bool) : Shaped E M (setIsRoot E T v b) :=
  shaped_of_metadata_eq h (fun n => by
    rw [getInfo_setIsRoot]
    split_ifs with hn
    · rw [hn]
    · rfl)

/-- C8, as amended. Shape fidelity holds for producers that mirror their types and
field accesses without an array level. Assume that every descriptor in the table at
the start of the build sits on a value whose struct type it mirrors (`Shaped`: a
Struct descriptor with one child per field, children at struct-typed fields
mirroring in turn), that every field access with a result of struct type follows
constant struct indices from a pointer to a struct (`FieldAccessesTyped`), that a
store has no struct type, that unwrapping leaves a struct type as it is, and that
`StructInfo::constructFromLLVMType` gives a descriptor that mirrors the type for every
struct type. Then, when the build ends, every value whose static type after
unwrapping is a struct type and which has a descriptor (the nodes of the final queue
included) has a Struct descriptor with exactly as many children as the struct type
has fields, whichever of the three branches of lines 341-354 assigned it: the direct
copy, the decomposition of `extractGEPIMetadata`, or the default descriptor. -/
theorem shape_fidelity_for_mirrored_producers (E : Ext) (M : Module)
    (hstruct : ∀ id, E.fullyUnwrapPointerOrArrayType (.struct id) = .struct id)
    (hconstruct : ∀ id, ∃ s, E.constructFromLLVMType (.struct id) = some s ∧
      WellShaped E M id s)
    (hstore : ∀ u id, (M.kind u).isStoreInst = true →
      E.fullyUnwrapPointerOrArrayType (M.type u) ≠ .struct id)
    (hgep : FieldAccessesTyped E M)
    (fuel : Nat) (val queue : List Value) (info : Table) (s : BuildState)
    (h0 : Shaped E M info)
    (h : buildConversionQueueForRootValues E M fuel val queue info = .ok s) :
    ∀ n uid md, E.fullyUnwrapPointerOrArrayType (M.type n) = .struct uid →
      (getInfo E s.info n).metadata = some md →
      WellShaped E M uid md ∧
      ∃ fs, md = .structInfo fs ∧ fs.length = (M.structBody uid).length := by
  have hfinal : Shaped E M s.info := by
    unfold buildConversionQueueForRootValues at h
    cases hb : buildLoop E M fuel (initialState E val queue info) 0 with
    | crash => rw [hb] at h; cases h
    | timeout => rw [hb] at h; cases h
    | ok s1 =>
      rw [hb] at h
      simp only [Res.ok.injEq] at h
      subst h
      have h1 : Shaped E M (initialState E val queue info).info :=
        shaped_of_metadata_eq h0 (fun n => metadata_seedRoots E _ info n)
      have h2 : Shaped E M s1.info := by
        refine buildLoop_preserves E M (fun t => Shaped E M t.info) ?_ ?_ ?_ ?_ fuel _ 0 s1 h1 hb
        · intro t v _ ht
          exact ht
        · intro v st u st' ht hstep
          rcases forwardUser_ok E M v u st st' hstep with hsame | ⟨-, -, info2, hinfo2, hc, -⟩
          · rcases hsame with ⟨hsame, -⟩
            rw [hsame]
            exact ht
          · refine createInfoOfUser_shaped E M hstruct hconstruct hstore hgep info2 _ v u ?_ hc
            rcases hinfo2 with hi | hi
            · rw [hi]
              exact shaped_touch ht v
            · rw [hi]
              exact shaped_markBacktracking (shaped_touch ht v) u
        · intro t v ht
          exact shaped_touch ht v
        · intro v st u st' ht hstep
          rcases backtrackOperand_ok E M v u st st' hstep with hsame | ⟨info3, hc, hcase, -⟩
          · rw [hsame]
            exact ht
          · refine createInfoOfUser_shaped E M hstruct hconstruct hstore hgep info3 _ v u ?_ hc
            rcases hcase with ⟨-, hi, -⟩ | ⟨-, hi, -⟩
            · rw [hi]
              exact shaped_markBacktracking (shaped_setIsRoot ht v false) u
            · rw [hi]
              exact shaped_setIsRoot (shaped_markBacktracking (shaped_setIsRoot ht v false) u) u true
      exact shaped_of_metadata_eq h2 (fun n => (finalizeRoots_same E M s1.queue s1.info n).1)
  intro n uid md hty hmd
  have hw := hfinal n md uid hmd hty
  refine ⟨hw, ?_⟩
  cases hw with
  | struct _ fs hlen hfields => exact ⟨fs, rfl, hlen⟩

theorem defaultShape_wellShaped (id : Nat) :
    ∃ s, shapeExt.constructFromLLVMType (.struct id) = some s ∧
      WellShaped shapeExt shapeModule id s := by
  match id with
  | 0 =>
    refine ⟨_, rfl, WellShaped.struct 0 _ (by decide) ?_⟩
    intro i child cid hget hty
    match i with
    | 0 =>
      have hc : cid = 1 := by
        simp [shapeModule, shapeExt, exampleExt, unwrapTy] at hty
        exact hty.symm
      subst hc
      simp only [List.get?, Option.some.injEq] at hget
      subst hget
      refine WellShaped.struct 1 _ (by decide) ?_
      intro j c2 cid2 _ hty2
      match j with
      | 0 => simp [shapeModule, shapeExt, exampleExt, unwrapTy] at hty2
      | 1 => simp [shapeModule, shapeExt, exampleExt, unwrapTy] at hty2
      | j + 2 => simp [shapeModule, shapeExt, exampleExt, unwrapTy] at hty2
    | 1 => simp [shapeModule, shapeExt, exampleExt, unwrapTy] at hty
    | i + 2 => simp [shapeModule, shapeExt, exampleExt, unwrapTy] at hty
  | 1 =>
    refine ⟨_, rfl, WellShaped.struct 1 _ (by decide) ?_⟩
    intro j c2 cid2 _ hty2
    match j with
    | 0 => simp [shapeModule, shapeExt, exampleExt, unwrapTy] at hty2
    | 1 => simp [shapeModule, shapeExt, exampleExt, unwrapTy] at hty2
    | j + 2 => simp [shapeModule, shapeExt, exampleExt, unwrapTy] at hty2
  | id + 2 =>
    refine ⟨.structInfo [], rfl, WellShaped.struct _ _ (by simp [shapeModule]) ?_⟩
    intro j c2 cid2 hget _
    simp at hget

theorem shapeModule_fieldAccessesTyped : FieldAccessesTyped shapeExt shapeModule := by
  intro u p srcTy i0 rest uid hk hh hty
  by_cases h0 : u = 0
  · subst h0
    simp [shapeModule] at hk
  · by_cases h1 : u = 1
    · subst h1
      simp [shapeModule] at hk hh
      simp [shapeModule, shapeExt, exampleExt, unwrapTy] at hty
      obtain ⟨hk1, hk2, hk3⟩ := hk
      subst hk1 hk3 hh hty
      exact ⟨0, .struct 1, rfl, by simp [shapeModule, shapeExt, exampleExt, unwrapTy],
        by simp [fieldPath, shapeModule], by simp [shapeExt, exampleExt, unwrapTy]⟩
    · simp [shapeModule, h0, h1] at hk

theorem shapeTable_shaped : Shaped shapeExt shapeModule shapeTable := by
  intro n md uid hmd hty
  by_cases h0 : n = 0
  · subst h0
    have hu : uid = 0 := by
      simp [shapeModule, shapeExt, exampleExt, unwrapTy] at hty
      exact hty.symm
    subst hu
    simp [shapeTable, getInfo, findInfo, annotated] at hmd
    subst hmd
    refine WellShaped.struct 0 _ (by decide) ?_
    intro i child cid hget hty
    match i with
    | 0 =>
      have hc : cid = 1 := by
        simp [shapeModule, shapeExt, exampleExt, unwrapTy] at hty
        exact hty.symm
      subst hc
      simp only [List.get?, Option.some.injEq] at hget
      subst hget
      refine WellShaped.struct 1 _ (by decide) ?_
      intro j c2 cid2 _ hty2
      match j with
      | 0 => simp [shapeModule, shapeExt, exampleExt, unwrapTy] at hty2
      | 1 => simp [shapeModule, shapeExt, exampleExt, unwrapTy] at hty2
      | j + 2 => simp [shapeModule, shapeExt, exampleExt, unwrapTy] at hty2
    | 1 => simp [shapeModule, shapeExt, exampleExt, unwrapTy] at hty
    | i + 2 => simp [shapeModule, shapeExt, exampleExt, unwrapTy] at hty
  · simp [shapeTable, getInfo, findInfo, h0, shapeExt, exampleExt] at hmd

theorem shape_fidelity_for_mirrored_producers_witness :
    Shaped shapeExt shapeModule shapeTable ∧ FieldAccessesTyped shapeExt shapeModule ∧
    ∃ s, buildConversionQueueForRootValues shapeExt shapeModule 6 [0] [] shapeTable = .ok s ∧
      s.queue = [0, 1, 3, 2] ∧
      (getInfo shapeExt s.info 1).metadata
        = some (.structInfo [some (rangeMD 1), some (rangeMD 2)]) ∧
      (getInfo shapeExt s.info 2).metadata
        = some (.structInfo [some (rangeMD 1), some (rangeMD 2)]) ∧
      (getInfo shapeExt s.info 3).metadata
        = some (.structInfo [some (scalarMD true), some (scalarMD true)]) ∧
      ∀ n uid md, shapeExt.fullyUnwrapPointerOrArrayType (shapeModule.type n) = .struct uid →
        (getInfo shapeExt s.info n).metadata = some md →
        WellShaped shapeExt shapeModule uid md ∧
        ∃ fs, md = .structInfo fs ∧ fs.length = (shapeModule.structBody uid).length := by
  have hex : ∃ s,
      buildConversionQueueForRootValues shapeExt shapeModule 6 [0] [] shapeTable = .ok s ∧
      s.queue = [0, 1, 3, 2] ∧
      (getInfo shapeExt s.info 1).metadata
        = some (.structInfo [some (rangeMD 1), some (rangeMD 2)]) ∧
      (getInfo shapeExt s.info 2).metadata
        = some (.structInfo [some (rangeMD 1), some (rangeMD 2)]) ∧
      (getInfo shapeExt s.info 3).metadata
        = some (.structInfo [some (scalarMD true), some (scalarMD true)]) := by
    simp [buildConversionQueueForRootValues, buildLoop, forwardLoop, backwardLoop,
    forEachRes, forwardUser, backtrackOperand, initialState, seedRoots, finalizeRoots,
    finalizeStep, mergeRootsInto, hasInfo, setIsRoot, markBacktracking, touch, getInfo, setInfo,
    findInfo, createInfoOfUser, inheritedMetadata, extractGEPIMetadata, gepiWalk,
    candidateDistance, isAnnotationGlobal, eraseLoop, findOrErase, insertAt, exampleExt,
    annotated, scalarMD, orEnable, unwrapTy, distOf, isRootOf, rootsOf, Kind.isGlobalObject,
    Kind.isPHINode, Kind.isInstruction, Kind.isStoreInst, Kind.isUser, Kind.isArgument,
    Kind.isFunction, Kind.isBlockAddress, Ty.isStructTy, Ty.isFloatingPointTy,
    Ty.isSequentialTy, MDInfo.clone, MDInfo.isInputInfo, MDInfo.enabled, MDInfo.setEnabled, shapeExt, shapeModule, shapeTable, defaultShape, rangeMD]
  obtain ⟨s, hs, hq, h1, h2, h3⟩ := hex
  exact ⟨shapeTable_shaped, shapeModule_fieldAccessesTyped, s, hs, hq, h1, h2, h3,
    shape_fidelity_for_mirrored_producers shapeExt shapeModule (fun _ => rfl)
      defaultShape_wellShaped
      (fun u id hk => by
        by_cases h0 : u = 0
        · subst h0; simp [shapeModule, Kind.isStoreInst] at hk
        · by_cases h1 : u = 1
          · subst h1; simp [shapeModule, Kind.isStoreInst] at hk
          · simp [shapeModule, Kind.isStoreInst, h0, h1] at hk)
      shapeModule_fieldAccessesTyped 6 [0] [] shapeTable s shapeTable_shaped hs⟩

/-- C8 as stated fails, in three ways. First, the aggregate 0 of `pixelModule`, of
struct type 7 with five fields, is annotated with a scalar descriptor; its consumer 1
has the same struct type, is in the final queue, and the rule assigned it a Scalar
descriptor (the direct copy of line 346 looks at the types only). Second, the
aggregate 0 of `shapeModule` is annotated with a Struct descriptor that has one child
per field but a Scalar child at the field of struct type 1; the access 1 to that
field has struct type 1, is in the final queue, and `extractGEPIMetadata` assigned it
that Scalar child. Third, the array 0 of `arrayOfStructsModule` is annotated with a
descriptor that mirrors its element type; the field access 1 has struct type 1 with
three fields, is in the final queue, and the rule assigned it the whole descriptor of
the array, a Struct with two children: `extractGEPIMetadata` skips every index while
the type it tracks is an array (lines 383-384) and never steps into the element
type. -/
theorem struct_typed_node_gets_wrong_shape :
    (∃ s, buildConversionQueueForRootValues exampleExt pixelModule 4 [0] [] pixelScalarTable
        = .ok s ∧
      1 ∈ s.queue ∧ (0, 1, 0) ∈ s.propagated ∧
      exampleExt.fullyUnwrapPointerOrArrayType (pixelModule.type 1) = .struct 7 ∧
      (pixelModule.structBody 7).length = 5 ∧
      (getInfo exampleExt s.info 1).metadata = some (scalarMD false)) ∧
    (∃ s, buildConversionQueueForRootValues shapeExt shapeModule 6 [0] []
        shapeScalarChildTable = .ok s ∧
      1 ∈ s.queue ∧ (0, 1, 0) ∈ s.propagated ∧
      shapeExt.fullyUnwrapPointerOrArrayType (shapeModule.type 1) = .struct 1 ∧
      (shapeModule.structBody 0).length = 2 ∧
      (getInfo shapeExt s.info 1).metadata = some (rangeMD 1)) ∧
    (Shaped exampleExt arrayOfStructsModule arrayOfStructsTable ∧
      ∃ s, buildConversionQueueForRootValues exampleExt arrayOfStructsModule 4 [0] []
          arrayOfStructsTable = .ok s ∧
        1 ∈ s.queue ∧ (0, 1, 0) ∈ s.propagated ∧
        exampleExt.fullyUnwrapPointerOrArrayType (arrayOfStructsModule.type 1) = .struct 1 ∧
        (arrayOfStructsModule.structBody 1).length = 3 ∧
        (getInfo exampleExt s.info 1).metadata
          = some (.structInfo [some (rangeMD 1),
              some (.structInfo [some (rangeMD 2), some (rangeMD 3), some (rangeMD 4)])])) := by
  refine ⟨?_, ?_, ?_, ?_⟩
  · simp [buildConversionQueueForRootValues, buildLoop, forwardLoop, backwardLoop,
    forEachRes, forwardUser, backtrackOperand, initialState, seedRoots, finalizeRoots,
    finalizeStep, mergeRootsInto, hasInfo, setIsRoot, markBacktracking, touch, getInfo, setInfo,
    findInfo, createInfoOfUser, inheritedMetadata, extractGEPIMetadata, gepiWalk,
    candidateDistance, isAnnotationGlobal, eraseLoop, findOrErase, insertAt, exampleExt,
    annotated, scalarMD, orEnable, unwrapTy, distOf, isRootOf, rootsOf, Kind.isGlobalObject,
    Kind.isPHINode, Kind.isInstruction, Kind.isStoreInst, Kind.isUser, Kind.isArgument,
    Kind.isFunction, Kind.isBlockAddress, Ty.isStructTy, Ty.isFloatingPointTy,
    Ty.isSequentialTy, MDInfo.clone, MDInfo.isInputInfo, MDInfo.enabled, MDInfo.setEnabled, pixelModule, pixelScalarTable]
  · simp [buildConversionQueueForRootValues, buildLoop, forwardLoop, backwardLoop,
    forEachRes, forwardUser, backtrackOperand, initialState, seedRoots, finalizeRoots,
    finalizeStep, mergeRootsInto, hasInfo, setIsRoot, markBacktracking, touch, getInfo, setInfo,
    findInfo, createInfoOfUser, inheritedMetadata, extractGEPIMetadata, gepiWalk,
    candidateDistance, isAnnotationGlobal, eraseLoop, findOrErase, insertAt, exampleExt,
    annotated, scalarMD, orEnable, unwrapTy, distOf, isRootOf, rootsOf, Kind.isGlobalObject,
    Kind.isPHINode, Kind.isInstruction, Kind.isStoreInst, Kind.isUser, Kind.isArgument,
    Kind.isFunction, Kind.isBlockAddress, Ty.isStructTy, Ty.isFloatingPointTy,
    Ty.isSequentialTy, MDInfo.clone, MDInfo.isInputInfo, MDInfo.enabled, MDInfo.setEnabled, shapeExt, shapeModule, shapeScalarChildTable, defaultShape, rangeMD]
  · intro n md uid hmd hty
    by_cases h0 : n = 0
    · subst h0
      have hu : uid = 0 := by
        simp [arrayOfStructsModule, exampleExt, unwrapTy] at hty
        exact hty.symm
      subst hu
      simp [arrayOfStructsTable, getInfo, findInfo, annotated] at hmd
      subst hmd
      refine WellShaped.struct 0 _ (by decide) ?_
      intro i child cid hget hty
      match i with
      | 0 => simp [arrayOfStructsModule, exampleExt, unwrapTy] at hty
      | 1 =>
        have hc : cid = 1 := by
          simp [arrayOfStructsModule, exampleExt, unwrapTy] at hty
          exact hty.symm
        subst hc
        simp only [List.get?, Option.some.injEq] at hget
        subst hget
        refine WellShaped.struct 1 _ (by decide) ?_
        intro j c2 cid2 _ hty2
        match j with
        | 0 => simp [arrayOfStructsModule, exampleExt, unwrapTy] at hty2
        | 1 => simp [arrayOfStructsModule, exampleExt, unwrapTy] at hty2
        | 2 => simp [arrayOfStructsModule, exampleExt, unwrapTy] at hty2
        | j + 3 => simp [arrayOfStructsModule, exampleExt, unwrapTy] at hty2
      | i + 2 => simp [arrayOfStructsModule, exampleExt, unwrapTy] at hty
    · simp [arrayOfStructsTable, getInfo, findInfo, h0, exampleExt] at hmd
  · simp [buildConversionQueueForRootValues, buildLoop, forwardLoop, backwardLoop,
    forEachRes, forwardUser, backtrackOperand, initialState, seedRoots, finalizeRoots,
    finalizeStep, mergeRootsInto, hasInfo, setIsRoot, markBacktracking, touch, getInfo, setInfo,
    findInfo, createInfoOfUser, inheritedMetadata, extractGEPIMetadata, gepiWalk,
    candidateDistance, isAnnotationGlobal, eraseLoop, findOrErase, insertAt, exampleExt,
    annotated, scalarMD, orEnable, unwrapTy, distOf, isRootOf, rootsOf, Kind.isGlobalObject,
    Kind.isPHINode, Kind.isInstruction, Kind.isStoreInst, Kind.isUser, Kind.isArgument,
    Kind.isFunction, Kind.isBlockAddress, Ty.isStructTy, Ty.isFloatingPointTy,
    Ty.isSequentialTy, MDInfo.clone, MDInfo.isInputInfo, MDInfo.enabled, MDInfo.setEnabled, arrayOfStructsModule, arrayOfStructsTable, rangeMD]

/-! ## Specialization of a self-recursive function -/

set_option maxHeartbeats 4000000 in
/-- C6 at the failing input: on `recursiveProg` the recursion of
`generateFunctionSpace` is not stopped by the call trace. A run whose recursion depth
is limited to two levels is cut off, as are the runs with one level and with none: the
level that works on the first clone 300 of `f` finds the recursive call 305 twice in
its queue, clones `f` at the first occurrence (where the guard stops the descent),
finds the call rebound to that clone at the second occurrence, clones the clone, which
is not on the call trace, and descends into it. -/
theorem recursion_passes_call_trace_guard :
    runOnModule (exampleEnv 20) 0 [1] recursiveStart = .timeout ∧
    runOnModule (exampleEnv 20) 1 [1] recursiveStart = .timeout ∧
    runOnModule (exampleEnv 20) 2 [1] recursiveStart = .timeout := by
  refine ⟨?_, ?_, ?_⟩ <;>
    simp [buildConversionQueueForRootValues, buildLoop, forwardLoop, backwardLoop,
    forEachRes, forwardUser, backtrackOperand, initialState, seedRoots, finalizeRoots,
    finalizeStep, mergeRootsInto, hasInfo, setIsRoot, markBacktracking, touch, getInfo, setInfo,
    findInfo, createInfoOfUser, inheritedMetadata, extractGEPIMetadata, gepiWalk,
    candidateDistance, isAnnotationGlobal, eraseLoop, findOrErase, insertAt, exampleExt,
    annotated, scalarMD, orEnable, unwrapTy, distOf, isRootOf, rootsOf, Kind.isGlobalObject,
    Kind.isPHINode, Kind.isInstruction, Kind.isStoreInst, Kind.isUser, Kind.isArgument,
    Kind.isFunction, Kind.isBlockAddress, Ty.isStructTy, Ty.isFloatingPointTy,
    Ty.isSequentialTy, MDInfo.clone, MDInfo.isInputInfo, MDInfo.enabled, MDInfo.setEnabled, runOnModule, generateFunctionSpace, createFunctionAndQueue, seedArgument,
    setMetadataOfValue, reattachStep, removeAnnotationCalls, readLocalAnnotations,
    readLocalAnnotation, parseAnnotation, storeSeeded, Prog.toModule, Prog.usersOf, Prog.insts,
    Prog.findInst, Prog.findFunc, Prog.findParam, Prog.findOther, Prog.parentOf,
    Prog.updateInst, Prog.setCalledFunction, Prog.cloneFunction, Prog.cloneMap, Prog.remap,
    Inst.operands, Inst.calledFunction, Kind.isCallOrInvoke, allocaInst, floatInst, storeInst,
    callInst, exampleEnv, List.enum, List.enumFrom, recursiveStart, recursiveProg]

/-! ## Two specializations of one callee -/

theorem EntriesCorrespond.setInfo {E : Ext} {S : Value → Prop} {r : Value → Value}
    {T T' : Table} (hr : ∀ v w, S v → S w → r v = r w → v = w)
    (h : EntriesCorrespond E S r T T')
    (v : Value) (hv : S v) (x x' : ValueInfo) (hx : SameButRoots x x') :
    EntriesCorrespond E S r (setInfo T v x) (setInfo T' (r v) x') := by
  intro w hw
  rw [hasInfo_setInfo, hasInfo_setInfo, getInfo_setInfo, getInfo_setInfo]
  by_cases hwv : w = v
  · subst hwv
    simp [hx]
  · have hne : r w ≠ r v := fun e => hwv (hr w v hw hv e)
    simp only [hwv, hne, decide_False, Bool.false_or, if_false]
    exact h w hw

theorem EntriesCorrespond.touch {E : Ext} {S : Value → Prop} {r : Value → Value}
    {T T' : Table} (hr : ∀ v w, S v → S w → r v = r w → v = w)
    (h : EntriesCorrespond E S r T T')
    (v : Value) (hv : S v) :
    EntriesCorrespond E S r (touch E T v) (touch E T' (r v)) :=
  h.setInfo hr v hv _ _ (h v hv).2

theorem EntriesCorrespond.setIsRoot {E : Ext} {S : Value → Prop} {r : Value → Value}
    {T T' : Table} (hr : ∀ v w, S v → S w → r v = r w → v = w)
    (h : EntriesCorrespond E S r T T')
    (v : Value) (hv : S v) (b : Bool) :
    EntriesCorrespond E S r (setIsRoot E T v b) (setIsRoot E T' (r v) b) := by
  obtain ⟨h1, h2, h3, -, h5, h6⟩ := (h v hv).2
  exact h.setInfo hr v hv _ _ ⟨h1, h2, h3, rfl, h5, h6⟩

theorem Prog.Bounded.body (P : Prog) (hB : P.Bounded) (f : Func) (hf : f ∈ P.funcs)
    (i : Inst) (hi : i ∈ f.body) :
    i.id < P.nextValue ∧ ∀ o ∈ i.operands, o < P.nextValue :=
  hB.1 i (List.mem_flatMap.mpr ⟨f, hf, hi⟩)

theorem generateFunctionSpace_succ (V : PassEnv) (fuel : Nat) (vals callTrace : List Value)
    (st : PassState) :
    generateFunctionSpace V (fuel + 1) vals callTrace st
      = forEachRes (specializeCall V (generateFunctionSpace V fuel) callTrace) vals st := by
  rfl

theorem setMetadataOfValue_functionCloned (E : Ext) (st st' : PassState) (v : Value)
    (h : setMetadataOfValue E st v = .ok st') : st'.functionCloned = st.functionCloned := by
  unfold setMetadataOfValue at h
  split at h
  · split_ifs at h
    simp only [Res.ok.injEq] at h
    rw [← h]
  · simp only [Res.ok.injEq] at h
    rw [← h]

theorem specializeCall_guarded (V : PassEnv)
    (descend : List Value → List Value → PassState → Res PassState)
    (callTrace : List Value) (st st' : PassState) (v : Value) (call : Inst) (oldFId : Value)
    (oldF : Func) (hfind : st.prog.findInst v = some call)
    (hcall : call.kind.isCallOrInvoke = true) (hcallee : call.calledFunction = some oldFId)
    (hspecial : V.ext.isSpecialFunction oldFId = false)
    (hmanual : (V.manualFunctionCloning && !decide (oldFId ∈ st.enabledFunctions)) = false)
    (hfunc : st.prog.findFunc oldFId = some oldF) (htrace : oldFId ∈ callTrace)
    (h : specializeCall V descend callTrace st v = .ok st') :
    st'.functionCloned = st.functionCloned + 1 ∧
    (st'.prog.findFunc st.prog.nextValue).isSome = true ∧
    ∀ descend2, specializeCall V descend2 callTrace st v = .ok st' := by
  unfold specializeCall at h ⊢
  simp only [hfind, hcall, hcallee, hspecial, hmanual, hfunc, Bool.not_true, Bool.false_eq_true,
    if_false, htrace, decide_True, if_true] at h ⊢
  cases hc : createFunctionAndQueue V st v oldF with
  | ok created =>
    rw [hc] at h
    simp only at h ⊢
    have hcl : created.1.functionCloned = st.functionCloned + 1 ∧
        created.2.1.id = st.prog.nextValue := by
      unfold createFunctionAndQueue at hc
      simp only at hc
      split at hc
      · split at hc
        · split at hc
          · simp only [Res.ok.injEq] at hc
            rw [← hc]
            exact ⟨rfl, rfl⟩
          · cases hc
          · cases hc
        · cases hc
        · cases hc
      · cases hc
      · cases hc
    cases hm : forEachRes (setMetadataOfValue V.ext) created.2.2
        { created.1 with
          prog := created.1.prog.setCalledFunction v created.2.1.id
          enabledFunctions := created.2.1.id :: created.1.enabledFunctions } with
    | ok st2 =>
      rw [hm] at h
      simp only at h ⊢
      have hfc : st2.functionCloned = st.functionCloned + 1 := by
        exact forEachRes_preserves (setMetadataOfValue V.ext)
          (fun s => s.functionCloned = st.functionCloned + 1)
          (fun s a s' hs hstep =>
            (setMetadataOfValue_functionCloned V.ext s s' a hstep).trans hs)
          created.2.2
          { created.1 with
            prog := created.1.prog.setCalledFunction v created.2.1.id
            enabledFunctions := created.2.1.id :: created.1.enabledFunctions }
          st2 hcl.1 hm
      cases hn : st2.prog.findFunc created.2.1.id with
      | none => rw [hn] at h; cases h
      | some newF =>
        rw [hn] at h
        simp only [Res.ok.injEq] at h ⊢
        subst h
        refine ⟨hfc, ?_, fun _ => rfl⟩
        simp only [← hcl.2, hn, Option.isSome_some]
    | crash => rw [hm] at h; cases h
    | timeout => rw [hm] at h; cases h
  | crash => rw [hc] at h; cases h
  | timeout => rw [hc] at h; cases h

/-- C11, amended: the call trace guard is tested after the clone has been made. When
`generateFunctionSpace` visits a call site whose callee is on the call trace (as the
recursive call of a self-recursive function in the queue of its clone) and the visit
succeeds, one more clone exists afterwards (the statistic `FunctionCloned` has grown by
one and the function with the next free identity is in the program), and the recursion
was not entered: one level of recursion depth gives the same result. -/
theorem call_trace_guard_stops_descent_after_cloning (V : PassEnv) (fuel : Nat)
    (callTrace : List Value) (st st' : PassState) (v : Value) (call : Inst) (oldFId : Value)
    (oldF : Func) (hfind : st.prog.findInst v = some call)
    (hcall : call.kind.isCallOrInvoke = true) (hcallee : call.calledFunction = some oldFId)
    (hspecial : V.ext.isSpecialFunction oldFId = false)
    (hmanual : (V.manualFunctionCloning && !decide (oldFId ∈ st.enabledFunctions)) = false)
    (hfunc : st.prog.findFunc oldFId = some oldF) (htrace : oldFId ∈ callTrace)
    (h : generateFunctionSpace V (fuel + 1) [v] callTrace st = .ok st') :
    st'.functionCloned = st.functionCloned + 1 ∧
    (st'.prog.findFunc st.prog.nextValue).isSome = true ∧
    generateFunctionSpace V 1 [v] callTrace st = .ok st' := by
  rw [generateFunctionSpace_succ] at h ⊢
  simp only [forEachRes] at h ⊢
  cases hs : specializeCall V (generateFunctionSpace V fuel) callTrace st v with
  | ok s1 =>
    rw [hs] at h
    simp only [Res.ok.injEq] at h
    subst h
    obtain ⟨h1, h2, h3⟩ := specializeCall_guarded V _ callTrace st s1 v call oldFId oldF hfind
      hcall hcallee hspecial hmanual hfunc htrace hs
    refine ⟨h1, h2, ?_⟩
    rw [h3]
  | crash => rw [hs] at h; cases h
  | timeout => rw [hs] at h; cases h

set_option maxHeartbeats 4000000 in
theorem call_trace_guard_stops_descent_after_cloning_witness :
    ∃ st', generateFunctionSpace (exampleEnv 20) 3 [3] [200] recursiveTop = .ok st' ∧
      st'.functionCloned = recursiveTop.functionCloned + 1 ∧
      (st'.prog.findFunc recursiveTop.prog.nextValue).isSome = true ∧
      generateFunctionSpace (exampleEnv 20) 1 [3] [200] recursiveTop = .ok st' := by
  have hex : ∃ st', generateFunctionSpace (exampleEnv 20) 3 [3] [200] recursiveTop = .ok st' := by
    simp [buildConversionQueueForRootValues, buildLoop, forwardLoop, backwardLoop,
    forEachRes, forwardUser, backtrackOperand, initialState, seedRoots, finalizeRoots,
    finalizeStep, mergeRootsInto, hasInfo, setIsRoot, markBacktracking, touch, getInfo, setInfo,
    findInfo, createInfoOfUser, inheritedMetadata, extractGEPIMetadata, gepiWalk,
    candidateDistance, isAnnotationGlobal, eraseLoop, findOrErase, insertAt, exampleExt,
    annotated, scalarMD, orEnable, unwrapTy, distOf, isRootOf, rootsOf, Kind.isGlobalObject,
    Kind.isPHINode, Kind.isInstruction, Kind.isStoreInst, Kind.isUser, Kind.isArgument,
    Kind.isFunction, Kind.isBlockAddress, Ty.isStructTy, Ty.isFloatingPointTy,
    Ty.isSequentialTy, MDInfo.clone, MDInfo.isInputInfo, MDInfo.enabled, MDInfo.setEnabled, runOnModule, generateFunctionSpace, createFunctionAndQueue, seedArgument,
    setMetadataOfValue, reattachStep, removeAnnotationCalls, readLocalAnnotations,
    readLocalAnnotation, parseAnnotation, storeSeeded, Prog.toModule, Prog.usersOf, Prog.insts,
    Prog.findInst, Prog.findFunc, Prog.findParam, Prog.findOther, Prog.parentOf,
    Prog.updateInst, Prog.setCalledFunction, Prog.cloneFunction, Prog.cloneMap, Prog.remap,
    Inst.operands, Inst.calledFunction, Kind.isCallOrInvoke, allocaInst, floatInst, storeInst,
    callInst, exampleEnv, List.enum, List.enumFrom, specializeCall, recursiveTop]
  obtain ⟨st', hst⟩ := hex
  exact ⟨st', hst,
    call_trace_guard_stops_descent_after_cloning (exampleEnv 20) 2 [200] recursiveTop st' 3
      { callInst 3 200 [2] with attached := some (scalarMD false) }
      200
      { id := 200, params := [(10, .fp 0)],
        body := [allocaInst 11, storeInst 12 10 11, floatInst 13 [11],
          callInst 14 200 [13], floatInst 15 [14]] }
      (by simp [runOnModule, generateFunctionSpace, createFunctionAndQueue, seedArgument,
    setMetadataOfValue, reattachStep, removeAnnotationCalls, readLocalAnnotations,
    readLocalAnnotation, parseAnnotation, storeSeeded, Prog.toModule, Prog.usersOf, Prog.insts,
    Prog.findInst, Prog.findFunc, Prog.findParam, Prog.findOther, Prog.parentOf,
    Prog.updateInst, Prog.setCalledFunction, Prog.cloneFunction, Prog.cloneMap, Prog.remap,
    Inst.operands, Inst.calledFunction, Kind.isCallOrInvoke, allocaInst, floatInst, storeInst,
    callInst, exampleEnv, List.enum, List.enumFrom, specializeCall, recursiveTop]) (by simp [runOnModule, generateFunctionSpace, createFunctionAndQueue, seedArgument,
    setMetadataOfValue, reattachStep, removeAnnotationCalls, readLocalAnnotations,
    readLocalAnnotation, parseAnnotation, storeSeeded, Prog.toModule, Prog.usersOf, Prog.insts,
    Prog.findInst, Prog.findFunc, Prog.findParam, Prog.findOther, Prog.parentOf,
    Prog.updateInst, Prog.setCalledFunction, Prog.cloneFunction, Prog.cloneMap, Prog.remap,
    Inst.operands, Inst.calledFunction, Kind.isCallOrInvoke, allocaInst, floatInst, storeInst,
    callInst, exampleEnv, List.enum, List.enumFrom, specializeCall]) (by simp [runOnModule, generateFunctionSpace, createFunctionAndQueue, seedArgument,
    setMetadataOfValue, reattachStep, removeAnnotationCalls, readLocalAnnotations,
    readLocalAnnotation, parseAnnotation, storeSeeded, Prog.toModule, Prog.usersOf, Prog.insts,
    Prog.findInst, Prog.findFunc, Prog.findParam, Prog.findOther, Prog.parentOf,
    Prog.updateInst, Prog.setCalledFunction, Prog.cloneFunction, Prog.cloneMap, Prog.remap,
    Inst.operands, Inst.calledFunction, Kind.isCallOrInvoke, allocaInst, floatInst, storeInst,
    callInst, exampleEnv, List.enum, List.enumFrom, specializeCall])
      (by simp [buildConversionQueueForRootValues, buildLoop, forwardLoop, backwardLoop,
    forEachRes, forwardUser, backtrackOperand, initialState, seedRoots, finalizeRoots,
    finalizeStep, mergeRootsInto, hasInfo, setIsRoot, markBacktracking, touch, getInfo, setInfo,
    findInfo, createInfoOfUser, inheritedMetadata, extractGEPIMetadata, gepiWalk,
    candidateDistance, isAnnotationGlobal, eraseLoop, findOrErase, insertAt, exampleExt,
    annotated, scalarMD, orEnable, unwrapTy, distOf, isRootOf, rootsOf, Kind.isGlobalObject,
    Kind.isPHINode, Kind.isInstruction, Kind.isStoreInst, Kind.isUser, Kind.isArgument,
    Kind.isFunction, Kind.isBlockAddress, Ty.isStructTy, Ty.isFloatingPointTy,
    Ty.isSequentialTy, MDInfo.clone, MDInfo.isInputInfo, MDInfo.enabled, MDInfo.setEnabled, runOnModule, generateFunctionSpace, createFunctionAndQueue, seedArgument,
    setMetadataOfValue, reattachStep, removeAnnotationCalls, readLocalAnnotations,
    readLocalAnnotation, parseAnnotation, storeSeeded, Prog.toModule, Prog.usersOf, Prog.insts,
    Prog.findInst, Prog.findFunc, Prog.findParam, Prog.findOther, Prog.parentOf,
    Prog.updateInst, Prog.setCalledFunction, Prog.cloneFunction, Prog.cloneMap, Prog.remap,
    Inst.operands, Inst.calledFunction, Kind.isCallOrInvoke, allocaInst, floatInst, storeInst,
    callInst, exampleEnv, List.enum, List.enumFrom, specializeCall]) (by simp [runOnModule, generateFunctionSpace, createFunctionAndQueue, seedArgument,
    setMetadataOfValue, reattachStep, removeAnnotationCalls, readLocalAnnotations,
    readLocalAnnotation, parseAnnotation, storeSeeded, Prog.toModule, Prog.usersOf, Prog.insts,
    Prog.findInst, Prog.findFunc, Prog.findParam, Prog.findOther, Prog.parentOf,
    Prog.updateInst, Prog.setCalledFunction, Prog.cloneFunction, Prog.cloneMap, Prog.remap,
    Inst.operands, Inst.calledFunction, Kind.isCallOrInvoke, allocaInst, floatInst, storeInst,
    callInst, exampleEnv, List.enum, List.enumFrom, specializeCall]) (by simp [runOnModule, generateFunctionSpace, createFunctionAndQueue, seedArgument,
    setMetadataOfValue, reattachStep, removeAnnotationCalls, readLocalAnnotations,
    readLocalAnnotation, parseAnnotation, storeSeeded, Prog.toModule, Prog.usersOf, Prog.insts,
    Prog.findInst, Prog.findFunc, Prog.findParam, Prog.findOther, Prog.parentOf,
    Prog.updateInst, Prog.setCalledFunction, Prog.cloneFunction, Prog.cloneMap, Prog.remap,
    Inst.operands, Inst.calledFunction, Kind.isCallOrInvoke, allocaInst, floatInst, storeInst,
    callInst, exampleEnv, List.enum, List.enumFrom, specializeCall, recursiveTop])
      (by simp) hst⟩

set_option maxHeartbeats 4000000 in
/-- C11 fails as stated: on `recursiveProg`, `runOnModule` calls
`generateFunctionSpace` with the queue 1, 2, 3 and an empty call trace; the visit of
the call 3 clones `f` (clone 300) and enters the recursion with the call trace 300, 200
and the clone's queue, in which every instruction is listed twice. When that level has
worked through the first four entries, up to the first visit of the recursive call 305,
where the guard stops the descent, two clones of `f` exist: the second one, 307, has
been made for the recursive call before the guard was tested. -/
theorem recursive_call_is_cloned_before_guard :
    (∀ fuel, runOnModule (exampleEnv 20) fuel [1] recursiveStart
      = generateFunctionSpace (exampleEnv 20) fuel [1, 2, 3] [] recursiveTop) ∧
    ∃ st, forEachRes
        (specializeCall (exampleEnv 20)
          (fun vals callTrace s =>
            if vals = [302, 303, 304, 305, 306, 302, 303, 304, 305, 306]
                ∧ callTrace = [300, 200] then
              generateFunctionSpace (exampleEnv 20) 1 (vals.take 4) callTrace s
            else .crash) [])
        [1, 2, 3] recursiveTop = .ok st ∧
      st.functionCloned = 2 ∧
      (st.prog.findFunc 300).isSome = true ∧ (st.prog.findFunc 307).isSome = true ∧
      (st.prog.findInst 3).map Inst.calledFunction = some (some 300) ∧
      (st.prog.findInst 305).map Inst.calledFunction = some (some 307) := by
  constructor
  · intro fuel
    simp [buildConversionQueueForRootValues, buildLoop, forwardLoop, backwardLoop,
    forEachRes, forwardUser, backtrackOperand, initialState, seedRoots, finalizeRoots,
    finalizeStep, mergeRootsInto, hasInfo, setIsRoot, markBacktracking, touch, getInfo, setInfo,
    findInfo, createInfoOfUser, inheritedMetadata, extractGEPIMetadata, gepiWalk,
    candidateDistance, isAnnotationGlobal, eraseLoop, findOrErase, insertAt, exampleExt,
    annotated, scalarMD, orEnable, unwrapTy, distOf, isRootOf, rootsOf, Kind.isGlobalObject,
    Kind.isPHINode, Kind.isInstruction, Kind.isStoreInst, Kind.isUser, Kind.isArgument,
    Kind.isFunction, Kind.isBlockAddress, Ty.isStructTy, Ty.isFloatingPointTy,
    Ty.isSequentialTy, MDInfo.clone, MDInfo.isInputInfo, MDInfo.enabled, MDInfo.setEnabled, runOnModule, generateFunctionSpace, createFunctionAndQueue, seedArgument,
    setMetadataOfValue, reattachStep, removeAnnotationCalls, readLocalAnnotations,
    readLocalAnnotation, parseAnnotation, storeSeeded, Prog.toModule, Prog.usersOf, Prog.insts,
    Prog.findInst, Prog.findFunc, Prog.findParam, Prog.findOther, Prog.parentOf,
    Prog.updateInst, Prog.setCalledFunction, Prog.cloneFunction, Prog.cloneMap, Prog.remap,
    Inst.operands, Inst.calledFunction, Kind.isCallOrInvoke, allocaInst, floatInst, storeInst,
    callInst, exampleEnv, List.enum, List.enumFrom, specializeCall, recursiveStart, recursiveProg, recursiveTop]
  · simp [buildConversionQueueForRootValues, buildLoop, forwardLoop, backwardLoop,
    forEachRes, forwardUser, backtrackOperand, initialState, seedRoots, finalizeRoots,
    finalizeStep, mergeRootsInto, hasInfo, setIsRoot, markBacktracking, touch, getInfo, setInfo,
    findInfo, createInfoOfUser, inheritedMetadata, extractGEPIMetadata, gepiWalk,
    candidateDistance, isAnnotationGlobal, eraseLoop, findOrErase, insertAt, exampleExt,
    annotated, scalarMD, orEnable, unwrapTy, distOf, isRootOf, rootsOf, Kind.isGlobalObject,
    Kind.isPHINode, Kind.isInstruction, Kind.isStoreInst, Kind.isUser, Kind.isArgument,
    Kind.isFunction, Kind.isBlockAddress, Ty.isStructTy, Ty.isFloatingPointTy,
    Ty.isSequentialTy, MDInfo.clone, MDInfo.isInputInfo, MDInfo.enabled, MDInfo.setEnabled, runOnModule, generateFunctionSpace, createFunctionAndQueue, seedArgument,
    setMetadataOfValue, reattachStep, removeAnnotationCalls, readLocalAnnotations,
    readLocalAnnotation, parseAnnotation, storeSeeded, Prog.toModule, Prog.usersOf, Prog.insts,
    Prog.findInst, Prog.findFunc, Prog.findParam, Prog.findOther, Prog.parentOf,
    Prog.updateInst, Prog.setCalledFunction, Prog.cloneFunction, Prog.cloneMap, Prog.remap,
    Inst.operands, Inst.calledFunction, Kind.isCallOrInvoke, allocaInst, floatInst, storeInst,
    callInst, exampleEnv, List.enum, List.enumFrom, specializeCall, recursiveTop]

/-! ## Field-access decomposition -/

theorem gepiWalk_meetsNonConstantIndex (M : Module) (l : List (Option Int)) (ty : Ty)
    (mdi : Option MDInfo) (h : MeetsNonConstantIndex M l ty mdi) :
    gepiWalk M l ty mdi = .ok none := by
  induction h with
  | here rest ty mdi hseq =>
    unfold gepiWalk
    simp [hseq]
  | field n rest id fields h0 h1 h2 _ ih =>
    unfold gepiWalk
    simp only [Ty.isSequentialTy, Bool.false_eq_true, if_false, h0, h1, h2, and_self, if_true,
      ih]

/-- C12, amended: a non-constant index is recovered locally. When the propagation rule
overwrites, the producer `p` has a Struct descriptor, a direct copy is not allowed, the
consumer `u` is a field access whose pointer operand is `p`, and the index loop reaches
an index that is not a constant integer after constant indices that fit the descriptor,
then `extractGEPIMetadata` answers "no metadata" and the step succeeds: `u` is assigned
the descriptor built from its static type, or the unknown Scalar with conversion
enabled when none is derivable. -/
theorem nonconstant_index_gets_default_descriptor (E : Ext) (M : Module) (info : Table)
    (p u : Value) (fs : List (Option MDInfo)) (srcTy : Ty) (i0 : Option Int)
    (rest : List (Option Int))
    (hfar : ¬ (getInfo E info u).fixpTypeRootDistance
      ≤ candidateDistance E (getInfo E info p).fixpTypeRootDistance)
    (hmd : (getInfo E info p).metadata = some (.structInfo fs))
    (hcopy : ((E.fullyUnwrapPointerOrArrayType (M.type p)
        == E.fullyUnwrapPointerOrArrayType (M.type u))
      || ((!(E.fullyUnwrapPointerOrArrayType (M.type p)).isStructTy
          && !(E.fullyUnwrapPointerOrArrayType (M.type u)).isStructTy)
        || (M.kind u).isStoreInst)) = false)
    (hkind : M.kind u = .gep srcTy (i0 :: rest)) (hop : (M.operands u).head? = some p)
    (hmeets : MeetsNonConstantIndex M rest srcTy (some (.structInfo fs))) :
    extractGEPIMetadata M u p (some (.structInfo fs)) = .ok none ∧
    ∃ info', createInfoOfUser E M info p u = .ok info' ∧
      (getInfo E info' u).metadata
        = some ((E.constructFromLLVMType (E.fullyUnwrapPointerOrArrayType (M.type u))).getD
            (.inputInfo none none none true)) := by
  have hex : extractGEPIMetadata M u p (some (.structInfo fs)) = .ok none := by
    unfold extractGEPIMetadata
    simp [hkind, hop, gepiWalk_meetsNonConstantIndex M rest srcTy _ hmeets]
  refine ⟨hex, ?_⟩
  have hinh : inheritedMetadata E M p u (some (.structInfo fs))
      = .ok (some ((E.constructFromLLVMType (E.fullyUnwrapPointerOrArrayType (M.type u))).getD
          (.inputInfo none none none true))) := by
    unfold inheritedMetadata
    simp only [hcopy, Bool.false_eq_true, if_false, hex]
    cases E.constructFromLLVMType (E.fullyUnwrapPointerOrArrayType (M.type u)) <;> rfl
  rw [createInfoOfUser_overwrite E M info p u hfar, hmd, hinh]
  refine ⟨_, rfl, ?_⟩
  rw [getInfo_setInfo_same]
  simp [orEnable, MDInfo.isInputInfo]

theorem nonconstant_index_gets_default_descriptor_witness :
    extractGEPIMetadata nestedModule 2 0
        (some (.structInfo [some (scalarMD false), some (scalarMD false)])) = .ok none ∧
    ∃ info', createInfoOfUser exampleExt nestedModule nestedTable 0 2 = .ok info' ∧
      (getInfo exampleExt info' 2).metadata = some (.inputInfo none none none true) := by
  have h := nonconstant_index_gets_default_descriptor exampleExt nestedModule nestedTable 0 2
    [some (scalarMD false), some (scalarMD false)] (.struct 0) (some 0) [none]
    (by decide) rfl (by decide) rfl rfl (MeetsNonConstantIndex.here [] _ _ rfl)
  exact h

/-- C12 fails as stated: the aggregate 0 of `nestedModule` carries a Struct descriptor
whose first child is a Scalar, while the first field of its struct type is itself a
struct. For the field access 1 (indices 0, 0, 1) the rule overwrites and a direct copy
is not allowed; the index loop takes the Scalar child at the first constant index and
fails at the next one, where it casts that child to a Struct descriptor: neither
`extractGEPIMetadata` nor the propagation step returns, both fail at that cast. -/
theorem shape_mismatch_is_not_recovered :
    (getInfo exampleExt nestedTable 0).metadata
      = some (.structInfo [some (scalarMD false), some (scalarMD false)]) ∧
    ¬ (getInfo exampleExt nestedTable 1).fixpTypeRootDistance
      ≤ candidateDistance exampleExt (getInfo exampleExt nestedTable 0).fixpTypeRootDistance ∧
    extractGEPIMetadata nestedModule 1 0
      (some (.structInfo [some (scalarMD false), some (scalarMD false)])) = .crash ∧
    createInfoOfUser exampleExt nestedModule nestedTable 0 1 = .crash := by
  refine ⟨rfl, by decide, ?_, ?_⟩ <;>
    simp [buildConversionQueueForRootValues, buildLoop, forwardLoop, backwardLoop,
    forEachRes, forwardUser, backtrackOperand, initialState, seedRoots, finalizeRoots,
    finalizeStep, mergeRootsInto, hasInfo, setIsRoot, markBacktracking, touch, getInfo, setInfo,
    findInfo, createInfoOfUser, inheritedMetadata, extractGEPIMetadata, gepiWalk,
    candidateDistance, isAnnotationGlobal, eraseLoop, findOrErase, insertAt, exampleExt,
    annotated, scalarMD, orEnable, unwrapTy, distOf, isRootOf, rootsOf, Kind.isGlobalObject,
    Kind.isPHINode, Kind.isInstruction, Kind.isStoreInst, Kind.isUser, Kind.isArgument,
    Kind.isFunction, Kind.isBlockAddress, Ty.isStructTy, Ty.isFloatingPointTy,
    Ty.isSequentialTy, MDInfo.clone, MDInfo.isInputInfo, MDInfo.enabled, MDInfo.setEnabled, nestedModule, nestedTable]

/-! ## Seeding from annotations -/

/-- C13: for an annotation record that the parser accepts with a descriptor,
`parseAnnotation` seeds by the shape of the annotated value. There is one `ValueInfo`,
with root distance 0 and the descriptor and target of the record, such that: for an
instruction, operand 0 of the instruction is the only value seeded; for a function, the
values seeded are the users of the function that are calls or invokes, each with that
`ValueInfo`, and the function is not among them; for any other value, the value itself
is the only value seeded. -/
theorem parseAnnotation_seeds_by_shape (E : Ext) (P : Prog) (a : ParsedAnnotation)
    (md : MDInfo) (instr : Value) (hmd : a.metadata = some md) :
    ∃ vi : ValueInfo,
      vi.fixpTypeRootDistance = 0 ∧ vi.metadata = some md ∧ vi.target = a.target ∧
      (∀ toconv root, P.findInst instr = some toconv → toconv.operands.head? = some root →
        parseAnnotation E P (some a) instr
          = .ok (some (⟨[(root, vi)], [], a.startingPoint⟩ : Seeded))) ∧
      (P.findInst instr = none → (P.findFunc instr).isSome = true →
        ∃ r : Seeded, parseAnnotation E P (some a) instr = .ok (some r) ∧
          (∀ e ∈ r.seeds, e.2 = vi) ∧
          (∀ u, u ∈ r.seeds.map (fun e => e.1)
            ↔ u ∈ P.usersOf instr ∧ (P.toModule.kind u).isCallOrInvoke = true) ∧
          instr ∉ r.seeds.map (fun e => e.1)) ∧
      (P.findInst instr = none → P.findFunc instr = none →
        parseAnnotation E P (some a) instr
          = .ok (some (⟨[(instr, vi)], [], a.startingPoint⟩ : Seeded))) := by
  refine ⟨{ E.fresh with
            fixpTypeRootDistance := 0
            backtrackingDepthLeft := if !a.backtracking then 0 else a.backtrackingDepth
            metadata := some md
            target := a.target }, rfl, rfl, rfl, ?_, ?_, ?_⟩
  · intro toconv root hi hroot
    unfold parseAnnotation
    simp only [hmd, hi, hroot]
  · intro hi hf
    cases hfn : P.findFunc instr with
    | none => rw [hfn] at hf; cases hf
    | some f =>
      refine ⟨⟨((P.usersOf instr).filter (fun u => (P.toModule.kind u).isCallOrInvoke)).map
          (fun u => (u,
            ({ E.fresh with
               fixpTypeRootDistance := 0
               backtrackingDepthLeft := if !a.backtracking then 0 else a.backtrackingDepth
               metadata := some md
               target := a.target } : ValueInfo))),
        [instr], a.startingPoint⟩, ?_, ?_, ?_, ?_⟩
      · unfold parseAnnotation
        simp only [hmd, hi, hfn]
      · intro e he
        simp only [List.mem_map] at he
        obtain ⟨u, -, rfl⟩ := he
        rfl
      · intro u
        simp only [List.map_map, List.mem_map, List.mem_filter, Function.comp]
        constructor
        · rintro ⟨w, hw, rfl⟩
          exact hw
        · intro hu
          exact ⟨u, hu, rfl⟩
      · simp only [List.map_map, List.mem_map, List.mem_filter, Function.comp]
        rintro ⟨w, ⟨-, hk⟩, rfl⟩
        have hkind : (P.toModule.kind w).isCallOrInvoke = false := by
          simp only [Prog.toModule, hi, hfn]
          cases P.findParam w <;> rfl
        rw [hkind] at hk
        cases hk
  · intro hi hf
    unfold parseAnnotation
    simp only [hmd, hi, hf]

theorem parseAnnotation_seeds_by_shape_witness :
    (∃ vi : ValueInfo,
      vi.fixpTypeRootDistance = 0 ∧ vi.metadata = some (scalarMD false) ∧ vi.target = none ∧
      parseAnnotation exampleExt recursiveProg
          (some ⟨some (scalarMD false), none, false, 0, false⟩) 2
        = .ok (some (⟨[(1, vi)], [], false⟩ : Seeded))) ∧
    (∃ (vi : ValueInfo) (r : Seeded),
      vi.fixpTypeRootDistance = 0 ∧ vi.metadata = some (scalarMD false) ∧
      parseAnnotation exampleExt recursiveProg
          (some ⟨some (scalarMD false), none, false, 0, false⟩) 200 = .ok (some r) ∧
      (∀ e ∈ r.seeds, e.2 = vi) ∧ 3 ∈ r.seeds.map (fun e => e.1) ∧
      14 ∈ r.seeds.map (fun e => e.1) ∧ 200 ∉ r.seeds.map (fun e => e.1)) := by
  constructor
  · obtain ⟨vi, h1, h2, h3, hI, -, -⟩ :=
      parseAnnotation_seeds_by_shape exampleExt recursiveProg
        ⟨some (scalarMD false), none, false, 0, false⟩ (scalarMD false) 2 rfl
    exact ⟨vi, h1, h2, h3, hI (floatInst 2 [1]) 1 (by simp [runOnModule, generateFunctionSpace, createFunctionAndQueue, seedArgument,
    setMetadataOfValue, reattachStep, removeAnnotationCalls, readLocalAnnotations,
    readLocalAnnotation, parseAnnotation, storeSeeded, Prog.toModule, Prog.usersOf, Prog.insts,
    Prog.findInst, Prog.findFunc, Prog.findParam, Prog.findOther, Prog.parentOf,
    Prog.updateInst, Prog.setCalledFunction, Prog.cloneFunction, Prog.cloneMap, Prog.remap,
    Inst.operands, Inst.calledFunction, Kind.isCallOrInvoke, allocaInst, floatInst, storeInst,
    callInst, exampleEnv, List.enum, List.enumFrom, specializeCall, recursiveProg])
      (by simp [runOnModule, generateFunctionSpace, createFunctionAndQueue, seedArgument,
    setMetadataOfValue, reattachStep, removeAnnotationCalls, readLocalAnnotations,
    readLocalAnnotation, parseAnnotation, storeSeeded, Prog.toModule, Prog.usersOf, Prog.insts,
    Prog.findInst, Prog.findFunc, Prog.findParam, Prog.findOther, Prog.parentOf,
    Prog.updateInst, Prog.setCalledFunction, Prog.cloneFunction, Prog.cloneMap, Prog.remap,
    Inst.operands, Inst.calledFunction, Kind.isCallOrInvoke, allocaInst, floatInst, storeInst,
    callInst, exampleEnv, List.enum, List.enumFrom, specializeCall])⟩
  · obtain ⟨vi, h1, h2, -, -, hF, -⟩ :=
      parseAnnotation_seeds_by_shape exampleExt recursiveProg
        ⟨some (scalarMD false), none, false, 0, false⟩ (scalarMD false) 200 rfl
    obtain ⟨r, hr, hall, hiff, hnot⟩ := hF (by simp [runOnModule, generateFunctionSpace, createFunctionAndQueue, seedArgument,
    setMetadataOfValue, reattachStep, removeAnnotationCalls, readLocalAnnotations,
    readLocalAnnotation, parseAnnotation, storeSeeded, Prog.toModule, Prog.usersOf, Prog.insts,
    Prog.findInst, Prog.findFunc, Prog.findParam, Prog.findOther, Prog.parentOf,
    Prog.updateInst, Prog.setCalledFunction, Prog.cloneFunction, Prog.cloneMap, Prog.remap,
    Inst.operands, Inst.calledFunction, Kind.isCallOrInvoke, allocaInst, floatInst, storeInst,
    callInst, exampleEnv, List.enum, List.enumFrom, specializeCall, recursiveProg])
      (by simp [runOnModule, generateFunctionSpace, createFunctionAndQueue, seedArgument,
    setMetadataOfValue, reattachStep, removeAnnotationCalls, readLocalAnnotations,
    readLocalAnnotation, parseAnnotation, storeSeeded, Prog.toModule, Prog.usersOf, Prog.insts,
    Prog.findInst, Prog.findFunc, Prog.findParam, Prog.findOther, Prog.parentOf,
    Prog.updateInst, Prog.setCalledFunction, Prog.cloneFunction, Prog.cloneMap, Prog.remap,
    Inst.operands, Inst.calledFunction, Kind.isCallOrInvoke, allocaInst, floatInst, storeInst,
    callInst, exampleEnv, List.enum, List.enumFrom, specializeCall, recursiveProg])
    exact ⟨vi, r, h1, h2, hr, hall,
      (hiff 3).2 (by simp [runOnModule, generateFunctionSpace, createFunctionAndQueue, seedArgument,
    setMetadataOfValue, reattachStep, removeAnnotationCalls, readLocalAnnotations,
    readLocalAnnotation, parseAnnotation, storeSeeded, Prog.toModule, Prog.usersOf, Prog.insts,
    Prog.findInst, Prog.findFunc, Prog.findParam, Prog.findOther, Prog.parentOf,
    Prog.updateInst, Prog.setCalledFunction, Prog.cloneFunction, Prog.cloneMap, Prog.remap,
    Inst.operands, Inst.calledFunction, Kind.isCallOrInvoke, allocaInst, floatInst, storeInst,
    callInst, exampleEnv, List.enum, List.enumFrom, specializeCall, recursiveProg]),
      (hiff 14).2 (by simp [runOnModule, generateFunctionSpace, createFunctionAndQueue, seedArgument,
    setMetadataOfValue, reattachStep, removeAnnotationCalls, readLocalAnnotations,
    readLocalAnnotation, parseAnnotation, storeSeeded, Prog.toModule, Prog.usersOf, Prog.insts,
    Prog.findInst, Prog.findFunc, Prog.findParam, Prog.findOther, Prog.parentOf,
    Prog.updateInst, Prog.setCalledFunction, Prog.cloneFunction, Prog.cloneMap, Prog.remap,
    Inst.operands, Inst.calledFunction, Kind.isCallOrInvoke, allocaInst, floatInst, storeInst,
    callInst, exampleEnv, List.enum, List.enumFrom, specializeCall, recursiveProg]), hnot⟩

/-! ## Filtering of the annotated values -/

theorem foldl_erase_mem (M : Module) (l : List (Value × ValueInfo)) :
    ∀ (acc : List (Value × ValueInfo)) (e : Value × ValueInfo),
    e ∈ l.foldl
        (fun acc e => if keepsEntry M e.1 then acc else acc.filter (fun x => x.1 != e.1)) acc
      ↔ e ∈ acc ∧ ∀ x ∈ l, x.1 = e.1 → keepsEntry M x.1 = true := by
  induction l with
  | nil => intro acc e; simp
  | cons y ys ih =>
    intro acc e
    simp only [List.foldl, ih, List.mem_cons, forall_eq_or_imp]
    by_cases hk : keepsEntry M y.1 = true
    · simp only [hk, if_true, implies_true, true_and]
    · simp only [hk, Bool.false_eq_true, if_false, List.mem_filter, bne_iff_ne, ne_eq, imp_false]
      constructor
      · rintro ⟨⟨h1, h2⟩, h3⟩
        exact ⟨h1, fun h => h2 h.symm, h3⟩
      · rintro ⟨h1, h2, h3⟩
        exact ⟨⟨h1, fun h => h2 h.symm⟩, h3⟩

theorem mem_removeNoFloatTy (M : Module) (res : List (Value × ValueInfo))
    (e : Value × ValueInfo) :
    e ∈ removeNoFloatTy M res ↔ e ∈ res ∧ keepsEntry M e.1 = true := by
  unfold removeNoFloatTy
  rw [foldl_erase_mem]
  constructor
  · rintro ⟨h1, h2⟩
    exact ⟨h1, h2 e h1 rfl⟩
  · rintro ⟨h1, h2⟩
    exact ⟨h1, fun x _ hx => hx ▸ h2⟩

/-- C14, amended: what `removeNoFloatTy` leaves of a set of annotated values. An entry
of the set that is an `alloca` stays exactly when its allocated type, with every
pointer and array layer stripped, is a floating-point type (so an `alloca` of a struct
type goes); an entry that is a global variable stays exactly when its type, stripped
likewise, is a floating-point type; an entry that is a call or invoke stays exactly
when its type is void or, stripped, a floating-point type; every other entry goes,
whatever its type. -/
theorem removeNoFloatTy_keeps_exactly (M : Module) (res : List (Value × ValueInfo))
    (e : Value × ValueInfo) (he : e ∈ res) :
    (∀ ty, M.kind e.1 = .alloca ty →
      (e ∈ removeNoFloatTy M res ↔ (unwrapTy ty).isFloatingPointTy = true)) ∧
    (∀ ty id, M.kind e.1 = .alloca ty → unwrapTy ty = .struct id →
      e ∉ removeNoFloatTy M res) ∧
    (M.kind e.1 = .globalVariable →
      (e ∈ removeNoFloatTy M res ↔ (unwrapTy (M.type e.1)).isFloatingPointTy = true)) ∧
    ((M.kind e.1).isCallOrInvoke = true →
      (e ∈ removeNoFloatTy M res ↔
        (M.type e.1).isVoidTy = true ∨ (unwrapTy (M.type e.1)).isFloatingPointTy = true)) ∧
    ((∀ ty, M.kind e.1 ≠ .alloca ty) → M.kind e.1 ≠ .globalVariable →
      (M.kind e.1).isCallOrInvoke = false → e ∉ removeNoFloatTy M res) := by
  refine ⟨?_, ?_, ?_, ?_, ?_⟩
  · intro ty hk
    rw [mem_removeNoFloatTy]
    simp only [he, true_and, keepsEntry, hk]
  · intro ty id hk hs
    rw [mem_removeNoFloatTy]
    simp only [he, true_and, keepsEntry, hk, hs, Ty.isFloatingPointTy, Bool.false_eq_true,
      not_false_eq_true]
  · intro hk
    rw [mem_removeNoFloatTy]
    simp only [he, true_and, keepsEntry, hk]
  · intro hk
    rw [mem_removeNoFloatTy]
    cases hkind : M.kind e.1 <;> rw [hkind] at hk <;>
      simp only [Kind.isCallOrInvoke, Bool.false_eq_true] at hk <;>
      simp only [he, true_and, keepsEntry, hkind, Bool.or_eq_true]
  · intro h1 h2 h3
    rw [mem_removeNoFloatTy]
    cases hkind : M.kind e.1 <;> rw [hkind] at h3 <;>
      simp only [Kind.isCallOrInvoke, Bool.true_eq_false] at h3 <;>
      simp only [he, true_and, keepsEntry, hkind, Bool.false_eq_true, not_false_eq_true]
    · exact absurd hkind h2
    · exact absurd hkind (h1 _)

theorem removeNoFloatTy_keeps_exactly_witness :
    ((0 : Value), annotated (scalarMD false) 0) ∈ pixelScalarTable ∧
    (0, annotated (scalarMD false) 0) ∉ removeNoFloatTy pixelModule pixelScalarTable := by
  have he : ((0 : Value), annotated (scalarMD false) 0) ∈ pixelScalarTable := by
    simp [pixelScalarTable]
  exact ⟨he, (removeNoFloatTy_keeps_exactly pixelModule pixelScalarTable
    (0, annotated (scalarMD false) 0) he).2.1 (.struct 7) 7 rfl rfl⟩

/-- C14 fails as stated: the entry 0 of `pairModule` is a float instruction that is
neither an `alloca` nor a global variable nor a call; `removeNoFloatTy` erases it
although its type is a floating-point type. -/
theorem float_entry_removed_when_not_alloca_or_global :
    (pairModule.type 0).isFloatingPointTy = true ∧
    removeNoFloatTy pairModule [(0, annotated (scalarMD false) 0)] = [] := by
  constructor
  · rfl
  · simp [removeNoFloatTy, keepsEntry, pairModule]

/-! ## Direction of the rule in the backtracking phase -/

theorem payload_markBacktracking (E : Ext) (info : Table) (x n : Value) :
    (getInfo E (markBacktracking E info x) n).metadata = (getInfo E info n).metadata ∧
    (getInfo E (markBacktracking E info x) n).target = (getInfo E info n).target := by
  rw [getInfo_markBacktracking]
  split_ifs with h
  · subst h; exact ⟨rfl, rfl⟩
  · exact ⟨rfl, rfl⟩

theorem payload_setIsRoot (E : Ext) (info : Table) (x n : Value) (b : Bool) :
    (getInfo E (setIsRoot E info x b) n).metadata = (getInfo E info n).metadata ∧
    (getInfo E (setIsRoot E info x b) n).target = (getInfo E info n).target := by
  rw [getInfo_setIsRoot]
  split_ifs with h
  · subst h; exact ⟨rfl, rfl⟩
  · exact ⟨rfl, rfl⟩

/-- C15, amended: in the backtracking phase the rule is run from the node to its
operand. When the loop over the operands of the backtracking node `v` handles an
eligible operand `u` (a user or argument that is no function or block address, of
floating-point type) and the step succeeds, `u` is the receiver: its root distance is
at most that of `v` plus one; when `u` was farther than the candidate distance of `v`
it now has that distance and the target of `v`; and descriptor, target and root
distance of `v` are what they were, unless `u` is `v` itself. -/
theorem backtracking_runs_rule_from_node_to_operand (E : Ext) (M : Module) (v u : Value)
    (st st' : BuildState × Nat)
    (hord : (!(M.kind u).isUser && !(M.kind u).isArgument) = false)
    (hfun : ((M.kind u).isFunction || (M.kind u).isBlockAddress) = false)
    (hfloat : E.isFloatType (M.type u) = true)
    (h : backtrackOperand E M v st u = .ok st') :
    distOf E st'.1.info u ≤ distOf E st.1.info v + 1 ∧
    (¬ distOf E st.1.info u ≤ candidateDistance E (distOf E st.1.info v) →
      distOf E st'.1.info u = candidateDistance E (distOf E st.1.info v) ∧
      (getInfo E st'.1.info u).target = (getInfo E st.1.info v).target) ∧
    (u ≠ v →
      (getInfo E st'.1.info v).metadata = (getInfo E st.1.info v).metadata ∧
      (getInfo E st'.1.info v).target = (getInfo E st.1.info v).target ∧
      distOf E st'.1.info v = distOf E st.1.info v) := by
  have hinfo3 : ∃ info3, createInfoOfUser E M info3 v u = .ok st'.1.info ∧
      (∀ n, distOf E info3 n = distOf E st.1.info n) ∧
      (∀ n, (getInfo E info3 n).metadata = (getInfo E st.1.info n).metadata ∧
        (getInfo E info3 n).target = (getInfo E st.1.info n).target) := by
    unfold backtrackOperand at h
    simp only [hord, hfun, hfloat, Bool.false_eq_true, if_false, Bool.not_true] at h
    split at h
    · rename_i info4 hc
      simp only [Res.ok.injEq] at h
      subst h
      refine ⟨_, hc, ?_, ?_⟩
      · intro n
        split_ifs
        · rw [distOf_markBacktracking, distOf_setIsRoot]
        · rw [distOf_setIsRoot, distOf_markBacktracking, distOf_setIsRoot]
      · intro n
        split_ifs
        · have a := payload_markBacktracking E (setIsRoot E st.1.info v false) u n
          have b := payload_setIsRoot E st.1.info v n false
          exact ⟨a.1.trans b.1, a.2.trans b.2⟩
        · have c := payload_setIsRoot E
            (markBacktracking E (setIsRoot E st.1.info v false) u) u n true
          have a := payload_markBacktracking E (setIsRoot E st.1.info v false) u n
          have b := payload_setIsRoot E st.1.info v n false
          exact ⟨c.1.trans (a.1.trans b.1), c.2.trans (a.2.trans b.2)⟩
    · cases h
    · cases h
  obtain ⟨info3, hc, hd, hp⟩ := hinfo3
  refine ⟨?_, ?_, ?_⟩
  · have := (createInfoOfUser_dist E M info3 st'.1.info v u hc).2
    rw [hd v] at this
    exact le_trans this (candidateDistance_le E _)
  · intro hfar
    have hfar3 : ¬ (getInfo E info3 u).fixpTypeRootDistance
        ≤ candidateDistance E (getInfo E info3 v).fixpTypeRootDistance := by
      have h1 := hd u
      have h2 := hd v
      unfold distOf at h1 h2 hfar
      rw [h1, h2]
      exact hfar
    rw [createInfoOfUser_overwrite E M info3 v u hfar3] at hc
    split at hc
    · simp only [Res.ok.injEq] at hc
      rw [← hc]
      unfold distOf
      rw [getInfo_setInfo_same]
      have h2 := hd v
      unfold distOf at h2
      exact ⟨by simp only [h2], (hp v).2⟩
    · cases hc
    · cases hc
  · intro huv
    obtain ⟨md, tg, d, hinfo', -, -⟩ := createInfoOfUser_ok E M info3 st'.1.info v u hc
    have hv : getInfo E st'.1.info v = getInfo E info3 v := by
      rw [hinfo', getInfo_setInfo_ne E _ u v _ (Ne.symm huv), getInfo_touch, getInfo_touch]
    have h2 := hd v
    unfold distOf at h2 ⊢
    rw [hv]
    exact ⟨(hp v).1, (hp v).2, h2⟩

theorem backtracking_runs_rule_from_node_to_operand_witness :
    ∃ st', backtrackOperand exampleExt pairModule 1
        (initialState exampleExt [1] [] backtrackingPairTable, 1) 0 = .ok st' ∧
      distOf exampleExt st'.1.info 0 ≤ 0 + 1 ∧
      (getInfo exampleExt st'.1.info 1).metadata = some (rangeMD 1) := by
  have hex : ∃ st', backtrackOperand exampleExt pairModule 1
      (initialState exampleExt [1] [] backtrackingPairTable, 1) 0 = .ok st' := by
    simp [buildConversionQueueForRootValues, buildLoop, forwardLoop, backwardLoop,
    forEachRes, forwardUser, backtrackOperand, initialState, seedRoots, finalizeRoots,
    finalizeStep, mergeRootsInto, hasInfo, setIsRoot, markBacktracking, touch, getInfo, setInfo,
    findInfo, createInfoOfUser, inheritedMetadata, extractGEPIMetadata, gepiWalk,
    candidateDistance, isAnnotationGlobal, eraseLoop, findOrErase, insertAt, exampleExt,
    annotated, scalarMD, orEnable, unwrapTy, distOf, isRootOf, rootsOf, Kind.isGlobalObject,
    Kind.isPHINode, Kind.isInstruction, Kind.isStoreInst, Kind.isUser, Kind.isArgument,
    Kind.isFunction, Kind.isBlockAddress, Ty.isStructTy, Ty.isFloatingPointTy,
    Ty.isSequentialTy, MDInfo.clone, MDInfo.isInputInfo, MDInfo.enabled, MDInfo.setEnabled, pairModule, backtrackingPairTable, rangeMD]
  obtain ⟨st', hst⟩ := hex
  obtain ⟨h1, -, h3⟩ := backtracking_runs_rule_from_node_to_operand exampleExt pairModule 1 0
    (initialState exampleExt [1] [] backtrackingPairTable, 1) st' (by decide) (by decide)
    (by decide) hst
  exact ⟨st', hst, h1, (h3 (by decide)).1⟩

/-- C15 fails as stated. In `pairModule` the backtracking node 1 (annotated, range
`[0, 1]`) has the operand 0, which has no entry: the build runs the rule from 1 to 0,
and 0 ends with the descriptor of 1 at distance 1. In `staleModule` with both
annotations backtracking, the scan runs the rule from the PHI node 4, then at distance
3, to its operand 3; 3 is not a user of 4, and the build ends with 4 still at distance
3 while 3 is at distance 1: the node did not inherit from its operand, and its
distance is larger than that of the operand plus one. -/
theorem backtracking_node_does_not_inherit_from_operand :
    (∃ s, buildConversionQueueForRootValues exampleExt pairModule 6 [1] []
          backtrackingPairTable = .ok s ∧
        (1, 0, 0) ∈ s.propagated ∧
        (getInfo exampleExt backtrackingPairTable 0).metadata = none ∧
        (getInfo exampleExt s.info 0).metadata = some (rangeMD 1) ∧
        distOf exampleExt s.info 0 = 1) ∧
    (∃ s, buildConversionQueueForRootValues exampleExt staleModule 12 [0, 1] []
          staleBacktrackingTable = .ok s ∧
        (4, 3, 3) ∈ s.propagated ∧ 3 ∈ staleModule.operands 4 ∧ 3 ∉ staleModule.users 4 ∧
        distOf exampleExt s.info 4 = 3 ∧ distOf exampleExt s.info 3 = 1 ∧
        ¬ distOf exampleExt s.info 4 ≤ distOf exampleExt s.info 3 + 1) := by
  constructor
  · simp [buildConversionQueueForRootValues, buildLoop, forwardLoop, backwardLoop,
    forEachRes, forwardUser, backtrackOperand, initialState, seedRoots, finalizeRoots,
    finalizeStep, mergeRootsInto, hasInfo, setIsRoot, markBacktracking, touch, getInfo, setInfo,
    findInfo, createInfoOfUser, inheritedMetadata, extractGEPIMetadata, gepiWalk,
    candidateDistance, isAnnotationGlobal, eraseLoop, findOrErase, insertAt, exampleExt,
    annotated, scalarMD, orEnable, unwrapTy, distOf, isRootOf, rootsOf, Kind.isGlobalObject,
    Kind.isPHINode, Kind.isInstruction, Kind.isStoreInst, Kind.isUser, Kind.isArgument,
    Kind.isFunction, Kind.isBlockAddress, Ty.isStructTy, Ty.isFloatingPointTy,
    Ty.isSequentialTy, MDInfo.clone, MDInfo.isInputInfo, MDInfo.enabled, MDInfo.setEnabled, pairModule, backtrackingPairTable, rangeMD]
  · simp [buildConversionQueueForRootValues, buildLoop, forwardLoop, backwardLoop,
    forEachRes, forwardUser, backtrackOperand, initialState, seedRoots, finalizeRoots,
    finalizeStep, mergeRootsInto, hasInfo, setIsRoot, markBacktracking, touch, getInfo, setInfo,
    findInfo, createInfoOfUser, inheritedMetadata, extractGEPIMetadata, gepiWalk,
    candidateDistance, isAnnotationGlobal, eraseLoop, findOrErase, insertAt, exampleExt,
    annotated, scalarMD, orEnable, unwrapTy, distOf, isRootOf, rootsOf, Kind.isGlobalObject,
    Kind.isPHINode, Kind.isInstruction, Kind.isStoreInst, Kind.isUser, Kind.isArgument,
    Kind.isFunction, Kind.isBlockAddress, Ty.isStructTy, Ty.isFloatingPointTy,
    Ty.isSequentialTy, MDInfo.clone, MDInfo.isInputInfo, MDInfo.enabled, MDInfo.setEnabled, staleModule, staleBacktrackingTable]

/-! ## One operand of a backtracking node -/

theorem filter_ne_eq_self (l : List Value) (u : Value) (h : u ∉ l) :
    l.filter (fun x => x != u) = l := by
  rw [List.filter_eq_self]
  intro a ha
  simpa using fun e : a = u => h (e ▸ ha)

theorem insertAt_before_scan (q : List Value) (k : Nat) (u v : Value)
    (hget : q.get? k = some v) (hu : u ∉ q.take k) (huv : u ≠ v) :
    (insertAt (q.filter (fun x => x != u)) k u).get? k = some u ∧
    (insertAt (q.filter (fun x => x != u)) k u).get? (k + 1) = some v ∧
    (insertAt (q.filter (fun x => x != u)) k u).count u = 1 := by
  obtain ⟨hsplit, hlen⟩ := eq_take_cons_drop q k v hget
  have hvu : (v != u) = true := by simpa using Ne.symm huv
  have hfil : q.filter (fun x => x != u)
      = q.take k ++ v :: (q.drop (k + 1)).filter (fun x => x != u) := by
    conv_lhs => rw [hsplit]
    rw [List.filter_append, filter_ne_eq_self _ _ hu]
    simp only [List.filter_cons, hvu, if_true]
  have hins : insertAt (q.filter (fun x => x != u)) k u
      = q.take k ++ u :: v :: (q.drop (k + 1)).filter (fun x => x != u) := by
    unfold insertAt
    rw [hfil]
    have h1 : (q.take k ++ v :: (q.drop (k + 1)).filter (fun x => x != u)).take k
        = q.take k := by
      rw [List.take_left' hlen]
    have h2 : (q.take k ++ v :: (q.drop (k + 1)).filter (fun x => x != u)).drop k
        = v :: (q.drop (k + 1)).filter (fun x => x != u) := by
      rw [List.drop_left' hlen]
    rw [h1, h2]
  rw [hins]
  refine ⟨?_, ?_, ?_⟩
  · rw [List.get?_eq_getElem?, List.getElem?_append_right (by omega)]
    simp [hlen]
  · rw [List.get?_eq_getElem?, List.getElem?_append_right (by omega)]
    simp [hlen]
  · rw [List.count_append, List.count_cons_self, List.count_cons_of_ne huv,
      List.count_eq_zero_of_not_mem hu]
    have : u ∉ (q.drop (k + 1)).filter (fun x => x != u) := by
      intro hm
      rw [mem_filter_ne] at hm
      exact hm.2 rfl
    rw [List.count_eq_zero_of_not_mem this]

/-- C16: one operand `u` of the backtracking instruction `v` that sits at the scan
position (index `next - 1`, the cursor `next` being one past it), when the step
succeeds. An operand that is no user or argument, or a function or block address, or
not of floating-point type changes nothing. For any other operand: `isRoot` of `v` is
false and `isBacktrackingNode` of `u` is true afterwards, and `v` still sits at the
scan position; when `u` occurs before `v` (or is `v` itself) the queue and the cursor
are unchanged; otherwise every later occurrence of `u` is erased, `u` is inserted at
the index of `v`, directly before it, the cursor is advanced by one, `u` is flagged
`isRoot` and occurs once. -/
theorem backtracking_operand_step (E : Ext) (M : Module) (v u : Value)
    (st st' : BuildState × Nat) (hpos : 0 < st.2)
    (hget : st.1.queue.get? (st.2 - 1) = some v)
    (h : backtrackOperand E M v st u = .ok st') :
    (((!(M.kind u).isUser && !(M.kind u).isArgument) = true ∨
        ((M.kind u).isFunction || (M.kind u).isBlockAddress) = true ∨
        E.isFloatType (M.type u) = false) → st' = st) ∧
    ((!(M.kind u).isUser && !(M.kind u).isArgument) = false →
      ((M.kind u).isFunction || (M.kind u).isBlockAddress) = false →
      E.isFloatType (M.type u) = true →
      isRootOf E st'.1.info v = false ∧
      (getInfo E st'.1.info u).isBacktrackingNode = true ∧
      st'.1.queue.get? (st'.2 - 1) = some v ∧
      ((u ∈ st.1.queue.take (st.2 - 1) ∨ u = v) →
        st'.1.queue = st.1.queue ∧ st'.2 = st.2) ∧
      (u ∉ st.1.queue.take (st.2 - 1) → u ≠ v →
        st'.1.queue = insertAt (st.1.queue.filter (fun x => x != u)) (st.2 - 1) u ∧
        st'.2 = st.2 + 1 ∧ isRootOf E st'.1.info u = true ∧
        st'.1.queue.get? (st.2 - 1) = some u ∧ st'.1.queue.get? st.2 = some v ∧
        st'.1.queue.count u = 1)) := by
  have htake : ∀ x, x ∈ st.1.queue.take st.2 ↔ x ∈ st.1.queue.take (st.2 - 1) ∨ x = v := by
    intro x
    have h1 : st.2 = (st.2 - 1) + 1 := by omega
    conv_lhs => rw [h1, List.take_succ, ← List.get?_eq_getElem?, hget]
    simp only [Option.toList_some, List.mem_append, List.mem_singleton]
  constructor
  · intro hin
    unfold backtrackOperand at h
    rcases hin with h1 | h2 | h3
    · rw [if_pos h1] at h
      simp only [Res.ok.injEq] at h
      exact h.symm
    · by_cases h1 : (!(M.kind u).isUser && !(M.kind u).isArgument) = true
      · rw [if_pos h1] at h
        simp only [Res.ok.injEq] at h
        exact h.symm
      · rw [if_neg h1, if_pos h2] at h
        simp only [Res.ok.injEq] at h
        exact h.symm
    · by_cases h1 : (!(M.kind u).isUser && !(M.kind u).isArgument) = true
      · rw [if_pos h1] at h
        simp only [Res.ok.injEq] at h
        exact h.symm
      · by_cases h2 : ((M.kind u).isFunction || (M.kind u).isBlockAddress) = true
        · rw [if_neg h1, if_pos h2] at h
          simp only [Res.ok.injEq] at h
          exact h.symm
        · rw [if_neg h1, if_neg h2, if_pos (by simp [h3])] at h
          simp only [Res.ok.injEq] at h
          exact h.symm
  · intro hord hfun hfloat
    unfold backtrackOperand at h
    simp only [hord, hfun, hfloat, Bool.false_eq_true, if_false, Bool.not_true,
      findOrErase_eq, Nat.sub_zero] at h
    by_cases hm : u ∈ st.1.queue.take st.2
    · simp only [if_pos hm, if_true] at h
      split at h
      · rename_i info4 hc
        simp only [Res.ok.injEq] at h
        subst h
        have hfl := createInfoOfUser_flags E M _ info4 v u hc
        refine ⟨?_, ?_, ?_, fun _ => ⟨rfl, rfl⟩, ?_⟩
        · unfold isRootOf
          rw [(hfl v).1, getInfo_markBacktracking]
          split_ifs with hvu
          · subst hvu
            simp only [getInfo_setIsRoot, if_true]
          · simp only [getInfo_setIsRoot, if_true]
        · rw [(hfl u).2.1, getInfo_markBacktracking]
          simp only [if_true]
        · exact hget
        · intro hn huv
          exact absurd ((htake u).mp hm) (by simp [hn, huv])
      · cases h
      · cases h
    · simp only [if_neg hm, Bool.false_eq_true, if_false] at h
      have hn : u ∉ st.1.queue.take (st.2 - 1) := fun hx => hm ((htake u).mpr (Or.inl hx))
      have huv : u ≠ v := fun hx => hm ((htake u).mpr (Or.inr hx))
      obtain ⟨hq1, hq2, hq3⟩ := insertAt_before_scan st.1.queue (st.2 - 1) u v hget hn huv
      have hq2' : (insertAt (st.1.queue.filter (fun x => x != u)) (st.2 - 1) u).get? st.2
          = some v := by
        have h1 : st.2 - 1 + 1 = st.2 := by omega
        rw [← h1]
        exact hq2
      split at h
      · rename_i info4 hc
        simp only [Res.ok.injEq] at h
        subst h
        have hfl := createInfoOfUser_flags E M _ info4 v u hc
        refine ⟨?_, ?_, ?_, ?_, ?_⟩
        · unfold isRootOf
          rw [(hfl v).1, getInfo_setIsRoot, if_neg (Ne.symm huv), getInfo_markBacktracking,
            if_neg (Ne.symm huv), getInfo_setIsRoot]
          simp only [if_true]
        · rw [(hfl u).2.1, getInfo_setIsRoot]
          simp only [if_true, getInfo_markBacktracking]
        · simp only [Nat.add_sub_cancel]
          exact hq2'
        · intro hin
          rcases hin with hin | hin
          · exact absurd hin hn
          · exact absurd hin huv
        · intro _ _
          refine ⟨rfl, rfl, ?_, hq1, hq2', hq3⟩
          unfold isRootOf
          rw [(hfl u).1, getInfo_setIsRoot]
          simp only [if_true]
      · cases h
      · cases h

theorem backtracking_operand_step_witness :
    ∃ st', backtrackOperand exampleExt pairModule 1
        (initialState exampleExt [1] [] backtrackingPairTable, 1) 0 = .ok st' ∧
      isRootOf exampleExt st'.1.info 1 = false ∧
      (getInfo exampleExt st'.1.info 0).isBacktrackingNode = true ∧
      st'.1.queue = [0, 1] ∧ st'.2 = 2 ∧ isRootOf exampleExt st'.1.info 0 = true := by
  have hex : ∃ st', backtrackOperand exampleExt pairModule 1
      (initialState exampleExt [1] [] backtrackingPairTable, 1) 0 = .ok st' := by
    simp [buildConversionQueueForRootValues, buildLoop, forwardLoop, backwardLoop,
    forEachRes, forwardUser, backtrackOperand, initialState, seedRoots, finalizeRoots,
    finalizeStep, mergeRootsInto, hasInfo, setIsRoot, markBacktracking, touch, getInfo, setInfo,
    findInfo, createInfoOfUser, inheritedMetadata, extractGEPIMetadata, gepiWalk,
    candidateDistance, isAnnotationGlobal, eraseLoop, findOrErase, insertAt, exampleExt,
    annotated, scalarMD, orEnable, unwrapTy, distOf, isRootOf, rootsOf, Kind.isGlobalObject,
    Kind.isPHINode, Kind.isInstruction, Kind.isStoreInst, Kind.isUser, Kind.isArgument,
    Kind.isFunction, Kind.isBlockAddress, Ty.isStructTy, Ty.isFloatingPointTy,
    Ty.isSequentialTy, MDInfo.clone, MDInfo.isInputInfo, MDInfo.enabled, MDInfo.setEnabled, pairModule, backtrackingPairTable, rangeMD]
  obtain ⟨st', hst⟩ := hex
  obtain ⟨-, h2⟩ := backtracking_operand_step exampleExt pairModule 1 0
    (initialState exampleExt [1] [] backtrackingPairTable, 1) st' (by decide) rfl hst
  obtain ⟨hr, hb, -, -, hins⟩ := h2 (by decide) (by decide) (by decide)
  obtain ⟨hq, hn, hru, -, -, -⟩ := hins (by decide) (by decide)
  exact ⟨st', hst, hr, hb, hq, hn, hru⟩

/-! ## Seeding of the formal parameters of a clone -/

/-- One round of the loop over the formal parameters in `createFunctionAndQueue`, for
the parameter `param` at position `i` whose first user stores it to `slot`, and the
caller-side argument `callOperand`. Without an entry of the argument nothing changes.
With an entry that carries the descriptor `md` (the slot being neither the argument nor
the parameter) the slot is appended to the clone-local roots, slot and parameter carry
a clone of `md`, and their root distances are the sums of lines 504 and 512 in the
unsigned distance type: the distance of the argument plus 2 and plus 1 only as long as
these are representable. -/
theorem seedArgument_round (E : Ext) (M : Module) (call : Value)
    (st : Table × List Value) (i : Nat) (param callOperand firstUser slot : Value)
    (hop : (M.operands call).get? i = some callOperand)
    (hfu : (M.users param).head? = some firstUser)
    (hslot : (M.operands firstUser).get? 1 = some slot) :
    (hasInfo st.1 callOperand = false → seedArgument E M call st (i, param) = .ok st) ∧
    (hasInfo st.1 callOperand = true → ∀ md,
      (getInfo E st.1 callOperand).metadata = some md → callOperand ≠ slot → slot ≠ param →
      ∃ T', seedArgument E M call st (i, param) = .ok (T', st.2 ++ [slot]) ∧
        (getInfo E T' slot).metadata = some md.clone ∧
        (getInfo E T' param).metadata = some md.clone ∧
        (getInfo E T' slot).fixpTypeRootDistance
          = ((getInfo E st.1 callOperand).fixpTypeRootDistance + 2) % 2 ^ E.distBits ∧
        (getInfo E T' param).fixpTypeRootDistance
          = ((getInfo E st.1 callOperand).fixpTypeRootDistance + 1) % 2 ^ E.distBits ∧
        ((getInfo E st.1 callOperand).fixpTypeRootDistance + 2 < 2 ^ E.distBits →
          (getInfo E T' slot).fixpTypeRootDistance
            = (getInfo E st.1 callOperand).fixpTypeRootDistance + 2 ∧
          (getInfo E T' param).fixpTypeRootDistance
            = (getInfo E st.1 callOperand).fixpTypeRootDistance + 1)) := by
  constructor
  · intro hno
    unfold seedArgument
    simp only [hop, hfu, hslot, hno, Bool.not_false, if_true]
  · intro hhas md hmd hcs hsp
    have hps : param ≠ slot := Ne.symm hsp
    unfold seedArgument
    simp only [hop, hfu, hslot, hhas, Bool.not_true, Bool.false_eq_true, if_false,
      getInfo_touch, hmd, getInfo_setInfo, if_neg hcs]
    refine ⟨_, rfl, ?_, ?_, ?_, ?_, ?_⟩
    · simp only [getInfo_setInfo, if_neg hsp, if_true]
    · simp only [getInfo_setInfo, if_true]
    · simp only [getInfo_setInfo, if_neg hsp, if_true]
    · simp only [getInfo_setInfo, if_true]
    · intro hfit
      simp only [getInfo_setInfo, if_neg hsp, if_true]
      exact ⟨Nat.mod_eq_of_lt hfit, Nat.mod_eq_of_lt (by omega)⟩

set_option maxHeartbeats 4000000 in
/-- C17, failing run: on `nestedCallProg` the pass ends, and the seeding of lines
490-513 has not added 2 and 1 to the distance of the caller argument. The clone 300 of
`f` holds the copy 304 of the annotated local 21 of `f`; lines 446-452 give 304 an entry
at the default distance `2 ^ 32 - 1` and list the call 305 = `h(304)` for
specialization. For that call site the slot 308 of the clone 306 of `h` gets the root
distance 1 and the parameter 307 the root distance 0: the unsigned sums of lines 504
and 512 have wrapped. The call 23 = `h(21)` of `f` itself, whose argument is at
distance 0, gives the slot 312 and the parameter 311 the distances 2 and 1. -/
theorem seeding_wraps_at_default_distance :
    ∃ s, runOnModule (exampleEnv 20) 3 [1, 21] nestedCallStart = .ok s ∧
      s.prog.toModule.operands 305 = [304, 306] ∧
      s.prog.toModule.operands 309 = [307, 308] ∧
      hasInfo s.info 304 = true ∧
      (getInfo exampleExt s.info 304).fixpTypeRootDistance = 4294967295 ∧
      (getInfo exampleExt s.info 308).fixpTypeRootDistance = 1 ∧
      (getInfo exampleExt s.info 307).fixpTypeRootDistance = 0 ∧
      s.prog.toModule.operands 23 = [21, 310] ∧
      (getInfo exampleExt s.info 21).fixpTypeRootDistance = 0 ∧
      (getInfo exampleExt s.info 312).fixpTypeRootDistance = 2 ∧
      (getInfo exampleExt s.info 311).fixpTypeRootDistance = 1 := by
  simp [buildConversionQueueForRootValues, buildLoop, forwardLoop, backwardLoop,
    forEachRes, forwardUser, backtrackOperand, initialState, seedRoots, finalizeRoots,
    finalizeStep, mergeRootsInto, hasInfo, setIsRoot, markBacktracking, touch, getInfo, setInfo,
    findInfo, createInfoOfUser, inheritedMetadata, extractGEPIMetadata, gepiWalk,
    candidateDistance, isAnnotationGlobal, eraseLoop, findOrErase, insertAt, exampleExt,
    annotated, scalarMD, orEnable, unwrapTy, distOf, isRootOf, rootsOf, Kind.isGlobalObject,
    Kind.isPHINode, Kind.isInstruction, Kind.isStoreInst, Kind.isUser, Kind.isArgument,
    Kind.isFunction, Kind.isBlockAddress, Ty.isStructTy, Ty.isFloatingPointTy,
    Ty.isSequentialTy, MDInfo.clone, MDInfo.isInputInfo, MDInfo.enabled, MDInfo.setEnabled, runOnModule, generateFunctionSpace, createFunctionAndQueue, seedArgument,
    setMetadataOfValue, reattachStep, removeAnnotationCalls, readLocalAnnotations,
    readLocalAnnotation, parseAnnotation, storeSeeded, Prog.toModule, Prog.usersOf, Prog.insts,
    Prog.findInst, Prog.findFunc, Prog.findParam, Prog.findOther, Prog.parentOf,
    Prog.updateInst, Prog.setCalledFunction, Prog.cloneFunction, Prog.cloneMap, Prog.remap,
    Inst.operands, Inst.calledFunction, Kind.isCallOrInvoke, allocaInst, floatInst, storeInst,
    callInst, exampleEnv, List.enum, List.enumFrom, specializeCall, nestedCallProg, nestedCallStart]

/-! ## Order of the queue after a forward pass -/

theorem pair_sublist_moved (q : List Value) (w x u : Value) (h : List.Sublist [x, u] q)
    (hx : x ≠ w) : List.Sublist [x, u] (q.filter (fun y => y != w) ++ [w]) := by
  by_cases hu : u = w
  · subst hu
    have hxq : x ∈ q := h.subset (List.mem_cons_self _ _)
    have h1 : List.Sublist [x] (q.filter (fun y => y != u)) :=
      List.singleton_sublist.mpr ((mem_filter_ne u x q).mpr ⟨hxq, hx⟩)
    exact h1.append (List.Sublist.refl [u])
  · have h1 := h.filter (fun y => y != w)
    have h2 : [x, u].filter (fun y => y != w) = [x, u] := by
      simp [List.filter_cons, hx, hu]
    rw [h2] at h1
    exact h1.trans (List.sublist_append_left _ _)

theorem get?_unique_of_nodup (q : List Value) (hnd : q.Nodup) (i j : Nat) (x : Value)
    (hi : q.get? i = some x) (hj : q.get? j = some x) : i = j := by
  rw [List.get?_eq_getElem?] at hi hj
  obtain ⟨hil, hix⟩ := List.getElem?_eq_some_iff.mp hi
  obtain ⟨hjl, hjx⟩ := List.getElem?_eq_some_iff.mp hj
  exact (List.Nodup.getElem_inj_iff hnd).mp (hix.trans hjx.symm)

theorem position_after_of_pair_sublist (q : List Value) (hnd : q.Nodup) (i : Nat)
    (x u : Value) (hget : q.get? i = some x) (h : List.Sublist [x, u] q) :
    ∃ k, i < k ∧ q.get? k = some u := by
  obtain ⟨r1, r2, hq, hx1, hu2⟩ := List.cons_sublist_iff.mp h
  have hu : u ∈ r2 := List.singleton_sublist.mp hu2
  obtain ⟨j, hj⟩ := List.mem_iff_get?.mp hx1
  obtain ⟨k, hk⟩ := List.mem_iff_get?.mp hu
  have hjl : j < r1.length := by
    rw [List.get?_eq_getElem?] at hj
    exact (List.getElem?_eq_some_iff.mp hj).1
  have hqj : q.get? j = some x := by
    rw [hq, List.get?_eq_getElem?, List.getElem?_append_left hjl, ← List.get?_eq_getElem?]
    exact hj
  have hij : i = j := get?_unique_of_nodup q hnd i j x hget hqj
  refine ⟨r1.length + k, by omega, ?_⟩
  rw [hq, List.get?_eq_getElem?, List.getElem?_append_right (by omega),
    ← List.get?_eq_getElem?]
  simpa using hk

theorem forwardUser_order (E : Ext) (M : Module) (hphi : OnlyPhiSelfUse M) (v u : Value)
    (st st' : BuildState × Nat) (hu : u ∈ M.users v)
    (hnd : st.1.queue.Nodup) (hvis : v ∈ st.1.visited)
    (hget : st.1.queue.get? st.2 = some v)
    (hinv : ∀ x ∈ st.1.queue.take st.2, ConsumersAfter M st.1.queue x)
    (h : forwardUser E M v st u = .ok st') :
    (st'.1.queue.Nodup ∧ v ∈ st'.1.visited ∧ st'.1.queue.get? st'.2 = some v ∧
      ∀ x ∈ st'.1.queue.take st'.2, ConsumersAfter M st'.1.queue x) ∧
    (isAnnotationGlobal M u = false → (M.kind u).isPHINode = false →
      List.Sublist [v, u] st'.1.queue) ∧
    (∀ b, List.Sublist [v, b] st.1.queue → List.Sublist [v, b] st'.1.queue) := by
  rcases forwardUser_ok E M v u st st' h with
    ⟨rfl, hskip⟩ | ⟨-, hnophi, info2, -, -, hq, hv, -, -, hnext⟩
  · refine ⟨⟨hnd, hvis, hget, hinv⟩, ?_, fun b hb => hb⟩
    intro hg hp
    rcases hskip with hg' | ⟨hp', -⟩
    · rw [hg] at hg'; cases hg'
    · rw [hp] at hp'; cases hp'
  · have huv : u ≠ v := by
      intro huv
      subst huv
      exact hnophi ⟨hphi u hu, hvis⟩
    obtain ⟨hg1, hg2⟩ := moved_scan st.1.queue st.2 u v hget huv
    have hvq : v ∈ st.1.queue := List.get?_mem hget
    refine ⟨⟨?_, hv ▸ hvis, ?_, ?_⟩, ?_, ?_⟩
    · rw [hq]; exact nodup_moved _ _ hnd
    · rw [hq, hnext]; exact hg1
    · intro x hx
      rw [hq, hnext, hg2, mem_filter_ne] at hx
      intro w hw hpw
      rw [hq]
      exact pair_sublist_moved _ u x w (hinv x hx.1 w hw hpw) hx.2
    · intro _ _
      rw [hq]
      have h1 : List.Sublist [v] (st.1.queue.filter (fun y => y != u)) :=
        List.singleton_sublist.mpr ((mem_filter_ne u v _).mpr ⟨hvq, Ne.symm huv⟩)
      exact h1.append (List.Sublist.refl [u])
    · intro b hb
      rw [hq]
      exact pair_sublist_moved _ u v b hb (Ne.symm huv)

theorem forwardLoop_ordered (E : Ext) (M : Module) (hphi : OnlyPhiSelfUse M) :
    ∀ (fuel : Nat) (s : BuildState) (next : Nat) (s' : BuildState),
      s.queue.Nodup → (∀ x ∈ s.queue.take next, ConsumersAfter M s.queue x) →
      forwardLoop E M fuel s next = .ok s' →
      s'.queue.Nodup ∧ ∀ x ∈ s'.queue, ConsumersAfter M s'.queue x := by
  intro fuel
  induction fuel with
  | zero =>
    intro s next s' hnd hinv h
    unfold forwardLoop at h
    cases hq : s.queue.get? next with
    | none =>
      rw [hq] at h
      simp only [Res.ok.injEq] at h
      subst h
      have hlen : s.queue.length ≤ next := by
        rw [List.get?_eq_none] at hq
        exact hq
      refine ⟨hnd, ?_⟩
      intro x hx
      rw [← List.take_of_length_le hlen] at hx
      exact hinv x hx
    | some v => rw [hq] at h; cases h
  | succ fuel ih =>
    intro s next s' hnd hinv h
    unfold forwardLoop at h
    cases hq : s.queue.get? next with
    | none =>
      rw [hq] at h
      simp only [Res.ok.injEq] at h
      subst h
      have hlen : s.queue.length ≤ next := by
        rw [List.get?_eq_none] at hq
        exact hq
      refine ⟨hnd, ?_⟩
      intro x hx
      rw [← List.take_of_length_le hlen] at hx
      exact hinv x hx
    | some v =>
      rw [hq] at h
      simp only at h
      cases hf : forEachRes (forwardUser E M v) (M.users v)
          ({ s with visited := v :: s.visited }, next) with
      | ok st =>
        rw [hf] at h
        obtain ⟨hI, hpost⟩ := forEachRes_forall_mem (forwardUser E M v)
          (fun t => t.1.queue.Nodup ∧ v ∈ t.1.visited ∧ t.1.queue.get? t.2 = some v ∧
            ∀ x ∈ t.1.queue.take t.2, ConsumersAfter M t.1.queue x)
          (fun u t => isAnnotationGlobal M u = false → (M.kind u).isPHINode = false →
            List.Sublist [v, u] t.1.queue)
          (M.users v)
          (fun t a t' ha ht hstep =>
            (forwardUser_order E M hphi v a t t' ha ht.1 ht.2.1 ht.2.2.1 ht.2.2.2 hstep).1)
          (fun t a t' ha ht hstep =>
            (forwardUser_order E M hphi v a t t' ha ht.1 ht.2.1 ht.2.2.1 ht.2.2.2 hstep).2.1)
          (fun t a t' b ha ht hb hstep hg hp =>
            (forwardUser_order E M hphi v a t t' ha ht.1 ht.2.1 ht.2.2.1 ht.2.2.2 hstep).2.2
              b (hb hg hp))
          _ _ ⟨hnd, List.mem_cons_self v _, hq, hinv⟩ hf
        obtain ⟨hnd1, -, hget1, hinv1⟩ := hI
        refine ih st.1 (st.2 + 1) s' hnd1 ?_ h
        intro x hx
        rw [List.take_succ, ← List.get?_eq_getElem?, hget1] at hx
        simp only [Option.toList_some, List.mem_append, List.mem_singleton] at hx
        rcases hx with hx | hx
        · exact hinv1 x hx
        · subst hx
          intro u hu hp
          exact hpost u hu.1 hu.2 hp
      | crash => rw [hf] at h; cases h
      | timeout => rw [hf] at h; cases h

/-- C18, amended: in a graph in which only PHI nodes use their own value, at the end of
every forward pass that starts from a duplicate-free queue and terminates, the queue is
duplicate-free and ordered producers-first: for every value `v` of the queue and every
user `u` of `v` that is neither the annotation global nor a PHI node, `u` occurs in the
queue at a position strictly after `v`. -/
theorem forward_pass_orders_producers_first (E : Ext) (M : Module) (hphi : OnlyPhiSelfUse M)
    (fuel : Nat) (s s' : BuildState) (hnd : s.queue.Nodup)
    (h : forwardLoop E M fuel s 0 = .ok s') :
    s'.queue.Nodup ∧
    ∀ i v u, s'.queue.get? i = some v → u ∈ M.users v → isAnnotationGlobal M u = false →
      (M.kind u).isPHINode = false → ∃ k, i < k ∧ s'.queue.get? k = some u := by
  obtain ⟨hnd', hord⟩ := forwardLoop_ordered E M hphi fuel s 0 s' hnd
    (by intro x hx; simp at hx) h
  refine ⟨hnd', ?_⟩
  intro i v u hget hu hg hp
  exact position_after_of_pair_sublist s'.queue hnd' i v u hget
    (hord v (List.get?_mem hget) u ⟨hu, hg⟩ hp)

theorem forward_pass_orders_producers_first_witness :
    OnlyPhiSelfUse pairModule ∧ [0].Nodup ∧
    ∃ s', forwardLoop exampleExt pairModule 4 (initialState exampleExt [0] [] farTable) 0
        = .ok s' ∧
      ∃ k, 0 < k ∧ s'.queue.get? k = some 1 := by
  have hex : ∃ s', forwardLoop exampleExt pairModule 4
      (initialState exampleExt [0] [] farTable) 0 = .ok s' ∧ s'.queue.get? 0 = some 0 := by
    simp [buildConversionQueueForRootValues, buildLoop, forwardLoop, backwardLoop,
    forEachRes, forwardUser, backtrackOperand, initialState, seedRoots, finalizeRoots,
    finalizeStep, mergeRootsInto, hasInfo, setIsRoot, markBacktracking, touch, getInfo, setInfo,
    findInfo, createInfoOfUser, inheritedMetadata, extractGEPIMetadata, gepiWalk,
    candidateDistance, isAnnotationGlobal, eraseLoop, findOrErase, insertAt, exampleExt,
    annotated, scalarMD, orEnable, unwrapTy, distOf, isRootOf, rootsOf, Kind.isGlobalObject,
    Kind.isPHINode, Kind.isInstruction, Kind.isStoreInst, Kind.isUser, Kind.isArgument,
    Kind.isFunction, Kind.isBlockAddress, Ty.isStructTy, Ty.isFloatingPointTy,
    Ty.isSequentialTy, MDInfo.clone, MDInfo.isInputInfo, MDInfo.enabled, MDInfo.setEnabled, pairModule, farTable]
  obtain ⟨s', hs, h0⟩ := hex
  exact ⟨pairModule_onlyPhiSelfUse, by decide, s', hs,
    (forward_pass_orders_producers_first exampleExt pairModule pairModule_onlyPhiSelfUse 4
      (initialState exampleExt [0] [] farTable) s' (by decide) hs).2 0 0 1 h0 (by decide)
      (by decide) (by decide)⟩

/-- C18 fails as stated: in `selfUseModule` the instruction 0 uses its own value and is
no PHI node. The forward pass from the queue 0, 1 ends with the queue 1, 0: the user 0
of the queue value 0 does not occur after it, and the user 2 of the queue value 1,
which is neither a PHI node nor the annotation global, does not occur in the queue at
all. -/
theorem forward_pass_order_fails_on_self_use :
    ∃ s', forwardLoop exampleExt selfUseModule 4
        (initialState exampleExt [0, 1] [] selfUseTable) 0 = .ok s' ∧
      s'.queue = [1, 0] ∧
      2 ∈ selfUseModule.users 1 ∧ isAnnotationGlobal selfUseModule 2 = false ∧
      (selfUseModule.kind 2).isPHINode = false ∧
      2 ∉ s'.queue := by
  simp [buildConversionQueueForRootValues, buildLoop, forwardLoop, backwardLoop,
    forEachRes, forwardUser, backtrackOperand, initialState, seedRoots, finalizeRoots,
    finalizeStep, mergeRootsInto, hasInfo, setIsRoot, markBacktracking, touch, getInfo, setInfo,
    findInfo, createInfoOfUser, inheritedMetadata, extractGEPIMetadata, gepiWalk,
    candidateDistance, isAnnotationGlobal, eraseLoop, findOrErase, insertAt, exampleExt,
    annotated, scalarMD, orEnable, unwrapTy, distOf, isRootOf, rootsOf, Kind.isGlobalObject,
    Kind.isPHINode, Kind.isInstruction, Kind.isStoreInst, Kind.isUser, Kind.isArgument,
    Kind.isFunction, Kind.isBlockAddress, Ty.isStructTy, Ty.isFloatingPointTy,
    Ty.isSequentialTy, MDInfo.clone, MDInfo.isInputInfo, MDInfo.enabled, MDInfo.setEnabled, selfUseModule, selfUseTable]

end Taffo
